import Mathlib

/-!
# cloudventory: bounded fan-out EC2 scan and upsert persistence

A shallow embedding of

* `fetcher.go`, `runner.go`, `types.go` (package `ec2inventory`): option validation and
  the region fan-out `FetchInventoryAcrossRegions`, whose goroutines, counting semaphore
  and wait group are an explicit labelled transition system;
* `internal/cloud/aws/{s3,ec2,rds,lambda,dynamodb}/insert.go`: the five `InsertResources`
  functions, run against a small transactional store with upsert-by-key statements;
* `internal/cloud/aws/{ec2,dynamodb,s3}/fetch.go`: `joinStrings`, the row builds and the
  single-call `FetchResources` of packages `ec2` and `dynamodb`;
* `cmd/main.go`: `run`, `runSequential`, and `runParallel` as a second transition system;
* `main.go`: `storeCloudventory` over a file system that can fail, and the exit status of
  `main`.

Go `int` and `time.Duration` values are mathematical integers (no arithmetic is performed
on them, only comparisons with zero); a nil slice is the empty list; a nil pointer is
`none`.
-/

namespace Cloudventory

/-! ## Options (`fetcher.go`) -/

/-- Options controls how EC2 inventory is fetched (`fetcher.go`, type `Options`). -/
structure Options where
  ChunkSize : Int
  RegionFilter : List String
  MaxRetries : Int
  EnableParallelScan : Bool
  Timeout : Int
  deriving Repr, DecidableEq

/-- The method `Options.Validate`; `none` is the nil error, `some msg` is `errors.New msg`. -/
def Options.Validate (o : Options) : Option String :=
  if o.ChunkSize ≤ 0 then some "chunk size must be greater than 0"
  else if o.MaxRetries < 0 then some "max retries cannot be negative"
  else if o.Timeout ≤ 0 then some "timeout must be set"
  else none

/-! ## Provider records and the inventory row (`types.go`, SDK types read by `fetcher.go`) -/

/-- The SDK type `types.Tag`: both members are string pointers. -/
structure Tag where
  Key : Option String
  Value : Option String
  deriving Repr, DecidableEq

/-- The members of the SDK type `types.Instance` that `fetcher.go` reads. Pointer-typed
members are options; `State`, `Placement` and `Monitoring` are pointers to structures whose
one member read by the code is kept (`State.Name`, `Placement.AvailabilityZone`,
`Monitoring.State`); `IamInstanceProfile` is a pointer to a structure with a pointer `Arn`. -/
structure Instance where
  InstanceId : Option String
  Tags : List Tag
  State : Option String
  LaunchTime : Option Nat
  Placement : Option (Option String)
  InstanceType : String
  Monitoring : Option String
  IamInstanceProfile : Option (Option String)
  KeyName : Option String
  SubnetId : Option String
  VpcId : Option String
  PublicIpAddress : Option String
  PublicDnsName : Option String
  PrivateIpAddress : Option String
  PrivateDnsName : Option String
  NetworkInterfaces : List String
  SecurityGroups : List String
  deriving Repr, DecidableEq

/-- The row type `EC2Inventory` of `types.go`. The Go map `Tags` is an association list with
at most one pair per key. -/
structure EC2Inventory where
  Account : String
  AccountArn : String
  Arn : String
  InstanceID : String
  Name : String
  State : String
  LaunchTime : Nat
  Region : String
  AvailabilityZone : String
  InstanceType : String
  Monitoring : String
  IAMRole : String
  KeyName : String
  SubnetID : String
  VpcID : String
  PublicIP : String
  PublicDNSName : String
  PrivateIP : String
  PrivateDNSName : String
  NetworkInterfaces : List String
  SecurityGroups : List String
  Tags : List (String × String)
  Errors : List String
  deriving Repr, DecidableEq

/-- The SDK helper `aws.ToString`: the empty string for a nil pointer. -/
def ToString (p : Option String) : String := p.getD ""

/-- The SDK helper `aws.ToTime`: the zero time for a nil pointer. -/
def ToTime (p : Option Nat) : Nat := p.getD 0

/-- The function `getTagValue`: the value of the first tag whose key is `key`. -/
def getTagValue : List Tag → String → String
  | [], _ => ""
  | t :: ts, key => if ToString t.Key = key then ToString t.Value else getTagValue ts key

/-- Assignment `m[k] = v` on a Go map kept as an association list. -/
def mapSet : List (String × String) → String → String → List (String × String)
  | [], k, v => [(k, v)]
  | (k0, v0) :: m, k, v => if k0 = k then (k0, v) :: m else (k0, v0) :: mapSet m k v

/-- The function `extractTags`: the loop assigns `result[key] = value` tag by tag. -/
def extractTags (tags : List Tag) : List (String × String) :=
  tags.foldl (fun result t => mapSet result (ToString t.Key) (ToString t.Value)) []

/-- Splitting at every occurrence of one character (`strings.Split` with a one-character
separator): always at least one part. -/
def splitAt (sep : Char) : List Char → List (List Char)
  | [] => [[]]
  | c :: cs =>
    if c = sep then [] :: splitAt sep cs
    else
      match splitAt sep cs with
      | [] => [[c]]
      | p :: ps => (c :: p) :: ps

/-- The function `extractIAMRoleName`. -/
def extractIAMRoleName (inst : Instance) : String :=
  match inst.IamInstanceProfile with
  | none => ""
  | some none => ""
  | some (some arn) =>
    let parts := splitAt '/' arn.data
    if parts.length < 2 then "" else String.mk (parts.getLast?.getD [])

/-- The output of `cfg.GetCallerIdentity`: both members are string pointers. -/
structure CallerIdentity where
  Account : Option String
  Arn : Option String
  deriving Repr, DecidableEq

/-- The body of the innermost loop of `FetchInventoryAcrossRegions` up to the append: the
row built for one instance. `none` is a runtime panic: dereferencing a nil
`outCallerIdentity.Account` or `.Arn`, or selecting a member through a nil `inst.State`,
`inst.Placement` or `inst.Monitoring`. -/
def buildInventory (ident : CallerIdentity) (region : String) (inst : Instance) :
    Option EC2Inventory :=
  match ident.Account, ident.Arn, inst.State, inst.Placement, inst.Monitoring with
  | some account, some accountArn, some state, some az, some monitoring =>
    some
      { Account := account
        AccountArn := accountArn
        Arn :=
          "arn:aws:ec2:" ++ region ++ ":" ++ account ++ ":instance/" ++ ToString inst.InstanceId
        InstanceID := ToString inst.InstanceId
        Name := getTagValue inst.Tags "Name"
        State := state
        LaunchTime := ToTime inst.LaunchTime
        Region := region
        AvailabilityZone := ToString az
        InstanceType := inst.InstanceType
        Monitoring := monitoring
        IAMRole := extractIAMRoleName inst
        KeyName := ToString inst.KeyName
        SubnetID := ToString inst.SubnetId
        VpcID := ToString inst.VpcId
        PublicIP := ToString inst.PublicIpAddress
        PublicDNSName := ToString inst.PublicDnsName
        PrivateIP := ToString inst.PrivateIpAddress
        PrivateDNSName := ToString inst.PrivateDnsName
        NetworkInterfaces := inst.NetworkInterfaces
        SecurityGroups := inst.SecurityGroups
        Tags := extractTags inst.Tags
        Errors := [] }
  | _, _, _, _, _ => none

/-! ## The provider boundary -/

/-- One answer of `paginator.NextPage`: a page of reservations, each a list of instances,
or an error. -/
inductive PageResult where
  | page (reservations : List (List Instance))
  | error (err : String)
  deriving Repr, DecidableEq

/-- The provider as the scan sees it: the answer of `cfg.GetCallerIdentity`, the answer of
`cfg.ListRegions` (the `RegionName` pointers of `outListRegions.Regions`), and for every
region the answers its `DescribeInstances` paginator gives, in order; `HasMorePages` holds
while answers are left. -/
structure Provider where
  GetCallerIdentity : Except String CallerIdentity
  ListRegions : Except String (List (Option String))
  DescribeInstances : String → List PageResult

/-- A call made to the provider. -/
inductive ProviderCall where
  | getCallerIdentity
  | listRegions
  | nextPage (region : String)
  deriving Repr, DecidableEq

/-- A line written to standard output by a region task (`fmt.Printf`). -/
inductive LogLine where
  | fetchFailed (region : String) (err : String)
  | panicked (region : String)
  deriving Repr, DecidableEq

/-! ## `FetchInventoryAcrossRegions` as a transition system -/

/-- Where a region goroutine stands: in its body; body left (by `break`, by the loop
ending or by a recovered panic) with the deferred `<-sem` next; slot released with the
deferred `wg.Done()` next; finished. -/
inductive TaskPc where
  | running
  | releasing
  | finishing
  | done
  deriving Repr, DecidableEq

/-- One goroutine launched by the dispatch loop: its region, the answers its paginator has
not yet fetched, and the instances of the current page not yet turned into rows. -/
structure Task where
  region : String
  pages : List PageResult
  pending : List Instance
  pc : TaskPc
  deriving Repr, DecidableEq

/-- Where the calling goroutine stands: at the entry of the function; in the dispatch loop
(or at `wg.Wait()` once the loop is over), holding the caller identity; returned. -/
inductive MainPc where
  | entry
  | loop (ident : CallerIdentity)
  | returned (result : List EC2Inventory) (err : Option String)
  deriving Repr, DecidableEq

/-- The state of one call: `todo` are the entries of `outListRegions.Regions` the loop has
not reached, `tasks` the goroutines in launch order, `sem` the number of tokens in the
channel `sem`, `wg` the wait-group counter, `results` the shared slice, `calls` and `stdout`
what the call has asked of the provider and printed so far. -/
structure State where
  pc : MainPc
  todo : List (Option String)
  tasks : List Task
  sem : Nat
  wg : Nat
  results : List EC2Inventory
  calls : List ProviderCall
  stdout : List LogLine
  deriving Repr, DecidableEq

/-- The state at the call. -/
def State.init : State :=
  { pc := .entry, todo := [], tasks := [], sem := 0, wg := 0, results := [], calls := [],
    stdout := [] }

/-- The goroutine the loop launches for `region`: a fresh paginator, no page fetched. -/
def Task.start (p : Provider) (region : String) : Task :=
  { region := region, pages := p.DescribeInstances region, pending := [], pc := .running }

/-- The test of the dispatch loop that lets a region through: the negation of
`len(opts.RegionFilter) > 0 && !slices.Contains(opts.RegionFilter, region)`. -/
def passesFilter (opts : Options) (region : String) : Bool :=
  !(decide (opts.RegionFilter.length > 0) && !opts.RegionFilter.contains region)

/-- One step of the calling goroutine. At the entry: validation, then the two provider
calls, each returning early on error. In the loop: `continue` for a filtered-out region;
otherwise `wg.Add(1)`, the send `sem <- struct{}{}` (possible only while the channel holds
fewer than `ChunkSize` tokens, else the goroutine is blocked and there is no step) and the
`go` statement. After the loop: `wg.Wait()` (possible only at counter zero) and the return
of `results, nil`. -/
def stepMain (p : Provider) (opts : Options) (s : State) : Option State :=
  match s.pc with
  | .entry =>
    match opts.Validate with
    | some err => some { s with pc := .returned [] (some err) }
    | none =>
      match p.GetCallerIdentity with
      | .error err =>
        some { s with pc := .returned [] (some err), calls := s.calls ++ [.getCallerIdentity] }
      | .ok ident =>
        match p.ListRegions with
        | .error err =>
          some { s with
            pc := .returned [] (some err)
            calls := s.calls ++ [.getCallerIdentity, .listRegions] }
        | .ok regions =>
          some { s with
            pc := .loop ident
            todo := regions
            calls := s.calls ++ [.getCallerIdentity, .listRegions] }
  | .loop _ =>
    match s.todo with
    | regionEntry :: rest =>
      let region := ToString regionEntry
      if passesFilter opts region then
        if (s.sem : Int) < opts.ChunkSize then
          some { s with
            todo := rest
            wg := s.wg + 1
            sem := s.sem + 1
            tasks := s.tasks ++ [Task.start p region] }
        else none
      else some { s with todo := rest }
    | [] => if s.wg = 0 then some { s with pc := .returned s.results none } else none
  | .returned _ _ => none

/-- One step of the goroutine `i`. In its body: the next instance of the current page is
turned into a row and appended under the mutex, or the build panics, the deferred recover
prints and the body is left; with the page used up, `HasMorePages` is tested and the next
page fetched, an error being printed and followed by `break`. Then the deferred calls:
`<-sem`, then `wg.Done()`. -/
def stepTask (s : State) (i : Nat) : Option State :=
  match s.pc, s.tasks[i]? with
  | .loop ident, some t =>
    match t.pc with
    | .running =>
      match t.pending with
      | inst :: more =>
        match buildInventory ident t.region inst with
        | some row =>
          some { s with
            results := s.results ++ [row]
            tasks := s.tasks.set i { t with pending := more } }
        | none =>
          some { s with
            stdout := s.stdout ++ [.panicked t.region]
            tasks := s.tasks.set i { t with pc := .releasing } }
      | [] =>
        match t.pages with
        | [] => some { s with tasks := s.tasks.set i { t with pc := .releasing } }
        | .error err :: _ =>
          some { s with
            calls := s.calls ++ [.nextPage t.region]
            stdout := s.stdout ++ [.fetchFailed t.region err]
            tasks := s.tasks.set i { t with pc := .releasing } }
        | .page reservations :: rest =>
          some { s with
            calls := s.calls ++ [.nextPage t.region]
            tasks := s.tasks.set i { t with pages := rest, pending := reservations.flatten } }
    | .releasing =>
      some { s with sem := s.sem - 1, tasks := s.tasks.set i { t with pc := .finishing } }
    | .finishing =>
      some { s with wg := s.wg - 1, tasks := s.tasks.set i { t with pc := .done } }
    | .done => none
  | _, _ => none

/-- Who moves next. -/
inductive Action where
  | main
  | task (i : Nat)
  deriving Repr, DecidableEq

/-- One step of the whole call. -/
def step (p : Provider) (opts : Options) (s : State) : Action → Option State
  | .main => stepMain p opts s
  | .task i => stepTask s i

/-- The state a schedule leads to, if each of its steps is possible. -/
def run (p : Provider) (opts : Options) : State → List Action → Option State
  | s, [] => some s
  | s, a :: sched =>
    match step p opts s a with
    | some s1 => run p opts s1 sched
    | none => none

/-- The states of the call `FetchInventoryAcrossRegions(ctx, opts)` against provider `p`. -/
def Reachable (p : Provider) (opts : Options) (s : State) : Prop :=
  ∃ sched, run p opts State.init sched = some s

/-- The method `EC2InventoryService.RunInventory` (`runner.go`): its own validation, then
the call of `FetchInventoryAcrossRegions` under the given schedule. -/
def RunInventory (p : Provider) (opts : Options) (sched : List Action) : Option State :=
  match opts.Validate with
  | some err => some { State.init with pc := .returned [] (some err) }
  | none => run p opts State.init sched

/-! ## What one region task does when followed alone

These functions describe the body of one goroutine step by step in program order; the
transition system above interleaves the same steps with those of the other goroutines. -/

/-- The rows appended for a list of instances: one per instance, up to the first one whose
build panics. -/
def instRows (ident : CallerIdentity) (region : String) : List Instance → List EC2Inventory
  | [] => []
  | inst :: more =>
    match buildInventory ident region inst with
    | some row => row :: instRows ident region more
    | none => []

/-- Whether the build of some instance of the list panics. -/
def instPanics (ident : CallerIdentity) (region : String) : List Instance → Bool
  | [] => false
  | inst :: more =>
    match buildInventory ident region inst with
    | some _ => instPanics ident region more
    | none => true

/-- The rows a paginator loop appends, given the answers still to come. -/
def pagesRows (ident : CallerIdentity) (region : String) : List PageResult → List EC2Inventory
  | [] => []
  | .error _ :: _ => []
  | .page reservations :: rest =>
    instRows ident region reservations.flatten ++
      (if instPanics ident region reservations.flatten then [] else pagesRows ident region rest)

/-- The lines a paginator loop prints, given the answers still to come: none when every
page is fetched and every row built, else the one line of the failure that ends the task. -/
def pagesLines (ident : CallerIdentity) (region : String) : List PageResult → List LogLine
  | [] => []
  | .error err :: _ => [.fetchFailed region err]
  | .page reservations :: rest =>
    if instPanics ident region reservations.flatten then [.panicked region]
    else pagesLines ident region rest

/-- The rows a task will still append. -/
def Task.rows (ident : CallerIdentity) (t : Task) : List EC2Inventory :=
  match t.pc with
  | .running =>
    instRows ident t.region t.pending ++
      (if instPanics ident t.region t.pending then [] else pagesRows ident t.region t.pages)
  | _ => []

/-- The lines a task will still print. -/
def Task.lines (ident : CallerIdentity) (t : Task) : List LogLine :=
  match t.pc with
  | .running =>
    if instPanics ident t.region t.pending then [.panicked t.region]
    else pagesLines ident t.region t.pages
  | _ => []

/-- Whether a task holds a slot of the semaphore: admitted, `<-sem` not yet executed. -/
def Task.holdsSlot (t : Task) : Bool :=
  match t.pc with
  | .running => true
  | .releasing => true
  | _ => false

/-- Whether a task has not yet called `wg.Done()`. -/
def Task.unfinished (t : Task) : Bool :=
  match t.pc with
  | .done => false
  | _ => true

/-- The number of tasks that hold a slot. -/
def State.admitted (s : State) : Nat := (s.tasks.filter Task.holdsSlot).length

/-- The regions the loop lets through, in order, out of a list of region entries. -/
def dispatched (opts : Options) (regions : List (Option String)) : List String :=
  (regions.map ToString).filter (passesFilter opts)

/-- The rows the whole scan appends: for every dispatched region those of its task. -/
def scanRows (p : Provider) (opts : Options) (ident : CallerIdentity)
    (regions : List (Option String)) : List EC2Inventory :=
  (dispatched opts regions).flatMap (fun r => pagesRows ident r (p.DescribeInstances r))

/-- The lines the whole scan prints, task by task. -/
def scanLines (p : Provider) (opts : Options) (ident : CallerIdentity)
    (regions : List (Option String)) : List LogLine :=
  (dispatched opts regions).flatMap (fun r => pagesLines ident r (p.DescribeInstances r))

/-- The failure entries a returned value carries: the only place of `EC2Inventory` for a
failure is the member `Errors` of a row, read here with the row's region as the target. -/
def failureLedger (result : List EC2Inventory) : List (String × String) :=
  result.flatMap (fun row => row.Errors.map (fun e => (row.Region, e)))

/-- The steps a paginator loop can still take, given the answers still to come. -/
def pagesCost : List PageResult → Nat
  | [] => 0
  | .error _ :: rest => 1 + pagesCost rest
  | .page reservations :: rest => 1 + reservations.flatten.length + pagesCost rest

/-- An upper bound on the steps a task can still take. -/
def Task.cost (t : Task) : Nat :=
  match t.pc with
  | .running => t.pending.length + pagesCost t.pages + 3
  | .releasing => 2
  | .finishing => 1
  | .done => 0

/-- The steps the loop can still cause for the entries it has not reached. -/
def todoCost (p : Provider) (todo : List (Option String)) : Nat :=
  (todo.map (fun r => 1 + (Task.start p (ToString r)).cost)).sum

/-- An upper bound on the number of steps the call can still take. -/
def State.cost (p : Provider) (s : State) : Nat :=
  (match s.pc with
    | .entry =>
      2 + (match p.ListRegions with
        | .ok regions => todoCost p regions
        | .error _ => 0)
    | .loop _ => 1
    | .returned _ _ => 0)
  + todoCost p s.todo + (s.tasks.map Task.cost).sum

/-- One for a task that holds a slot, zero otherwise. -/
def Task.slot (t : Task) : Nat := if t.holdsSlot then 1 else 0

/-- One for a task that has not called `wg.Done()`, zero otherwise. -/
def Task.live (t : Task) : Nat := if t.unfinished then 1 else 0

/-- What holds of every state of the dispatch loop and of the goroutines it launched, for
the caller identity and the region list the entry of the call obtained: the channel holds
one token per task that holds a slot and never more than its capacity, the wait group
counts the unfinished tasks, the tasks are those of the dispatched regions reached so
far, and the rows appended and lines printed so far, with those the tasks launched and
still to be launched will add, are those of the whole scan. -/
structure Core (p : Provider) (opts : Options) (ident : CallerIdentity)
    (regions : List (Option String)) (s : State) : Prop where
  hid : p.GetCallerIdentity = .ok ident
  hreg : p.ListRegions = .ok regions
  hval : opts.Validate = none
  hsem : s.sem = (s.tasks.map Task.slot).sum
  hwg : s.wg = (s.tasks.map Task.live).sum
  hcap : (s.sem : Int) ≤ opts.ChunkSize
  hdisp : s.tasks.map Task.region ++ dispatched opts s.todo = dispatched opts regions
  hrows : (s.results : Multiset EC2Inventory)
      + (s.tasks.map (fun t => (t.rows ident : Multiset EC2Inventory))).sum
      + ((dispatched opts s.todo).map
          (fun r => ((Task.start p r).rows ident : Multiset EC2Inventory))).sum
      = (scanRows p opts ident regions : Multiset EC2Inventory)
  hlines : (s.stdout : Multiset LogLine)
      + (s.tasks.map (fun t => (t.lines ident : Multiset LogLine))).sum
      + ((dispatched opts s.todo).map
          (fun r => ((Task.start p r).lines ident : Multiset LogLine))).sum
      = (scanLines p opts ident regions : Multiset LogLine)

/-- The invariant of the call, by the place of the calling goroutine. -/
def Inv (p : Provider) (opts : Options) (s : State) : Prop :=
  match s.pc with
  | .entry => s = State.init
  | .loop ident => ∃ regions, Core p opts ident regions s
  | .returned result none =>
    ∃ ident regions,
      Core p opts ident regions s ∧ result = s.results ∧ s.todo = [] ∧ s.wg = 0
  | .returned result (some err) =>
    result = [] ∧ s.tasks = [] ∧ s.results = [] ∧ s.stdout = [] ∧ s.sem = 0 ∧
      (opts.Validate = some err ∨ p.GetCallerIdentity = .error err ∨ p.ListRegions = .error err)

/-- Whether the task of a region runs to its end without failing: every answer of the
provider is a page and the build of every instance succeeds. -/
def taskSucceeds (ident : CallerIdentity) (region : String) (pages : List PageResult) : Bool :=
  pages.all fun pg =>
    match pg with
    | .page reservations =>
      reservations.flatten.all fun inst => (buildInventory ident region inst).isSome
    | .error _ => false

/-- The region a line of standard output names. -/
def LogLine.region : LogLine → String
  | .fetchFailed region _ => region
  | .panicked region => region

/-! ## The durable store (`database/sql` over PostgreSQL, as `insert.go` uses it) -/

/-- A value stored in a column or bound to a statement parameter. -/
inductive Val where
  | null
  | str (s : String)
  | int (n : Int)
  | bool (b : Bool)
  | time (t : Nat)
  deriving Repr, DecidableEq

/-- A stored row: the value of every column (`null` for a column the row does not have). -/
abbrev Row := String → Val

/-- A table: its rows in storage order. -/
abbrev Table := List Row

/-- An expression of an upsert statement: a positional parameter `$i`, `NOW()`, or
`EXCLUDED.col` (the value the rejected insert proposed for `col`). -/
inductive Expr where
  | param (i : Nat)
  | now
  | excluded (col : String)
  deriving Repr, DecidableEq

/-- The statement `INSERT INTO table (columns) VALUES (values) ON CONFLICT (conflict)
DO UPDATE SET set`. -/
structure Stmt where
  table : String
  columns : List String
  values : List Expr
  conflict : String
  set : List (String × Expr)
  deriving Repr, DecidableEq

/-- The value of an expression, given the bound arguments, the transaction time and the
proposed row. -/
def Expr.eval (args : List Val) (now : Nat) (proposed : Row) : Expr → Val
  | .param i => (args[i - 1]?).getD .null
  | .now => .time now
  | .excluded col => proposed col

/-- The row the `INSERT` part proposes: column by column the value of the `VALUES` list. -/
def Stmt.proposed (stmt : Stmt) (args : List Val) (now : Nat) : Row := fun col =>
  ((stmt.columns.zip (stmt.values.map (Expr.eval args now (fun _ => .null)))).lookup col).getD
    .null

/-- The row the `DO UPDATE SET` part leaves in place of a conflicting row. -/
def Stmt.merge (stmt : Stmt) (args : List Val) (now : Nat) (old proposed : Row) : Row :=
  fun col =>
    match stmt.set.lookup col with
    | some e => e.eval args now proposed
    | none => old col

/-- The number of parameters of a statement: the largest `$i` of its `VALUES` list. -/
def Stmt.arity (stmt : Stmt) : Nat :=
  (stmt.values.map fun e =>
    match e with
    | .param i => i
    | _ => 0).foldl max 0

/-- One execution of the statement on a table: an error when the number of arguments is
not the number of parameters; else the rows whose conflict column equals that of the
proposed row are updated, and the proposed row is appended when there is none. -/
def Stmt.exec (stmt : Stmt) (args : List Val) (now : Nat) (t : Table) : Except String Table :=
  if args.length ≠ stmt.arity then .error "wrong number of parameters"
  else
    let row := stmt.proposed args now
    if t.any (fun r => decide (r stmt.conflict = row stmt.conflict)) then
      .ok (t.map fun r =>
        if r stmt.conflict = row stmt.conflict then stmt.merge args now r row else r)
    else .ok (t ++ [row])

/-- A call made on the connection. -/
inductive DBOp where
  | begin
  | prepare (table : String)
  | exec (args : List Val)
  | close
  | commit
  | rollback
  deriving Repr, DecidableEq

/-- The database: the committed tables (what every reader sees), the tables as the open
transaction sees them (if one is open), and the calls made so far. -/
structure DB where
  committed : String → Table
  tx : Option (String → Table)
  ops : List DBOp

/-- Where the store fails during one call of `InsertResources`: at `BeginTx`, at
`PrepareContext`, at the `ExecContext` of the row with a given index, at `Commit`. -/
structure Faults where
  begin : Option String
  prepare : Option String
  exec : Nat → Option String
  commit : Option String

/-- No failure anywhere. -/
def Faults.none : Faults :=
  { begin := Option.none, prepare := Option.none, exec := fun _ => Option.none,
    commit := Option.none }

/-- The call `db.BeginTx`: on success a transaction opens on the committed tables. -/
def DB.BeginTx (db : DB) (fault : Option String) : Option String × DB :=
  match fault with
  | some e => (some e, { db with ops := db.ops ++ [.begin] })
  | none => (none, { db with tx := some db.committed, ops := db.ops ++ [.begin] })

/-- The call `tx.PrepareContext`. -/
def DB.PrepareContext (db : DB) (stmt : Stmt) (fault : Option String) : Option String × DB :=
  (fault, { db with ops := db.ops ++ [.prepare stmt.table] })

/-- The call `stmt.ExecContext`: the statement runs on the transaction's view of its table. -/
def DB.ExecContext (db : DB) (stmt : Stmt) (args : List Val) (now : Nat)
    (fault : Option String) : Option String × DB :=
  match fault, db.tx with
  | some e, _ => (some e, { db with ops := db.ops ++ [.exec args] })
  | none, none =>
    (some "sql: transaction has already been committed or rolled back",
      { db with ops := db.ops ++ [.exec args] })
  | none, some view =>
    match stmt.exec args now (view stmt.table) with
    | .error e => (some e, { db with ops := db.ops ++ [.exec args] })
    | .ok t =>
      (none,
        { db with
          tx := some (Function.update view stmt.table t)
          ops := db.ops ++ [.exec args] })

/-- The call `tx.Commit`: on success the transaction's view becomes the committed tables;
either way the transaction is over. -/
def DB.Commit (db : DB) (fault : Option String) : Option String × DB :=
  match fault, db.tx with
  | some e, _ => (some e, { db with tx := none, ops := db.ops ++ [.commit] })
  | none, none =>
    (some "sql: transaction has already been committed or rolled back",
      { db with ops := db.ops ++ [.commit] })
  | none, some view => (none, { committed := view, tx := none, ops := db.ops ++ [.commit] })

/-- The call `tx.Rollback`: an open transaction is dropped; after `Commit` it does nothing. -/
def DB.Rollback (db : DB) : DB :=
  { db with tx := none, ops := db.ops ++ [.rollback] }

/-- The call `stmt.Close`. -/
def DB.Close (db : DB) : DB :=
  { db with ops := db.ops ++ [.close] }

/-- The loop `for _, resource := range resources` of `InsertResources`: one `ExecContext`
per row, the first error returned wrapped in the message for that row. `k` is the index of
the first row of `resources` in the batch. -/
def execLoop {R : Type} (stmt : Stmt) (bind : R → List Val) (wrap : R → String) (f : Faults)
    (now : Nat) : Nat → List R → DB → Option String × DB
  | _, [], db => (none, db)
  | k, resource :: rest, db =>
    match db.ExecContext stmt (bind resource) now (f.exec k) with
    | (some e, db1) => (some (wrap resource ++ e), db1)
    | (none, db1) => execLoop stmt bind wrap f now (k + 1) rest db1

/-- The common body of the five `InsertResources` functions, which differ in the statement,
the arguments bound per row and the error text of a failed row. The deferred
`tx.Rollback()` and `stmt.Close()` run on every return after their `defer`. -/
def insertResources {R : Type} (stmt : Stmt) (bind : R → List Val) (wrap : R → String)
    (f : Faults) (now : Nat) (db : DB) (resources : List R) : Option String × DB :=
  if resources.length = 0 then (none, db)
  else
    match db.BeginTx f.begin with
    | (some e, db1) => (some ("failed to begin transaction: " ++ e), db1)
    | (none, db1) =>
      match db1.PrepareContext stmt f.prepare with
      | (some e, db2) => (some ("failed to prepare statement: " ++ e), db2.Rollback)
      | (none, db2) =>
        match execLoop stmt bind wrap f now 0 resources db2 with
        | (some e, db3) => (some e, db3.Close.Rollback)
        | (none, db3) =>
          match db3.Commit f.commit with
          | (some e, db4) => (some ("failed to commit transaction: " ++ e), db4.Close.Rollback)
          | (none, db4) => (none, db4.Close.Rollback)

/-- The columns of a statement other than the conflict column and `last_updated`. -/
def Stmt.nonKey (stmt : Stmt) : List String := stmt.columns.tail.dropLast

/-- The shape shared by the five statements: the conflict column first and `last_updated`
last among pairwise distinct columns; `VALUES ($1, ..., $n, NOW())`; and an update list
that assigns `EXCLUDED.col` to every other inserted column `col` and `NOW()` to
`last_updated`. -/
def Stmt.isUpsert (stmt : Stmt) : Bool :=
  decide (stmt.columns = stmt.conflict :: stmt.nonKey ++ ["last_updated"]) &&
  decide (stmt.columns.Nodup) &&
  decide (stmt.values
    = (List.range (stmt.nonKey.length + 1)).map (fun i => Expr.param (i + 1)) ++ [Expr.now]) &&
  decide (stmt.set
    = stmt.nonKey.map (fun c => (c, Expr.excluded c)) ++ [("last_updated", Expr.now)])

/-! ### Package `s3` -/

/-- The row type `Resource` of package `s3` (`s3/fetch.go`). -/
structure s3.Resource where
  Name : String
  Region : String
  CreationDate : String
  Versioning : String
  Encryption : String
  PublicAccess : String
  deriving Repr, DecidableEq

/-- The members of a `s3.Resource` in declaration order, each under its JSON name. -/
def s3.fields (resource : s3.Resource) : List (String × Val) :=
  [("name", .str resource.Name),
   ("region", .str resource.Region),
   ("creation_date", .str resource.CreationDate),
   ("versioning", .str resource.Versioning),
   ("encryption", .str resource.Encryption),
   ("public_access", .str resource.PublicAccess)]

/-- The statement prepared by `s3.InsertResources`. -/
def s3.stmt : Stmt :=
  { table := "s3_buckets"
    columns :=
      ["name", "region", "creation_date", "versioning", "encryption", "public_access",
       "last_updated"]
    values :=
      [.param 1, .param 2, .param 3, .param 4, .param 5, .param 6, .now]
    conflict := "name"
    set :=
      [("region", .excluded "region"), ("creation_date", .excluded "creation_date"),
       ("versioning", .excluded "versioning"), ("encryption", .excluded "encryption"),
       ("public_access", .excluded "public_access"), ("last_updated", .now)] }

/-- The arguments `s3.InsertResources` binds for one row, in the order of the call. -/
def s3.bind (resource : s3.Resource) : List Val :=
  [.str resource.Name, .str resource.Region, .str resource.CreationDate,
   .str resource.Versioning, .str resource.Encryption, .str resource.PublicAccess]

/-- The function `InsertResources` of package `s3` (`s3/insert.go`). -/
def s3.InsertResources (f : Faults) (now : Nat) (db : DB)
    (resources : List s3.Resource) : Option String × DB :=
  insertResources s3.stmt s3.bind
    (fun resource => "failed to insert S3 bucket " ++ resource.Name ++ ": ")
    f now db resources

/-! ### Package `ec2` -/

/-- The row type `Resource` of package `ec2` (`ec2/fetch.go`). -/
structure ec2.Resource where
  InstanceID : String
  InstanceType : String
  State : String
  AvailabilityZone : String
  PublicIP : String
  PrivateIP : String
  LaunchTime : String
  ImageID : String
  VpcID : String
  SubnetID : String
  SecurityGroups : String
  Tags : String
  deriving Repr, DecidableEq

/-- The members of a `ec2.Resource` in declaration order, each under its JSON name. -/
def ec2.fields (resource : ec2.Resource) : List (String × Val) :=
  [("instance_id", .str resource.InstanceID),
   ("instance_type", .str resource.InstanceType),
   ("state", .str resource.State),
   ("availability_zone", .str resource.AvailabilityZone),
   ("public_ip", .str resource.PublicIP),
   ("private_ip", .str resource.PrivateIP),
   ("launch_time", .str resource.LaunchTime),
   ("image_id", .str resource.ImageID),
   ("vpc_id", .str resource.VpcID),
   ("subnet_id", .str resource.SubnetID),
   ("security_groups", .str resource.SecurityGroups),
   ("tags", .str resource.Tags)]

/-- The statement prepared by `ec2.InsertResources`. -/
def ec2.stmt : Stmt :=
  { table := "ec2_instances"
    columns :=
      ["instance_id", "instance_type", "state", "availability_zone", "public_ip",
       "private_ip", "launch_time", "image_id", "vpc_id", "subnet_id",
       "security_groups", "tags", "last_updated"]
    values :=
      [.param 1, .param 2, .param 3, .param 4, .param 5, .param 6, .param 7, .param 8,
       .param 9, .param 10, .param 11, .param 12, .now]
    conflict := "instance_id"
    set :=
      [("instance_type", .excluded "instance_type"), ("state", .excluded "state"),
       ("availability_zone", .excluded "availability_zone"),
       ("public_ip", .excluded "public_ip"), ("private_ip", .excluded "private_ip"),
       ("launch_time", .excluded "launch_time"), ("image_id", .excluded "image_id"),
       ("vpc_id", .excluded "vpc_id"), ("subnet_id", .excluded "subnet_id"),
       ("security_groups", .excluded "security_groups"), ("tags", .excluded "tags"),
       ("last_updated", .now)] }

/-- The arguments `ec2.InsertResources` binds for one row, in the order of the call. -/
def ec2.bind (resource : ec2.Resource) : List Val :=
  [.str resource.InstanceID, .str resource.InstanceType, .str resource.State,
   .str resource.AvailabilityZone, .str resource.PublicIP, .str resource.PrivateIP,
   .str resource.LaunchTime, .str resource.ImageID, .str resource.VpcID,
   .str resource.SubnetID, .str resource.SecurityGroups, .str resource.Tags]

/-- The function `InsertResources` of package `ec2` (`ec2/insert.go`). -/
def ec2.InsertResources (f : Faults) (now : Nat) (db : DB)
    (resources : List ec2.Resource) : Option String × DB :=
  insertResources ec2.stmt ec2.bind
    (fun resource => "failed to insert EC2 instance " ++ resource.InstanceID ++ ": ")
    f now db resources

/-! ### Package `rds` -/

/-- The row type `Resource` of package `rds` (`rds/fetch.go`). -/
structure rds.Resource where
  DBInstanceIdentifier : String
  DBInstanceClass : String
  Engine : String
  EngineVersion : String
  DBInstanceStatus : String
  MasterUsername : String
  DBName : String
  AllocatedStorage : Int
  StorageType : String
  Encrypted : Bool
  AvailabilityZone : String
  MultiAZ : Bool
  VpcID : String
  SubnetGroup : String
  SecurityGroups : String
  BackupRetentionPeriod : Int
  InstanceCreateTime : String
  deriving Repr, DecidableEq

/-- The members of a `rds.Resource` in declaration order, each under its JSON name. -/
def rds.fields (resource : rds.Resource) : List (String × Val) :=
  [("db_instance_identifier", .str resource.DBInstanceIdentifier),
   ("db_instance_class", .str resource.DBInstanceClass),
   ("engine", .str resource.Engine),
   ("engine_version", .str resource.EngineVersion),
   ("db_instance_status", .str resource.DBInstanceStatus),
   ("master_username", .str resource.MasterUsername),
   ("db_name", .str resource.DBName),
   ("allocated_storage", .int resource.AllocatedStorage),
   ("storage_type", .str resource.StorageType),
   ("encrypted", .bool resource.Encrypted),
   ("availability_zone", .str resource.AvailabilityZone),
   ("multi_az", .bool resource.MultiAZ),
   ("vpc_id", .str resource.VpcID),
   ("subnet_group", .str resource.SubnetGroup),
   ("security_groups", .str resource.SecurityGroups),
   ("backup_retention_period", .int resource.BackupRetentionPeriod),
   ("instance_create_time", .str resource.InstanceCreateTime)]

/-- The statement prepared by `rds.InsertResources`. -/
def rds.stmt : Stmt :=
  { table := "rds_instances"
    columns :=
      ["db_instance_identifier", "db_instance_class", "engine", "engine_version",
       "db_instance_status", "master_username", "db_name", "allocated_storage",
       "storage_type", "encrypted", "availability_zone", "multi_az", "vpc_id",
       "subnet_group", "security_groups", "backup_retention_period",
       "instance_create_time", "last_updated"]
    values :=
      [.param 1, .param 2, .param 3, .param 4, .param 5, .param 6, .param 7, .param 8,
       .param 9, .param 10, .param 11, .param 12, .param 13, .param 14, .param 15,
       .param 16, .param 17, .now]
    conflict := "db_instance_identifier"
    set :=
      [("db_instance_class", .excluded "db_instance_class"),
       ("engine", .excluded "engine"), ("engine_version", .excluded "engine_version"),
       ("db_instance_status", .excluded "db_instance_status"),
       ("master_username", .excluded "master_username"),
       ("db_name", .excluded "db_name"),
       ("allocated_storage", .excluded "allocated_storage"),
       ("storage_type", .excluded "storage_type"),
       ("encrypted", .excluded "encrypted"),
       ("availability_zone", .excluded "availability_zone"),
       ("multi_az", .excluded "multi_az"), ("vpc_id", .excluded "vpc_id"),
       ("subnet_group", .excluded "subnet_group"),
       ("security_groups", .excluded "security_groups"),
       ("backup_retention_period", .excluded "backup_retention_period"),
       ("instance_create_time", .excluded "instance_create_time"),
       ("last_updated", .now)] }

/-- The arguments `rds.InsertResources` binds for one row, in the order of the call. -/
def rds.bind (resource : rds.Resource) : List Val :=
  [.str resource.DBInstanceIdentifier, .str resource.DBInstanceClass,
   .str resource.Engine, .str resource.EngineVersion, .str resource.DBInstanceStatus,
   .str resource.MasterUsername, .str resource.DBName, .int resource.AllocatedStorage,
   .str resource.StorageType, .bool resource.Encrypted, .str resource.AvailabilityZone,
   .bool resource.MultiAZ, .str resource.VpcID, .str resource.SubnetGroup,
   .str resource.SecurityGroups, .int resource.BackupRetentionPeriod,
   .str resource.InstanceCreateTime]

/-- The function `InsertResources` of package `rds` (`rds/insert.go`). -/
def rds.InsertResources (f : Faults) (now : Nat) (db : DB)
    (resources : List rds.Resource) : Option String × DB :=
  insertResources rds.stmt rds.bind
    (fun resource => "failed to insert RDS instance " ++ resource.DBInstanceIdentifier ++ ": ")
    f now db resources

/-! ### Package `lambda` -/

/-- The row type `Resource` of package `lambda` (`lambda/fetch.go`). -/
structure lambda.Resource where
  FunctionName : String
  FunctionArn : String
  Runtime : String
  Role : String
  Handler : String
  CodeSize : Int
  Description : String
  Timeout : Int
  MemorySize : Int
  LastModified : String
  CodeSha256 : String
  Version : String
  Environment : String
  VpcConfig : String
  DeadLetterConfig : String
  State : String
  StateReason : String
  deriving Repr, DecidableEq

/-- The members of a `lambda.Resource` in declaration order, each under its JSON name. -/
def lambda.fields (resource : lambda.Resource) : List (String × Val) :=
  [("function_name", .str resource.FunctionName),
   ("function_arn", .str resource.FunctionArn),
   ("runtime", .str resource.Runtime),
   ("role", .str resource.Role),
   ("handler", .str resource.Handler),
   ("code_size", .int resource.CodeSize),
   ("description", .str resource.Description),
   ("timeout", .int resource.Timeout),
   ("memory_size", .int resource.MemorySize),
   ("last_modified", .str resource.LastModified),
   ("code_sha256", .str resource.CodeSha256),
   ("version", .str resource.Version),
   ("environment", .str resource.Environment),
   ("vpc_config", .str resource.VpcConfig),
   ("dead_letter_config", .str resource.DeadLetterConfig),
   ("state", .str resource.State),
   ("state_reason", .str resource.StateReason)]

/-- The statement prepared by `lambda.InsertResources`. -/
def lambda.stmt : Stmt :=
  { table := "lambda_functions"
    columns :=
      ["function_name", "function_arn", "runtime", "role", "handler", "code_size",
       "description", "timeout", "memory_size", "last_modified", "code_sha256",
       "version", "environment", "vpc_config", "dead_letter_config", "state",
       "state_reason", "last_updated"]
    values :=
      [.param 1, .param 2, .param 3, .param 4, .param 5, .param 6, .param 7, .param 8,
       .param 9, .param 10, .param 11, .param 12, .param 13, .param 14, .param 15,
       .param 16, .param 17, .now]
    conflict := "function_name"
    set :=
      [("function_arn", .excluded "function_arn"), ("runtime", .excluded "runtime"),
       ("role", .excluded "role"), ("handler", .excluded "handler"),
       ("code_size", .excluded "code_size"), ("description", .excluded "description"),
       ("timeout", .excluded "timeout"), ("memory_size", .excluded "memory_size"),
       ("last_modified", .excluded "last_modified"),
       ("code_sha256", .excluded "code_sha256"), ("version", .excluded "version"),
       ("environment", .excluded "environment"),
       ("vpc_config", .excluded "vpc_config"),
       ("dead_letter_config", .excluded "dead_letter_config"),
       ("state", .excluded "state"), ("state_reason", .excluded "state_reason"),
       ("last_updated", .now)] }

/-- The arguments `lambda.InsertResources` binds for one row, in the order of the call. -/
def lambda.bind (resource : lambda.Resource) : List Val :=
  [.str resource.FunctionName, .str resource.FunctionArn, .str resource.Runtime,
   .str resource.Role, .str resource.Handler, .int resource.CodeSize,
   .str resource.Description, .int resource.Timeout, .int resource.MemorySize,
   .str resource.LastModified, .str resource.CodeSha256, .str resource.Version,
   .str resource.Environment, .str resource.VpcConfig, .str resource.DeadLetterConfig,
   .str resource.State, .str resource.StateReason]

/-- The function `InsertResources` of package `lambda` (`lambda/insert.go`). -/
def lambda.InsertResources (f : Faults) (now : Nat) (db : DB)
    (resources : List lambda.Resource) : Option String × DB :=
  insertResources lambda.stmt lambda.bind
    (fun resource => "failed to insert Lambda function " ++ resource.FunctionName ++ ": ")
    f now db resources

/-! ### Package `dynamodb` -/

/-- The row type `Resource` of package `dynamodb` (`dynamodb/fetch.go`). -/
structure dynamodb.Resource where
  TableName : String
  TableArn : String
  TableStatus : String
  CreationDateTime : String
  ProvisionedThroughput : String
  BillingMode : String
  ItemCount : Int
  TableSizeBytes : Int
  GlobalSecondaryIndexes : String
  LocalSecondaryIndexes : String
  StreamSpecification : String
  SSEDescription : String
  PointInTimeRecovery : String
  Tags : String
  deriving Repr, DecidableEq

/-- The members of a `dynamodb.Resource` in declaration order, each under its JSON name. -/
def dynamodb.fields (resource : dynamodb.Resource) : List (String × Val) :=
  [("table_name", .str resource.TableName),
   ("table_arn", .str resource.TableArn),
   ("table_status", .str resource.TableStatus),
   ("creation_date_time", .str resource.CreationDateTime),
   ("provisioned_throughput", .str resource.ProvisionedThroughput),
   ("billing_mode", .str resource.BillingMode),
   ("item_count", .int resource.ItemCount),
   ("table_size_bytes", .int resource.TableSizeBytes),
   ("global_secondary_indexes", .str resource.GlobalSecondaryIndexes),
   ("local_secondary_indexes", .str resource.LocalSecondaryIndexes),
   ("stream_specification", .str resource.StreamSpecification),
   ("sse_description", .str resource.SSEDescription),
   ("point_in_time_recovery", .str resource.PointInTimeRecovery),
   ("tags", .str resource.Tags)]

/-- The statement prepared by `dynamodb.InsertResources`. -/
def dynamodb.stmt : Stmt :=
  { table := "dynamodb_tables"
    columns :=
      ["table_name", "table_arn", "table_status", "creation_date_time",
       "provisioned_throughput", "billing_mode", "item_count", "table_size_bytes",
       "global_secondary_indexes", "local_secondary_indexes", "stream_specification",
       "sse_description", "point_in_time_recovery", "tags", "last_updated"]
    values :=
      [.param 1, .param 2, .param 3, .param 4, .param 5, .param 6, .param 7, .param 8,
       .param 9, .param 10, .param 11, .param 12, .param 13, .param 14, .now]
    conflict := "table_name"
    set :=
      [("table_arn", .excluded "table_arn"),
       ("table_status", .excluded "table_status"),
       ("creation_date_time", .excluded "creation_date_time"),
       ("provisioned_throughput", .excluded "provisioned_throughput"),
       ("billing_mode", .excluded "billing_mode"),
       ("item_count", .excluded "item_count"),
       ("table_size_bytes", .excluded "table_size_bytes"),
       ("global_secondary_indexes", .excluded "global_secondary_indexes"),
       ("local_secondary_indexes", .excluded "local_secondary_indexes"),
       ("stream_specification", .excluded "stream_specification"),
       ("sse_description", .excluded "sse_description"),
       ("point_in_time_recovery", .excluded "point_in_time_recovery"),
       ("tags", .excluded "tags"), ("last_updated", .now)] }

/-- The arguments `dynamodb.InsertResources` binds for one row, in the order of the call. -/
def dynamodb.bind (resource : dynamodb.Resource) : List Val :=
  [.str resource.TableName, .str resource.TableArn, .str resource.TableStatus,
   .str resource.CreationDateTime, .str resource.ProvisionedThroughput,
   .str resource.BillingMode, .int resource.ItemCount, .int resource.TableSizeBytes,
   .str resource.GlobalSecondaryIndexes, .str resource.LocalSecondaryIndexes,
   .str resource.StreamSpecification, .str resource.SSEDescription,
   .str resource.PointInTimeRecovery, .str resource.Tags]

/-- The function `InsertResources` of package `dynamodb` (`dynamodb/insert.go`). -/
def dynamodb.InsertResources (f : Faults) (now : Nat) (db : DB)
    (resources : List dynamodb.Resource) : Option String × DB :=
  insertResources dynamodb.stmt dynamodb.bind
    (fun resource => "failed to insert DynamoDB table " ++ resource.TableName ++ ": ")
    f now db resources

/-! ### The five resource types together -/

/-- A batch handed to one of the five `InsertResources` functions. -/
inductive Batch where
  | forS3 (resources : List s3.Resource)
  | forEC2 (resources : List ec2.Resource)
  | forRDS (resources : List rds.Resource)
  | forLambda (resources : List lambda.Resource)
  | forDynamoDB (resources : List dynamodb.Resource)

/-- The statement of the batch's resource type. -/
def Batch.stmt : Batch → Stmt
  | .forS3 _ => s3.stmt
  | .forEC2 _ => ec2.stmt
  | .forRDS _ => rds.stmt
  | .forLambda _ => lambda.stmt
  | .forDynamoDB _ => dynamodb.stmt

/-- The rows of the batch, each as its members under their JSON names, in batch order. -/
def Batch.rows : Batch → List (List (String × Val))
  | .forS3 resources => resources.map s3.fields
  | .forEC2 resources => resources.map ec2.fields
  | .forRDS resources => resources.map rds.fields
  | .forLambda resources => resources.map lambda.fields
  | .forDynamoDB resources => resources.map dynamodb.fields

/-- The argument lists bound for the rows of the batch, in batch order. -/
def Batch.binds : Batch → List (List Val)
  | .forS3 resources => resources.map s3.bind
  | .forEC2 resources => resources.map ec2.bind
  | .forRDS resources => resources.map rds.bind
  | .forLambda resources => resources.map lambda.bind
  | .forDynamoDB resources => resources.map dynamodb.bind

/-- The `InsertResources` function of the batch's resource type, applied to the batch. -/
def InsertResources (f : Faults) (now : Nat) (db : DB) : Batch → Option String × DB
  | .forS3 resources => s3.InsertResources f now db resources
  | .forEC2 resources => ec2.InsertResources f now db resources
  | .forRDS resources => rds.InsertResources f now db resources
  | .forLambda resources => lambda.InsertResources f now db resources
  | .forDynamoDB resources => dynamodb.InsertResources f now db resources

/-! ### Reading a table by natural key -/

/-- The natural key of a batch row: the value of its first member. -/
def keyOf (row : List (String × Val)) : Val := (row.head?.map Prod.snd).getD .null

/-- The last row of a batch with a given natural key. -/
def lastWithKey (rows : List (List (String × Val))) (key : Val) :
    Option (List (String × Val)) :=
  rows.reverse.find? (fun row => decide (keyOf row = key))

/-- A stored row without its `last_updated` value. -/
def withoutTimestamp (row : Row) : Row := fun col =>
  if col = "last_updated" then .null else row col

/-- The natural keys stored in the table of the batch's resource type. -/
def DB.keys (db : DB) (b : Batch) : List Val :=
  (db.committed b.stmt.table).map (fun row => row b.stmt.conflict)

/-! ### A concrete store and batch -/

/-- Two EC2 rows for instance `i-1` (the second one stopped) and one for `i-2`. -/
def demoBatch : Batch :=
  .forEC2
    [{ InstanceID := "i-1", InstanceType := "t3.micro", State := "running",
       AvailabilityZone := "az1", PublicIP := "", PrivateIP := "10.0.0.1", LaunchTime := "t0",
       ImageID := "ami-1", VpcID := "vpc-1", SubnetID := "subnet-1", SecurityGroups := "[]",
       Tags := "" },
     { InstanceID := "i-2", InstanceType := "t3.large", State := "running",
       AvailabilityZone := "az2", PublicIP := "", PrivateIP := "10.0.0.2", LaunchTime := "t1",
       ImageID := "ami-1", VpcID := "vpc-1", SubnetID := "subnet-1", SecurityGroups := "[]",
       Tags := "" },
     { InstanceID := "i-1", InstanceType := "t3.micro", State := "stopped",
       AvailabilityZone := "az1", PublicIP := "", PrivateIP := "10.0.0.1", LaunchTime := "t0",
       ImageID := "ami-1", VpcID := "vpc-1", SubnetID := "subnet-1", SecurityGroups := "[]",
       Tags := "" }]

/-- A store whose EC2 table holds one row, for instance `i-2`, last seen at time 1. -/
def demoDB : DB :=
  { committed := fun table =>
      if table = "ec2_instances" then
        [fun col =>
          if col = "instance_id" then .str "i-2"
          else if col = "state" then .str "pending"
          else if col = "last_updated" then .time 1
          else .null]
      else []
    tx := none
    ops := [] }

/-- The store fails at the `ExecContext` of the third row of the batch. -/
def demoFaults : Faults := { Faults.none with exec := fun k => if k = 2 then some "boom" else none }

/-! ### The upsert of one row, in closed form -/

/-- A row with the listed columns taken from `new` and all others from `old`. -/
def overwrite (cols : List String) (old new : Row) : Row := fun col =>
  if col ∈ cols then new col else old col

/-- Insert-or-update by key: every row whose `key` column equals that of `c` has the
columns `cols` overwritten from `c`; if there is none, `c` is appended. -/
def upsertRow (key : String) (cols : List String) (t : Table) (c : Row) : Table :=
  if t.any (fun r => decide (r key = c key)) then
    t.map fun r => if r key = c key then overwrite cols r c else r
  else t ++ [c]

/-- The row a resource is to be stored as: its members under their JSON names and the
transaction time as `last_updated`. -/
def storedRow (row : List (String × Val)) (now : Nat) : Row := fun col =>
  if col = "last_updated" then .time now else (row.lookup col).getD .null

/-- What a stored row becomes when every row of `cs` with its key is applied to it in
order. -/
def touch (key : String) (cols : List String) (r : Row) (cs : List Row) : Row :=
  cs.foldl (fun r c => if r key = c key then overwrite cols r c else r) r

/-! ## A concrete scan: three regions, the second one failing -/

/-- An instance with every member the row build dereferences present. -/
def demoInstance (id : String) : Instance :=
  { InstanceId := some id, Tags := [⟨some "Name", some "web"⟩], State := some "running",
    LaunchTime := some 7, Placement := some (some "az1"), InstanceType := "t3.micro",
    Monitoring := some "disabled",
    IamInstanceProfile := some (some "arn:aws:iam::1:instance-profile/role"),
    KeyName := none, SubnetId := none, VpcId := none, PublicIpAddress := none,
    PublicDnsName := none, PrivateIpAddress := none, PrivateDnsName := none,
    NetworkInterfaces := [], SecurityGroups := [] }

/-- The caller identity of the concrete scan. -/
def demoIdent : CallerIdentity := ⟨some "1", some "arn:aws:iam::1:root"⟩

/-- Regions A, B, C: A and C serve one page with one instance, the page fetch of B fails. -/
def demoProvider : Provider :=
  { GetCallerIdentity := .ok demoIdent
    ListRegions := .ok [some "A", some "B", some "C"]
    DescribeInstances := fun r =>
      if r = "B" then [.error "boom"] else [.page [[demoInstance r]]] }

/-- Valid options with two slots and no region filter. -/
def demoOpts : Options :=
  { ChunkSize := 2, RegionFilter := [], MaxRetries := 0, EnableParallelScan := false,
    Timeout := 1 }

/-- A complete schedule of the concrete scan in which A and B run side by side and C is
admitted once B has released its slot. -/
def demoSched : List Action :=
  [.main, .main, .main, .task 0, .task 1, .task 0, .task 0, .task 1, .main, .task 2, .task 2,
   .task 0, .task 0, .task 1, .task 2, .task 2, .task 2, .main]

/-- The state of the concrete scan after the first five steps of the schedule: A and B
admitted, C waiting for a slot. -/
def demoMid : State := (run demoProvider demoOpts State.init (demoSched.take 5)).getD State.init

/-- The state of the concrete scan at the end of the schedule. -/
def demoEnd : State := (run demoProvider demoOpts State.init demoSched).getD State.init

/-- The value the concrete scan returns. -/
def demoResult : List EC2Inventory := demoEnd.results

/-- The options of the concrete scan with the region filter `["C", "A"]`. -/
def demoFilterOpts : Options := { demoOpts with RegionFilter := ["C", "A"] }

/-- A complete schedule of the concrete scan under the filter: A is dispatched, B skipped,
C dispatched, then both tasks run to their end. -/
def demoFilterSched : List Action :=
  [.main, .main, .main, .main, .task 0, .task 0, .task 0, .task 0, .task 0, .task 1, .task 1,
   .task 1, .task 1, .task 1, .main]

/-- The state of the concrete scan under the filter at the end of its schedule. -/
def demoFilterEnd : State :=
  (run demoProvider demoFilterOpts State.init demoFilterSched).getD State.init

/-! ## `joinStrings` (`internal/cloud/aws/{ec2,rds,lambda,dynamodb}/fetch.go`) -/

/-- The function `joinStrings` of package `ec2`: the empty string for an empty slice, else
the first element followed, for every further element, by the separator and the element. -/
def ec2.joinStrings (slice : List String) (separator : String) : String :=
  match slice with
  | [] => ""
  | first :: rest => rest.foldl (fun result s => result ++ (separator ++ s)) first

/-- The function `joinStrings` of package `rds`. -/
def rds.joinStrings (slice : List String) (separator : String) : String :=
  match slice with
  | [] => ""
  | first :: rest => rest.foldl (fun result s => result ++ (separator ++ s)) first

/-- The function `joinStrings` of package `lambda`. -/
def lambda.joinStrings (slice : List String) (separator : String) : String :=
  match slice with
  | [] => ""
  | first :: rest => rest.foldl (fun result s => result ++ (separator ++ s)) first

/-- The function `joinStrings` of package `dynamodb`. -/
def dynamodb.joinStrings (slice : List String) (separator : String) : String :=
  match slice with
  | [] => ""
  | first :: rest => rest.foldl (fun result s => result ++ (separator ++ s)) first

/-! ## The orchestrator (`cmd/main.go`) -/

/-- The outcome of a `FetchResources` call: the rows returned with a nil error, the error
returned, or a runtime panic (these functions recover from none). -/
inductive Fetched (α : Type) where
  | ok (resources : List α)
  | error (err : String)
  | panic
  deriving Repr, DecidableEq

/-- What a call of a function of type `func(context.Context) error` that comes to an end
does: it returns nil, it returns an error, or it panics. -/
inductive Outcome where
  | nil
  | error (err : String)
  | panic
  deriving Repr, DecidableEq

/-- The body shared by the five collector methods (`collectS3`, ..., `collectDynamoDB`):
the call of `FetchResources`, whose error is returned, then the call of
`InsertResources`, whose result is returned. No collector recovers, so a panic of
`FetchResources` is a panic of the collector. -/
def collect {α : Type} (fetch : Fetched α) (insert : List α → Option String) : Outcome :=
  match fetch with
  | .panic => .panic
  | .error err => .error err
  | .ok resources =>
    match insert resources with
    | some err => .error err
    | none => .nil

/-- What each of the five collector methods of a `ServiceRunner` does when it is
invoked. -/
structure Collectors where
  collectS3 : Outcome
  collectEC2 : Outcome
  collectRDS : Outcome
  collectLambda : Outcome
  collectDynamoDB : Outcome
  deriving Repr, DecidableEq

/-- The loop of `runSequential` over the remaining services: each is announced in the log
(`Collecting <name> inventory...`) and invoked; the first error is returned wrapped with
the service name; a panic of a collector is not recovered and leaves the loop and the
function. The second component lists the services invoked, in order. -/
def runSequentialLoop : List (String × Outcome) → List String → Outcome × List String
  | [], invoked => (.nil, invoked)
  | (name, fn) :: rest, invoked =>
    match fn with
    | .panic => (.panic, invoked ++ [name])
    | .error err =>
      (.error ("failed to collect " ++ name ++ " inventory: " ++ err), invoked ++ [name])
    | .nil => runSequentialLoop rest (invoked ++ [name])

/-- The slice `services` of `runSequential`. -/
def sequentialServices (r : Collectors) : List (String × Outcome) :=
  [("S3", r.collectS3), ("EC2", r.collectEC2), ("RDS", r.collectRDS),
   ("Lambda", r.collectLambda), ("DynamoDB", r.collectDynamoDB)]

/-- The method `ServiceRunner.runSequential`: what the call does and the services
invoked. -/
def runSequential (r : Collectors) : Outcome × List String :=
  runSequentialLoop (sequentialServices r) []

/-- What the set-up calls of `run` return: `sql.Open`, `db.Ping`, `config.LoadDefaultConfig`. -/
structure Setup where
  sqlOpen : Option String
  ping : Option String
  loadDefaultConfig : Option String
  deriving Repr, DecidableEq

/-- The function `run` of `cmd/main.go`; `collectInventory` is what
`runner.collectInventory` (`runParallel` or `runSequential`, by `cfg.Parallel`) does when
it is reached. `run` recovers from no panic. -/
def cmd.run (setup : Setup) (collectInventory : Outcome) : Outcome :=
  match setup.sqlOpen with
  | some err => .error ("failed to connect to database: " ++ err)
  | none =>
    match setup.ping with
    | some err => .error ("failed to ping database: " ++ err)
    | none =>
      match setup.loadDefaultConfig with
      | some err => .error ("failed to load AWS config: " ++ err)
      | none =>
        match collectInventory with
        | .panic => .panic
        | .error err => .error ("failed to collect inventory: " ++ err)
        | .nil => .nil

/-- What `flag.Parse()` does with the command line: the flags parse; `-h` or `-help` is
given, and the package `flag` prints the usage and exits with status 0; or a flag is
undefined or ill-formed, and it exits with status 2 (`flag.CommandLine` is created with
`flag.ExitOnError`). -/
inductive FlagParse where
  | parsed
  | help
  | bad
  deriving Repr, DecidableEq

/-- The exit status of the process of `cmd/main.go`: the exits of `flag.Parse`; then
`log.Fatal` exits with status 1, returning from `main` with status 0, and a panic that
nothing recovers ends the process with status 2. -/
def cmd.main (flags : FlagParse) (setup : Setup) (collectInventory : Outcome) : Nat :=
  match flags with
  | .help => 0
  | .bad => 2
  | .parsed =>
    match cmd.run setup collectInventory with
    | .panic => 2
    | .error _ => 1
    | .nil => 0

/-! ## The snapshot writer (`main.go`) -/

/-- The part of `filepath.Clean` that works on the elements of a path, the result so far
held in reverse: empty elements and `.` are dropped, `..` removes the element before it,
is dropped at the root, and is kept at the start of a path that is not rooted. -/
def filepath.cleanParts (rooted : Bool) : List (List Char) → List (List Char) → List (List Char)
  | [], out => out.reverse
  | part :: parts, out =>
    if part = [] ∨ part = ['.'] then filepath.cleanParts rooted parts out
    else if part = ['.', '.'] then
      match out with
      | top :: below =>
        if top = ['.', '.'] then filepath.cleanParts rooted parts (part :: out)
        else filepath.cleanParts rooted parts below
      | [] =>
        if rooted then filepath.cleanParts rooted parts []
        else filepath.cleanParts rooted parts [part]
    else filepath.cleanParts rooted parts (part :: out)

/-- The library function `filepath.Clean` where the separator is the slash: the shortest
path name equivalent to `path` by purely lexical processing; `.` for an empty result. -/
def filepath.Clean (path : String) : String :=
  let rooted := path.data.head? = some '/'
  let parts := filepath.cleanParts rooted (splitAt '/' path.data) []
  let body := String.mk (List.intercalate ['/'] parts)
  if rooted then "/" ++ body
  else if body = "" then "."
  else body

/-- The library function `filepath.Join` where the separator is the slash: the elements
from the first non-empty one on are joined with slashes and the result is cleaned; the
empty string if every element is empty. -/
def filepath.Join : List String → String
  | [] => ""
  | e :: rest =>
    if e = "" then filepath.Join rest
    else filepath.Clean (String.mk (List.intercalate ['/'] ((e :: rest).map String.data)))

/-- The files of the output directory: the content of the file at every cleaned path
name, as `filepath.Clean` returns it (two names of one file through a link are left
out). -/
structure FS where
  files : String → Option String

/-- Where the file system fails during one call of `storeCloudventory`: at `os.MkdirAll`,
at `os.Remove` (with an error other than "does not exist"), at `os.Create`, or at the write
of the encoder, which then leaves the given number of characters of the document in the
file. -/
structure FSFaults where
  mkdirAll : Option String
  remove : Option String
  create : Option String
  write : Option (Nat × String)

/-- No failure of the file system. -/
def FSFaults.none : FSFaults :=
  { mkdirAll := Option.none, remove := Option.none, create := Option.none,
    write := Option.none }

/-- The path `outputFile` of `storeCloudventory`:
`filepath.Join(outputDir, fmt.Sprintf("%s_inventory.json", service))`. -/
def outputFile (service : String) : String :=
  filepath.Join [".cloudventory", service ++ "_inventory.json"]

/-- The function `storeCloudventory`. `document` is the outcome of marshalling the
inventory: the text of the document, or the marshalling error. The steps are, in order:
`MkdirAll`, `Remove` of the existing file, `Create` (an empty file), and `Encode`, which
writes the document into the created file. -/
def storeCloudventory (faults : FSFaults) (fs : FS) (service : String)
    (document : Except String String) : Option String × FS :=
  match faults.mkdirAll with
  | some err => (some ("failed to create output directory: " ++ err), fs)
  | none =>
    match faults.remove with
    | some err => (some ("failed to remove existing file: " ++ err), fs)
    | none =>
      let fs1 : FS := { files := Function.update fs.files (outputFile service) none }
      match faults.create with
      | some err => (some ("failed to create output file: " ++ err), fs1)
      | none =>
        let fs2 : FS := { files := Function.update fs.files (outputFile service) (some "") }
        match document with
        | .error err => (some ("failed to write JSON: " ++ err), fs2)
        | .ok text =>
          match faults.write with
          | some (written, err) =>
            (some ("failed to write JSON: " ++ err),
              { files := Function.update fs.files (outputFile service)
                  (some (String.mk (text.data.take written))) })
          | none =>
            (none, { files := Function.update fs.files (outputFile service) (some text) })

/-- The function `main` of `main.go` from the configuration load on: `cfgErr` is what
`cfg.LoadAWSConfig` returns, `results` and `err` what `RunAllInventories` returns (for
each entry of the map, in the order the `range` visits them, the name and the Go type of
the value, which `%T` prints), `store` what `storeCloudventory` returns for each service.
The result is the exit status and the messages logged. -/
def snapshotMain (cfgErr : Option String) (results : List (String × String))
    (err : Option String) (store : String → Option String) : Nat × List String :=
  match cfgErr with
  | some e => (1, ["cfg error: " ++ e])
  | none =>
    (0,
      (match err with
        | some e => ["Some inventory fetches failed: " ++ e]
        | none => []) ++
      results.flatMap fun entry =>
        (entry.1 ++ " inventory fetched: " ++ entry.2) ::
          (match store entry.1 with
            | some e => ["failed to store inventory for " ++ entry.1 ++ ": " ++ e]
            | none => []))
/-! ### `runParallel` as a transition system -/

/-- Where a goroutine of `runParallel` stands: launched, its collector not yet invoked;
inside the collector; collector returned `err`, the test `err != nil` and the send on
`errChan` next; the deferred `wg.Done()` next; finished. After a panic of the collector:
the deferred `wg.Done()` next, run while the panic unwinds; then the exit of the process
next, since nothing recovers. -/
inductive JobPc where
  | launched
  | running
  | returned (err : Option String)
  | finishing
  | done
  | panicking
  | fatal
  deriving Repr, DecidableEq

/-- One goroutine of `runParallel`: the service it runs, what its collector does, and
where it stands. -/
structure Job where
  name : String
  outcome : Outcome
  pc : JobPc
  deriving Repr, DecidableEq

/-- The state of one call of `runParallel`: `next` are the services the launch loop has
not reached, `jobs` the goroutines in launch order, `wg` the wait-group counter, `errChan`
the content of the buffered channel (capacity 5), `invoked` the collectors invoked so far
(each logs `Fetching <name> resources...` on entry), `ret` the returned value once the
call has returned, `crashed` whether an unrecovered panic has ended the process. -/
structure ParState where
  next : List (String × Outcome)
  jobs : List Job
  wg : Nat
  errChan : List String
  invoked : List String
  ret : Option (Option String)
  crashed : Bool
  deriving Repr, DecidableEq

/-- The slice `services` of `runParallel`, each collector with the name of its service. -/
def parallelServices (r : Collectors) : List (String × Outcome) :=
  [("S3", r.collectS3), ("EC2", r.collectEC2), ("RDS", r.collectRDS),
   ("Lambda", r.collectLambda), ("DynamoDB", r.collectDynamoDB)]

/-- The state at the call of `runParallel`. -/
def ParState.init (r : Collectors) : ParState :=
  { next := parallelServices r, jobs := [], wg := 0, errChan := [], invoked := [],
    ret := none, crashed := false }

/-- One step of the calling goroutine: in the launch loop `wg.Add(1)` and the `go`
statement; after it `wg.Wait()` (possible only at counter zero), `close(errChan)` and the
`range` loop, which returns the first error received, or nil from an empty channel. -/
def stepParMain (s : ParState) : Option ParState :=
  match s.crashed, s.ret with
  | false, none =>
    match s.next with
    | (name, fn) :: rest =>
      some { s with
        next := rest
        wg := s.wg + 1
        jobs := s.jobs ++ [{ name := name, outcome := fn, pc := .launched }] }
    | [] => if s.wg = 0 then some { s with ret := some s.errChan.head? } else none
  | _, _ => none

/-- One step of the goroutine `i`: it invokes its collector; the collector returns or
panics; a returned error is sent on `errChan` (possible only while the channel holds fewer
than 5 errors), nil is not; `wg.Done()`. After a panic the deferred `wg.Done()` runs, then
the process exits. -/
def stepJob (s : ParState) (i : Nat) : Option ParState :=
  match s.crashed, s.ret, s.jobs[i]? with
  | false, none, some j =>
    match j.pc with
    | .launched =>
      some { s with
        invoked := s.invoked ++ [j.name]
        jobs := s.jobs.set i { j with pc := .running } }
    | .running =>
      match j.outcome with
      | .nil => some { s with jobs := s.jobs.set i { j with pc := .returned none } }
      | .error err => some { s with jobs := s.jobs.set i { j with pc := .returned (some err) } }
      | .panic => some { s with jobs := s.jobs.set i { j with pc := .panicking } }
    | .returned (some err) =>
      if s.errChan.length < 5 then
        some { s with
          errChan := s.errChan ++ [err]
          jobs := s.jobs.set i { j with pc := .finishing } }
      else none
    | .returned none => some { s with jobs := s.jobs.set i { j with pc := .finishing } }
    | .finishing => some { s with wg := s.wg - 1, jobs := s.jobs.set i { j with pc := .done } }
    | .done => none
    | .panicking => some { s with wg := s.wg - 1, jobs := s.jobs.set i { j with pc := .fatal } }
    | .fatal => some { s with crashed := true }
  | _, _, _ => none

/-- Who moves next in `runParallel`. -/
inductive ParAction where
  | main
  | job (i : Nat)
  deriving Repr, DecidableEq

/-- One step of the whole call of `runParallel`. -/
def stepPar (s : ParState) : ParAction → Option ParState
  | .main => stepParMain s
  | .job i => stepJob s i

/-- The state a schedule of `runParallel` leads to, if each of its steps is possible. -/
def runPar : ParState → List ParAction → Option ParState
  | s, [] => some s
  | s, a :: sched =>
    match stepPar s a with
    | some s1 => runPar s1 sched
    | none => none

/-- The error a step puts on `errChan`: the step of a goroutine whose collector has
returned an error is its send. -/
def sentBy (s : ParState) : ParAction → List String
  | .main => []
  | .job i =>
    match s.jobs[i]? with
    | some j =>
      match j.pc with
      | .returned (some err) => [err]
      | _ => []
    | none => []

/-- The errors the goroutines report during a schedule, in the order of their sends. -/
def reports : ParState → List ParAction → List String
  | _, [] => []
  | s, a :: sched =>
    match stepPar s a with
    | some s1 => sentBy s a ++ reports s1 sched
    | none => []

/-- The error a collector returns, if it returns one. -/
def Outcome.errors : Outcome → List String
  | .error err => [err]
  | _ => []

/-- An upper bound on the steps a goroutine of `runParallel` can still take. -/
def Job.cost (j : Job) : Nat :=
  match j.pc with
  | .launched => 4
  | .running => 3
  | .returned _ => 2
  | .finishing => 1
  | .done => 0
  | .panicking => 1
  | .fatal => 0

/-- An upper bound on the steps a call of `runParallel` can still take. -/
def ParState.cost (s : ParState) : Nat :=
  (match s.ret with
    | none => 1
    | some _ => 0) + (if s.crashed then 0 else 1) + 5 * s.next.length
    + (s.jobs.map Job.cost).sum

/-- One for a goroutine that has not called `wg.Done()`, zero otherwise. -/
def Job.live (j : Job) : Nat :=
  match j.pc with
  | .done => 0
  | .fatal => 0
  | _ => 1

/-- One for a goroutine that may still send on `errChan`, zero otherwise. -/
def Job.unsent (j : Job) : Nat :=
  match j.pc with
  | .launched => 1
  | .running => 1
  | .returned _ => 1
  | _ => 0

/-- The error a goroutine will still send. -/
def Job.pending (j : Job) : List String :=
  match j.pc with
  | .launched => j.outcome.errors
  | .running => j.outcome.errors
  | .returned (some err) => [err]
  | _ => []

/-- The entry a goroutine will still add to the log of invoked collectors. -/
def Job.uninvoked (j : Job) : List String :=
  match j.pc with
  | .launched => [j.name]
  | _ => []

/-- Whether the function of the goroutine has come to its end, by returning or by a
panic. -/
def Job.finished (j : Job) : Bool :=
  match j.pc with
  | .done => true
  | .fatal => true
  | _ => false

/-- What holds of every state of a call of `runParallel`. -/
structure ParInv (r : Collectors) (s : ParState) : Prop where
  hjobs : s.jobs.map (fun j => (j.name, j.outcome)) ++ s.next = parallelServices r
  hwg : s.wg = (s.jobs.map Job.live).sum
  hcap : s.errChan.length + (s.jobs.map Job.unsent).sum ≤ s.jobs.length
  hchan : (s.errChan : Multiset String)
      + (s.jobs.map (fun j => (j.pending : Multiset String))).sum
      = ((s.jobs.flatMap (fun j => j.outcome.errors) : List String) : Multiset String)
  hinvoked : (s.invoked : Multiset String)
      + (s.jobs.map (fun j => (j.uninvoked : Multiset String))).sum
      = ((s.jobs.map Job.name : List String) : Multiset String)
  hret : ∀ result, s.ret = some result →
    s.next = [] ∧ s.wg = 0 ∧ result = s.errChan.head? ∧ s.crashed = false
  hpanic : ∀ j ∈ s.jobs, (j.pc = .panicking ∨ j.pc = .fatal) → j.outcome = .panic
  hcrash : s.crashed = true → ∃ j ∈ s.jobs, j.pc = .fatal

/-- A concrete run: EC2 and Lambda fail, Lambda reports first. -/
def demoCollectors : Collectors :=
  { collectS3 := .nil, collectEC2 := .error "ec2 down", collectRDS := .nil,
    collectLambda := .error "lambda down", collectDynamoDB := .nil }

/-- A complete schedule of the concrete run: all five goroutines are launched, Lambda
runs to its end first, then the others. -/
def demoParSched : List ParAction :=
  [.main, .main, .main, .main, .main,
   .job 3, .job 3, .job 3, .job 1, .job 1, .job 1, .job 0, .job 0, .job 0, .job 2, .job 2,
   .job 2, .job 4, .job 4, .job 4, .job 0, .job 1, .job 2, .job 3, .job 4, .main]

/-- The state of the concrete run at the end of its schedule. -/
def demoParEnd : ParState :=
  (runPar (ParState.init demoCollectors) demoParSched).getD (ParState.init demoCollectors)

/-! ## The page requests of the scan -/

/-- The number of `NextPage` calls a paginator loop makes, given the answers still to
come: the loop ends with the first error, and with the first panic of a row build. -/
def pagesFetched (ident : CallerIdentity) (region : String) : List PageResult → Nat
  | [] => 0
  | .error _ :: _ => 1
  | .page reservations :: rest =>
    1 + (if instPanics ident region reservations.flatten then 0
      else pagesFetched ident region rest)

/-- The `NextPage` calls a task will still make. -/
def Task.fetches (ident : CallerIdentity) (t : Task) : List ProviderCall :=
  match t.pc with
  | .running =>
    if instPanics ident t.region t.pending then []
    else List.replicate (pagesFetched ident t.region t.pages) (.nextPage t.region)
  | _ => []

/-- The provider calls of the whole scan: the two entry calls and, for every dispatched
region, the page requests of its task. -/
def scanCalls (p : Provider) (opts : Options) (ident : CallerIdentity)
    (regions : List (Option String)) : List ProviderCall :=
  [.getCallerIdentity, .listRegions] ++
    (dispatched opts regions).flatMap fun r =>
      List.replicate (pagesFetched ident r (p.DescribeInstances r)) (.nextPage r)

/-- The calls made so far together with those the tasks launched and still to be launched
will make. -/
def callsAhead (p : Provider) (opts : Options) (ident : CallerIdentity) (s : State) :
    Multiset ProviderCall :=
  (s.calls : Multiset ProviderCall)
    + (s.tasks.map (fun t => (t.fetches ident : Multiset ProviderCall))).sum
    + ((dispatched opts s.todo).map
        (fun r => ((Task.start p r).fetches ident : Multiset ProviderCall))).sum

/-- The invariant of the call about its provider calls, by the place of the calling
goroutine. -/
def CallsInv (p : Provider) (opts : Options) (s : State) : Prop :=
  match s.pc with
  | .entry => s = State.init
  | .loop ident =>
    ∃ regions, p.GetCallerIdentity = .ok ident ∧ p.ListRegions = .ok regions ∧
      callsAhead p opts ident s = (scanCalls p opts ident regions : Multiset ProviderCall)
  | .returned _ none =>
    ∃ ident regions, p.GetCallerIdentity = .ok ident ∧ p.ListRegions = .ok regions ∧
      callsAhead p opts ident s = (scanCalls p opts ident regions : Multiset ProviderCall)
  | .returned _ (some _) => True

/-- A provider with the one region B, whose second page fetch fails and which would have
a third page. -/
def demoFailingPages : Provider :=
  { GetCallerIdentity := .ok demoIdent
    ListRegions := .ok [some "B"]
    DescribeInstances := fun _ =>
      [.page [[demoInstance "i-1"]], .error "throttled", .page [[demoInstance "i-2"]]] }

/-- The complete schedule of the scan of region B. -/
def demoFailingSched : List Action :=
  [.main, .main, .task 0, .task 0, .task 0, .task 0, .task 0, .main]

/-- The state at the end of the scan of region B. -/
def demoFailingEnd : State :=
  (run demoFailingPages demoOpts State.init demoFailingSched).getD State.init

/-! ## The fetchers of `internal/cloud/aws` -/

/-! ### Package `ec2` (`ec2/fetch.go`) -/

/-- The members of the SDK type `types.Instance` that `ec2/fetch.go` reads. `State` and
`Placement` are pointers to structures (kept: `State.Name`, `Placement.AvailabilityZone`),
`LaunchTime` is a pointer to a time (kept: its rendering by `String()`), `SecurityGroups`
lists the `GroupName` pointer of each group. -/
structure ec2.Instance where
  InstanceId : Option String
  InstanceType : String
  State : Option String
  Placement : Option (Option String)
  PublicIpAddress : Option String
  PrivateIpAddress : Option String
  ImageId : Option String
  VpcId : Option String
  SubnetId : Option String
  LaunchTime : Option String
  SecurityGroups : List (Option String)
  Tags : List Tag
  deriving Repr, DecidableEq

/-- The members of `ec2.DescribeInstancesOutput` that matter: the reservations of one page,
each a list of instances, and the token of the next page, nil on the last page. -/
structure ec2.DescribeInstancesOutput where
  Reservations : List (List ec2.Instance)
  NextToken : Option String
  deriving Repr, DecidableEq

/-- The EC2 API as `ec2/fetch.go` sees it: the answer of `DescribeInstances` to a request
with a given `NextToken` (nil asks for the first page). -/
abbrev ec2.Client := Option String → Except String ec2.DescribeInstancesOutput

/-- The body of the inner loop of `ec2.FetchResources`: the row of one instance. `none` is
the runtime panic of selecting a member through a nil `instance.State` or
`instance.Placement`; a nil `LaunchTime` is tested for and leaves the member empty. -/
def ec2.buildResource (inst : ec2.Instance) : Option ec2.Resource :=
  match inst.State, inst.Placement with
  | some state, some az =>
    some
      { InstanceID := ToString inst.InstanceId
        InstanceType := inst.InstanceType
        State := state
        AvailabilityZone := ToString az
        PublicIP := ToString inst.PublicIpAddress
        PrivateIP := ToString inst.PrivateIpAddress
        LaunchTime :=
          match inst.LaunchTime with
          | some t => t
          | none => ""
        ImageID := ToString inst.ImageId
        VpcID := ToString inst.VpcId
        SubnetID := ToString inst.SubnetId
        SecurityGroups := "[" ++ ec2.joinStrings (inst.SecurityGroups.map ToString) "," ++ "]"
        Tags :=
          "\x7b" ++
            ec2.joinStrings (inst.Tags.map fun tag => ToString tag.Key ++ "=" ++ ToString tag.Value)
              "," ++ "\x7d" }
  | _, _ => none

/-- The function `ec2.FetchResources`: one `DescribeInstances` call with an empty input (no
token), then one row per instance of the answer; its `NextToken` is not read. -/
def ec2.FetchResources (client : ec2.Client) : Fetched ec2.Resource :=
  match client none with
  | .error err => .error ("failed to describe EC2 instances: " ++ err)
  | .ok result =>
    match result.Reservations.flatten.mapM ec2.buildResource with
    | some resources => .ok resources
    | none => .panic

/-! ### Package `dynamodb` (`dynamodb/fetch.go`) -/

/-- The members of the SDK type `types.TableDescription` that `dynamodb/fetch.go` reads.
`BillingModeSummary`, `ProvisionedThroughput`, `StreamSpecification` and `SSEDescription`
are pointers to structures (kept: `BillingMode`; the two capacity pointers; the enabled
pointer and the view type; `Status`); the index lists hold the `IndexName` pointers. -/
structure dynamodb.TableDescription where
  TableName : Option String
  TableArn : Option String
  TableStatus : String
  ItemCount : Option Int
  TableSizeBytes : Option Int
  BillingModeSummary : Option String
  CreationDateTime : Option String
  ProvisionedThroughput : Option (Option Int × Option Int)
  GlobalSecondaryIndexes : List (Option String)
  LocalSecondaryIndexes : List (Option String)
  StreamSpecification : Option (Option Bool × String)
  SSEDescription : Option String
  deriving Repr, DecidableEq

/-- The DynamoDB API as `dynamodb/fetch.go` sees it. `ListTables` answers with the table
names of one page and the name to continue from; `DescribeTable` with the pointer `Table`;
`DescribeContinuousBackups` with the pointer `ContinuousBackupsDescription`, holding the
pointer `PointInTimeRecoveryDescription`, holding the status; `ListTagsOfResource` with
the tags. -/
structure dynamodb.Client where
  ListTables : Option String → Except String (List String × Option String)
  DescribeTable : String → Except String (Option dynamodb.TableDescription)
  DescribeContinuousBackups : String → Except String (Option (Option String))
  ListTagsOfResource : Option String → Except String (List Tag)

/-- The SDK helper `aws.ToInt64`: zero for a nil pointer. -/
def ToInt64 (p : Option Int) : Int := p.getD 0

/-- The SDK helper `aws.ToBool`: false for a nil pointer. -/
def ToBool (p : Option Bool) : Bool := p.getD false

/-- The body of the loop of `dynamodb.FetchResources` after a successful `DescribeTable`:
the row of one table. `none` is the runtime panic of selecting a member through a nil
`describeResult.Table`, a nil `table.BillingModeSummary` or a nil
`PointInTimeRecoveryDescription`; the other pointers are tested for. -/
def dynamodb.buildResource (table : Option dynamodb.TableDescription)
    (pitr : Except String (Option (Option String))) (tags : Except String (List Tag)) :
    Option dynamodb.Resource :=
  match table with
  | none => none
  | some table =>
    match table.BillingModeSummary with
    | none => none
    | some billingMode =>
      let recovery : Option String :=
        match pitr with
        | .ok (some (some status)) => some status
        | .ok (some none) => none
        | _ => some ""
      match recovery with
      | none => none
      | some pointInTime =>
        some
          { TableName := ToString table.TableName
            TableArn := ToString table.TableArn
            TableStatus := table.TableStatus
            CreationDateTime :=
              match table.CreationDateTime with
              | some t => t
              | none => ""
            ProvisionedThroughput :=
              match table.ProvisionedThroughput with
              | some (read, write) =>
                "Read:" ++ toString (ToInt64 read) ++ ",Write:" ++ toString (ToInt64 write)
              | none => ""
            BillingMode := billingMode
            ItemCount := ToInt64 table.ItemCount
            TableSizeBytes := ToInt64 table.TableSizeBytes
            GlobalSecondaryIndexes :=
              if table.GlobalSecondaryIndexes.length > 0 then
                "[" ++ dynamodb.joinStrings (table.GlobalSecondaryIndexes.map ToString) "," ++ "]"
              else ""
            LocalSecondaryIndexes :=
              if table.LocalSecondaryIndexes.length > 0 then
                "[" ++ dynamodb.joinStrings (table.LocalSecondaryIndexes.map ToString) "," ++ "]"
              else ""
            StreamSpecification :=
              match table.StreamSpecification with
              | some (enabled, viewType) =>
                "Enabled:" ++ toString (ToBool enabled) ++ ",StreamViewType:" ++ viewType
              | none => ""
            SSEDescription :=
              match table.SSEDescription with
              | some status => status
              | none => ""
            PointInTimeRecovery := pointInTime
            Tags :=
              match tags with
              | .ok (t :: ts) =>
                "\x7b" ++
                  dynamodb.joinStrings
                    ((t :: ts).map fun tag => ToString tag.Key ++ "=" ++ ToString tag.Value)
                    "," ++ "\x7d"
              | _ => "" }

/-- The loop of `dynamodb.FetchResources` over the table names: a table whose
`DescribeTable` fails is skipped; `none` is a panic. -/
def dynamodb.fetchLoop (client : dynamodb.Client) : List String → Option (List dynamodb.Resource)
  | [] => some []
  | tableName :: rest =>
    match client.DescribeTable tableName with
    | .error _ => dynamodb.fetchLoop client rest
    | .ok table =>
      match dynamodb.buildResource table (client.DescribeContinuousBackups tableName)
          (client.ListTagsOfResource (table.bind fun t => t.TableArn)) with
      | none => none
      | some resource => (dynamodb.fetchLoop client rest).map (resource :: ·)

/-- The function `dynamodb.FetchResources`: one `ListTables` call with an empty input,
then the loop over the names of the answer; the name to continue from is not read. -/
def dynamodb.FetchResources (client : dynamodb.Client) : Fetched dynamodb.Resource :=
  match client.ListTables none with
  | .error err => .error ("failed to list DynamoDB tables: " ++ err)
  | .ok (tableNames, _) =>
    match dynamodb.fetchLoop client tableNames with
    | some resources => .ok resources
    | none => .panic

/-! ### Package `s3` (`s3/fetch.go`) -/

/-- The members of the SDK type `types.Bucket` that `s3/fetch.go` reads; `CreationDate` is
a pointer to a time (kept: its rendering by `String()`). -/
structure s3.Bucket where
  Name : Option String
  CreationDate : Option String
  deriving Repr, DecidableEq

/-- The answers of the four per-bucket calls of `s3.FetchResources`: the location
constraint; the versioning status; the pointer `ServerSideEncryptionConfiguration` with its
rules, each the pointer `ApplyServerSideEncryptionByDefault` with its algorithm; the
pointer `PublicAccessBlockConfiguration` with its four flag pointers. -/
structure s3.BucketAnswers where
  location : Except String String
  versioning : Except String String
  encryption : Except String (Option (List (Option String)))
  publicAccess : Except String (Option (Option Bool × Option Bool × Option Bool × Option Bool))

/-- The body of the loop of `s3.FetchResources`: the row of one bucket. `none` is the
runtime panic of calling `String()` through a nil `bucket.CreationDate`, or of selecting a
member through a nil `ServerSideEncryptionConfiguration`, a nil
`ApplyServerSideEncryptionByDefault` of the first rule, or a nil
`PublicAccessBlockConfiguration`. -/
def s3.buildResource (bucket : s3.Bucket) (a : s3.BucketAnswers) : Option s3.Resource :=
  match bucket.CreationDate with
  | none => none
  | some creationDate =>
    let encryption : Option String :=
      match a.encryption with
      | .error _ => some "None"
      | .ok none => none
      | .ok (some []) => some "None"
      | .ok (some (none :: _)) => none
      | .ok (some (some algorithm :: _)) => some algorithm
    let publicAccess : Option String :=
      match a.publicAccess with
      | .error _ => some "Unknown"
      | .ok none => none
      | .ok (some (acls, policy, ignore, restrict)) =>
        if ToBool acls && ToBool policy && ToBool ignore && ToBool restrict then some "Blocked"
        else some "Allowed"
    match encryption, publicAccess with
    | some enc, some pub =>
      some
        { Name := ToString bucket.Name
          Region :=
            match a.location with
            | .ok constraint => if constraint = "" then "us-east-1" else constraint
            | .error _ => ""
          CreationDate := creationDate
          Versioning :=
            match a.versioning with
            | .ok status => if status = "Enabled" then "Enabled" else "Suspended"
            | .error _ => ""
          Encryption := enc
          PublicAccess := pub }
    | _, _ => none

/-! ### Concrete provider answers -/

/-- An EC2 instance with every pointer set. -/
def demoRaw (id : String) : ec2.Instance :=
  { InstanceId := some id, InstanceType := "t3.micro", State := some "running",
    Placement := some (some "az1"), PublicIpAddress := none, PrivateIpAddress := some "10.0.0.1",
    ImageId := some "ami-1", VpcId := some "vpc-1", SubnetId := some "subnet-1",
    LaunchTime := none, SecurityGroups := [some "default", some "web"],
    Tags := [⟨some "Name", some "test"⟩, ⟨some "Environment", some "dev"⟩] }

/-- An EC2 API that serves two pages: instance `i-1` with a token, then, for that token,
instance `i-2` and no token. -/
def demoTwoPages : ec2.Client := fun token =>
  match token with
  | none => .ok { Reservations := [[demoRaw "i-1"]], NextToken := some "page-2" }
  | some _ => .ok { Reservations := [[demoRaw "i-2"]], NextToken := none }

/-- A DynamoDB table in provisioned mode: the service reports no `BillingModeSummary`. -/
def demoTable : dynamodb.TableDescription :=
  { TableName := some "orders", TableArn := some "arn:aws:dynamodb:::table/orders",
    TableStatus := "ACTIVE", ItemCount := some 3, TableSizeBytes := some 100,
    BillingModeSummary := none, CreationDateTime := none,
    ProvisionedThroughput := some (some 5, some 5), GlobalSecondaryIndexes := [],
    LocalSecondaryIndexes := [], StreamSpecification := none, SSEDescription := none }

/-! ## The context of the scan -/

/-- The error a provider call returns once the context handed to it is done. -/
def ctxErr : String := "context deadline exceeded"

/-- The provider as seen through a context that is done: the entry calls fail, and the
page fetch of every paginator that has more pages fails. -/
def Provider.cancelled (p : Provider) : Provider :=
  { GetCallerIdentity := .error ctxErr
    ListRegions := .error ctxErr
    DescribeInstances := fun r =>
      match p.DescribeInstances r with
      | [] => []
      | _ :: _ => [.error ctxErr] }

/-- A task once the context is done: its next page fetch, if there is one, fails; the
page it is processing and its place are untouched. -/
def Task.cancelled (t : Task) : Task :=
  { t with
    pages :=
      match t.pages with
      | [] => []
      | _ :: _ => [.error ctxErr] }

/-- The state once the context is done. Nothing else changes: the function reads the
context nowhere but in the provider calls. -/
def State.cancelled (s : State) : State :=
  { s with tasks := s.tasks.map Task.cancelled }

/-- A step of the call, or the moment the context's deadline or cancellation triggers. -/
inductive CtxAction where
  | act (a : Action)
  | cancel
  deriving Repr, DecidableEq

/-- The state a schedule leads to when the context may trigger on the way; the flag tells
whether it has. -/
def runCtx (p : Provider) (opts : Options) : Bool → State → List CtxAction → Option State
  | _, s, [] => some s
  | false, s, .cancel :: sched => runCtx p opts true s.cancelled sched
  | true, s, .cancel :: sched => runCtx p opts true s sched
  | done, s, .act a :: sched =>
    match step (if done then p.cancelled else p) opts s a with
    | some s1 => runCtx p opts done s1 sched
    | none => none

/-- The state of the concrete scan when the context triggers right after the regions were
listed and the loop then takes two steps. -/
def demoCancelledMid : State :=
  (runCtx demoProvider demoOpts false State.init [.act .main, .cancel, .act .main, .act .main]).getD
    State.init

/-- The state of the concrete scan when the context triggers while task A is processing
its page, at the end of a complete schedule. -/
def demoCancelledEnd : State :=
  (runCtx demoProvider demoOpts false State.init
    [.act .main, .act .main, .act (.task 0), .cancel, .act (.task 0), .act .main,
     .act (.task 0), .act (.task 1), .act (.task 0), .act (.task 0), .act (.task 1),
     .act (.task 1), .act .main, .act (.task 2), .act (.task 2), .act (.task 2),
     .act .main]).getD State.init

/-! ## `getEnv` (`cmd/main.go`) and reading a Go map -/

/-- The function `getEnv`; the environment is `os.LookupEnv`: `some value` for a variable
that is set (also to the empty string), `none` for one that is not. -/
def getEnv (env : String → Option String) (key defaultValue : String) : String :=
  match env key with
  | some value => value
  | none => defaultValue

/-- The environment after `t.Setenv key value`. -/
def setenv (env : String → Option String) (key value : String) : String → Option String :=
  fun k => if k = key then some value else env k

/-- Reading `m[k]` from a Go map kept as an association list: the empty string for a key
that is not present. -/
def mapGet (m : List (String × String)) (k : String) : String := (m.lookup k).getD ""

/-- The options of the concrete scan with the three members that only validation reads
set to other valid values. -/
def demoOtherOpts : Options :=
  { demoOpts with MaxRetries := 7, EnableParallelScan := true, Timeout := 99 }

/-! ### A collector that panics -/

/-- A DynamoDB API with the one table `orders`, in provisioned mode. -/
def demoDynamoClient : dynamodb.Client :=
  { ListTables := fun _ => .ok (["orders"], none)
    DescribeTable := fun _ => .ok (some demoTable)
    DescribeContinuousBackups := fun _ => .ok (some (some "ENABLED"))
    ListTagsOfResource := fun _ => .ok [] }

/-- The collectors of a run in which the first four return nil and `collectDynamoDB`
meets the table `orders`. -/
def demoPanicCollectors : Collectors :=
  { collectS3 := .nil, collectEC2 := .nil, collectRDS := .nil, collectLambda := .nil,
    collectDynamoDB :=
      collect (dynamodb.FetchResources demoDynamoClient)
        (fun resources => (dynamodb.InsertResources Faults.none 0 demoDB resources).1) }

/-- A schedule of `runParallel` in which the five goroutines are launched and the one of
DynamoDB runs first. -/
def demoPanicSched : List ParAction :=
  [.main, .main, .main, .main, .main, .job 4, .job 4, .job 4, .job 4]

/-- The state at the end of that schedule. -/
def demoPanicEnd : ParState :=
  (runPar (ParState.init demoPanicCollectors) demoPanicSched).getD
    (ParState.init demoPanicCollectors)

/-! ### The requests behind the page fetches -/

/-- The requests the SDK client sends for the pages of region `r`: one entry for every
call of `NextPage` made for `r`, the `k`-th holding `attempts r k`, the number of requests
the client sends inside that call. This number is decided by the retryer of the client,
which `ec2.NewFromConfig(regionCfg)` takes from `client.awsCfg`: the scan sets no retryer
and does not hand `opts.MaxRetries` to the client. -/
def requestsSent (attempts : String → Nat → Nat) (calls : List ProviderCall) (r : String) :
    List Nat :=
  (List.range (calls.count (.nextPage r))).map (attempts r)

/-! ## Sums over the task list -/

theorem sum_map_set {M : Type} [AddCommMonoid M] (f : Task → M) :
    ∀ (l : List Task) (i : Nat) (t t1 : Task), l[i]? = some t →
      ((l.set i t1).map f).sum + f t = (l.map f).sum + f t1
  | [], i, t, t1, h => by simp at h
  | x :: l, 0, t, t1, h => by
    simp at h; subst h; simp [add_comm, add_left_comm, add_assoc]
  | x :: l, i+1, t, t1, h => by
    simp only [List.getElem?_cons_succ] at h
    have := sum_map_set f l i t t1 h
    simp only [List.set_cons_succ, List.map_cons, List.sum_cons, add_assoc, this]

theorem le_sum_map (f : Task → Nat) (l : List Task) (i : Nat) (t : Task)
    (h : l[i]? = some t) : f t ≤ (l.map f).sum := by
  have h2 : f t ∈ l.map f := List.mem_map.2 ⟨t, List.getElem?_mem h, rfl⟩
  exact List.single_le_sum (by intros; omega) _ h2

theorem map_region_set (l : List Task) (i : Nat) (t t1 : Task) (h : l[i]? = some t)
    (hr : t1.region = t.region) : (l.set i t1).map Task.region = l.map Task.region := by
  induction l generalizing i with
  | nil => simp
  | cons x l ih =>
    cases i with
    | zero => simp at h; subst h; simp [hr]
    | succ i => simp at h; simp [ih i h]

theorem length_filter_holdsSlot (l : List Task) :
    (l.filter Task.holdsSlot).length = (l.map Task.slot).sum := by
  induction l with
  | nil => rfl
  | cons x l ih =>
    by_cases hx : x.holdsSlot = true <;> simp [List.filter_cons, hx, Task.slot, ih]
    omega

theorem coe_flatMap {α β : Type} (f : α → List β) (l : List α) :
    ((l.flatMap f : List β) : Multiset β) = (l.map (fun x => (f x : Multiset β))).sum := by
  induction l with
  | nil => rfl
  | cons x l ih =>
    rw [List.flatMap_cons, List.map_cons, List.sum_cons, ← ih]
    rfl

/-! ## Every step uses up cost -/

theorem cost_set_task (p : Provider) (s s1 : State) (i : Nat) (t t1 : Task)
    (ht : s.tasks[i]? = some t) (hpc : s1.pc = s.pc) (htodo : s1.todo = s.todo)
    (htasks : s1.tasks = s.tasks.set i t1) (hc : t1.cost < t.cost) :
    s1.cost p < s.cost p := by
  have := sum_map_set Task.cost s.tasks i t t1 ht
  unfold State.cost
  rw [hpc, htodo, htasks]
  omega

theorem stepTask_cost (p : Provider) (s s1 : State) (i : Nat)
    (h : stepTask s i = some s1) : s1.cost p < s.cost p := by
  unfold stepTask at h
  split at h
  · rename_i ident t hpc ht
    split at h
    · rename_i hrun
      split at h
      · rename_i inst more hpend
        split at h
        all_goals
          cases h
          exact cost_set_task p _ _ i t _ ht rfl rfl rfl (by simp [Task.cost, hrun, hpend])
      · rename_i hpend
        split at h
        all_goals
          rename_i hpages
          cases h
          refine cost_set_task p _ _ i t _ ht rfl rfl rfl ?_
          simp [Task.cost, hrun, hpend, hpages, pagesCost]
          try omega
    all_goals
      rename_i hrun
      first
      | cases h
        exact cost_set_task p _ _ i t _ ht rfl rfl rfl (by simp [Task.cost, hrun])
      | cases h
  · cases h

theorem stepMain_cost (p : Provider) (opts : Options) (s s1 : State)
    (h : stepMain p opts s = some s1) : s1.cost p < s.cost p := by
  unfold stepMain at h
  split at h
  · rename_i hpc
    split at h
    · cases h; simp [State.cost, hpc]
    · split at h
      · cases h; simp [State.cost, hpc]
      · split at h
        all_goals
          rename_i hreg
          cases h
          simp [State.cost, hpc, hreg, todoCost]
          try omega
  · rename_i ident hpc
    split at h
    · rename_i regionEntry rest htodo
      simp only at h
      split at h
      · split at h
        · cases h
          simp [State.cost, hpc, htodo, todoCost]
          omega
        · cases h
      · cases h
        simp [State.cost, hpc, htodo, todoCost]
    · rename_i htodo
      split at h
      · cases h; simp [State.cost, hpc, htodo]
      · cases h
  · cases h

theorem step_cost (p : Provider) (opts : Options) (s s1 : State) (a : Action)
    (h : step p opts s a = some s1) : s1.cost p < s.cost p := by
  cases a with
  | main => exact stepMain_cost p opts s s1 h
  | task i => exact stepTask_cost p s s1 i h

theorem run_cost (p : Provider) (opts : Options) :
    ∀ (sched : List Action) (s s1 : State), run p opts s sched = some s1 →
      s1.cost p + sched.length ≤ s.cost p
  | [], s, s1, h => by simp [run] at h; subst h; simp
  | a :: sched, s, s1, h => by
    unfold run at h
    split at h
    · rename_i s2 hs
      have h1 := step_cost p opts s s2 a hs
      have h2 := run_cost p opts sched s2 s1 h
      simp only [List.length_cons]
      omega
    · cases h

/-! ## The invariant is kept by every step -/

theorem Core.update {p : Provider} {opts : Options} {ident : CallerIdentity}
    {regions : List (Option String)} {s s1 : State} {i : Nat} {t t1 : Task}
    (hc : Core p opts ident regions s) (ht : s.tasks[i]? = some t)
    (htodo : s1.todo = s.todo) (htasks : s1.tasks = s.tasks.set i t1)
    (hregion : t1.region = t.region)
    (hsem : s1.sem + t.slot = s.sem + t1.slot) (hle : s1.sem ≤ s.sem)
    (hwg : s1.wg + t.live = s.wg + t1.live)
    (newRows : List EC2Inventory) (hres : s1.results = s.results ++ newRows)
    (hrows : newRows ++ t1.rows ident = t.rows ident)
    (newLines : List LogLine) (hout : s1.stdout = s.stdout ++ newLines)
    (hlines : newLines ++ t1.lines ident = t.lines ident) :
    Core p opts ident regions s1 := by
  refine ⟨hc.hid, hc.hreg, hc.hval, ?_, ?_, ?_, ?_, ?_, ?_⟩
  · have e := sum_map_set Task.slot s.tasks i t t1 ht
    have := hc.hsem
    rw [htasks]; omega
  · have e := sum_map_set Task.live s.tasks i t t1 ht
    have := hc.hwg
    rw [htasks]; omega
  · have := hc.hcap
    omega
  · rw [htasks, htodo, map_region_set _ _ _ _ ht hregion]
    exact hc.hdisp
  · have e := sum_map_set (fun t => (t.rows ident : Multiset EC2Inventory)) s.tasks i t t1 ht
    simp only [← hrows, ← Multiset.coe_add, ← add_assoc] at e
    have e2 := add_right_cancel e
    rw [htasks, htodo, hres, ← Multiset.coe_add, ← hc.hrows, ← e2]
    abel
  · have e := sum_map_set (fun t => (t.lines ident : Multiset LogLine)) s.tasks i t t1 ht
    simp only [← hlines, ← Multiset.coe_add, ← add_assoc] at e
    have e2 := add_right_cancel e
    rw [htasks, htodo, hout, ← Multiset.coe_add, ← hc.hlines, ← e2]
    abel

theorem Task.start_rows (p : Provider) (ident : CallerIdentity) (r : String) :
    (Task.start p r).rows ident = pagesRows ident r (p.DescribeInstances r) := by
  simp [Task.start, Task.rows, instRows, instPanics]

theorem Task.start_lines (p : Provider) (ident : CallerIdentity) (r : String) :
    (Task.start p r).lines ident = pagesLines ident r (p.DescribeInstances r) := by
  simp [Task.start, Task.lines, instPanics]

theorem stepTask_inv (p : Provider) (opts : Options) (s s1 : State) (i : Nat)
    (hinv : Inv p opts s) (h : stepTask s i = some s1) : Inv p opts s1 := by
  unfold stepTask at h
  split at h
  · rename_i ident t hpc ht
    unfold Inv at hinv
    rw [hpc] at hinv
    obtain ⟨regions, hc⟩ := hinv
    have hslot := le_sum_map Task.slot s.tasks i t ht
    have hlive := le_sum_map Task.live s.tasks i t ht
    rw [← hc.hsem] at hslot
    rw [← hc.hwg] at hlive
    have key : ∀ s2 : State, s2.pc = s.pc → Core p opts ident regions s2 → Inv p opts s2 := by
      intro s2 h2 hc2
      unfold Inv
      rw [h2, hpc]
      exact ⟨regions, hc2⟩
    split at h
    · rename_i hrun
      split at h
      · rename_i inst more hpend
        split at h
        · rename_i row hrow
          cases h
          refine key _ rfl (Core.update hc ht rfl rfl rfl ?_ (le_refl _) ?_ [row] rfl ?_ [] ?_ ?_)
          · simp [Task.slot, Task.holdsSlot, hrun]
          · simp [Task.live, Task.unfinished, hrun]
          · simp [Task.rows, hrun, hpend, instRows, instPanics, hrow]
          · simp
          · simp [Task.lines, hrun, hpend, instPanics, hrow]
        · rename_i hrow
          cases h
          refine key _ rfl
            (Core.update hc ht rfl rfl rfl ?_ (le_refl _) ?_ [] ?_ ?_ [.panicked t.region] rfl ?_)
          · simp [Task.slot, Task.holdsSlot, hrun]
          · simp [Task.live, Task.unfinished, hrun]
          · simp
          · simp [Task.rows, hrun, hpend, instRows, instPanics, hrow]
          · simp [Task.lines, hrun, hpend, instPanics, hrow]
      · rename_i hpend
        split at h
        · rename_i hpages
          cases h
          refine key _ rfl (Core.update hc ht rfl rfl rfl ?_ (le_refl _) ?_ [] ?_ ?_ [] ?_ ?_)
          · simp [Task.slot, Task.holdsSlot, hrun]
          · simp [Task.live, Task.unfinished, hrun]
          · simp
          · simp [Task.rows, hrun, hpend, hpages, instRows, instPanics, pagesRows]
          · simp
          · simp [Task.lines, hrun, hpend, hpages, instPanics, pagesLines]
        · rename_i err rest hpages
          cases h
          refine key _ rfl
            (Core.update hc ht rfl rfl rfl ?_ (le_refl _) ?_ [] ?_ ?_
              [.fetchFailed t.region err] rfl ?_)
          · simp [Task.slot, Task.holdsSlot, hrun]
          · simp [Task.live, Task.unfinished, hrun]
          · simp
          · simp [Task.rows, hrun, hpend, hpages, instRows, instPanics, pagesRows]
          · simp [Task.lines, hrun, hpend, hpages, instPanics, pagesLines]
        · rename_i reservations rest hpages
          cases h
          refine key _ rfl (Core.update hc ht rfl rfl rfl ?_ (le_refl _) ?_ [] ?_ ?_ [] ?_ ?_)
          · simp [Task.slot, Task.holdsSlot, hrun]
          · simp [Task.live, Task.unfinished, hrun]
          · simp
          · simp [Task.rows, hrun, hpend, hpages, instRows, instPanics, pagesRows]
          · simp
          · simp [Task.lines, hrun, hpend, hpages, instPanics, pagesLines]
    · rename_i hrun
      cases h
      have h1 : t.slot = 1 := by simp [Task.slot, Task.holdsSlot, hrun]
      refine key _ rfl (Core.update hc ht rfl rfl rfl ?_ ?_ ?_ [] ?_ ?_ [] ?_ ?_)
      · simp [Task.slot, Task.holdsSlot, hrun]; omega
      · simp
      · simp [Task.live, Task.unfinished, hrun]
      · simp
      · simp [Task.rows, hrun]
      · simp
      · simp [Task.lines, hrun]
    · rename_i hrun
      cases h
      have h1 : t.live = 1 := by simp [Task.live, Task.unfinished, hrun]
      refine key _ rfl (Core.update hc ht rfl rfl rfl ?_ (le_refl _) ?_ [] ?_ ?_ [] ?_ ?_)
      · simp [Task.slot, Task.holdsSlot, hrun]
      · simp [Task.live, Task.unfinished, hrun]; omega
      · simp
      · simp [Task.rows, hrun]
      · simp
      · simp [Task.lines, hrun]
    · cases h
  · cases h

theorem dispatched_cons (opts : Options) (e : Option String) (rest : List (Option String)) :
    dispatched opts (e :: rest) =
      if passesFilter opts (ToString e) then ToString e :: dispatched opts rest
      else dispatched opts rest := by
  unfold dispatched
  by_cases h : passesFilter opts (ToString e) = true <;> simp [List.filter_cons, h]

theorem Core.enter {p : Provider} {opts : Options} {ident : CallerIdentity}
    {regions : List (Option String)} (hval : opts.Validate = none)
    (hid : p.GetCallerIdentity = .ok ident) (hreg : p.ListRegions = .ok regions)
    (calls : List ProviderCall) :
    Core p opts ident regions
      { State.init with pc := .loop ident, todo := regions, calls := calls } := by
  refine ⟨hid, hreg, hval, rfl, rfl, ?_, rfl, ?_, ?_⟩
  · unfold Options.Validate at hval
    split at hval
    · cases hval
    · simp [State.init]; omega
  · simp [State.init, scanRows, coe_flatMap, Task.start_rows]
  · simp [State.init, scanLines, coe_flatMap, Task.start_lines]

theorem stepMain_inv (p : Provider) (opts : Options) (s s1 : State)
    (hinv : Inv p opts s) (h : stepMain p opts s = some s1) : Inv p opts s1 := by
  unfold stepMain at h
  split at h
  · rename_i hpc
    unfold Inv at hinv
    rw [hpc] at hinv
    subst hinv
    split at h
    · rename_i err hval
      cases h; simp [Inv, State.init, hval]
    · rename_i hval
      split at h
      · rename_i err hid
        cases h; simp [Inv, State.init, hid]
      · rename_i ident hid
        split at h
        · rename_i err hreg
          cases h; simp [Inv, State.init, hreg]
        · rename_i regions hreg
          cases h
          exact ⟨regions, Core.enter hval hid hreg _⟩
  · rename_i ident hpc
    unfold Inv at hinv
    rw [hpc] at hinv
    obtain ⟨regions, hc⟩ := hinv
    split at h
    · rename_i regionEntry rest htodo
      simp only at h
      have hd := dispatched_cons opts regionEntry rest
      split at h
      · rename_i hpass
        rw [if_pos hpass] at hd
        split at h
        · rename_i hfree
          cases h
          unfold Inv
          simp only [hpc]
          refine ⟨regions, hc.hid, hc.hreg, hc.hval, ?_, ?_, ?_, ?_, ?_, ?_⟩
          · have := hc.hsem
            simp [Task.start, Task.slot, Task.holdsSlot]; omega
          · have := hc.hwg
            simp [Task.start, Task.live, Task.unfinished]; omega
          · simp only; push_cast; omega
          · have := hc.hdisp
            rw [htodo, hd] at this
            simpa [Task.start] using this
          · have := hc.hrows
            rw [htodo, hd] at this
            rw [← this]
            simp only [List.map_append, List.sum_append, List.map_cons, List.sum_cons,
              List.map_nil, List.sum_nil]
            abel
          · have := hc.hlines
            rw [htodo, hd] at this
            rw [← this]
            simp only [List.map_append, List.sum_append, List.map_cons, List.sum_cons,
              List.map_nil, List.sum_nil]
            abel
        · cases h
      · rename_i hpass
        rw [if_neg hpass] at hd
        cases h
        unfold Inv
        simp only [hpc]
        refine ⟨regions, hc.hid, hc.hreg, hc.hval, hc.hsem, hc.hwg, hc.hcap, ?_, ?_, ?_⟩
        · have := hc.hdisp
          rw [htodo, hd] at this
          exact this
        · have := hc.hrows
          rw [htodo, hd] at this
          exact this
        · have := hc.hlines
          rw [htodo, hd] at this
          exact this
    · rename_i htodo
      split at h
      · rename_i hwg
        cases h
        unfold Inv
        exact ⟨ident, regions,
          ⟨hc.hid, hc.hreg, hc.hval, hc.hsem, hc.hwg, hc.hcap, hc.hdisp, hc.hrows, hc.hlines⟩,
          rfl, htodo, hwg⟩
      · cases h
  · cases h

theorem step_inv (p : Provider) (opts : Options) (s s1 : State) (a : Action)
    (hinv : Inv p opts s) (h : step p opts s a = some s1) : Inv p opts s1 := by
  cases a with
  | main => exact stepMain_inv p opts s s1 hinv h
  | task i => exact stepTask_inv p opts s s1 i hinv h

theorem run_inv (p : Provider) (opts : Options) :
    ∀ (sched : List Action) (s s1 : State), Inv p opts s → run p opts s sched = some s1 →
      Inv p opts s1
  | [], s, s1, hinv, h => by simp [run] at h; subst h; exact hinv
  | a :: sched, s, s1, hinv, h => by
    unfold run at h
    split at h
    · rename_i s2 hs
      exact run_inv p opts sched s2 s1 (step_inv p opts s s2 a hinv hs) h
    · cases h

theorem inv_init (p : Provider) (opts : Options) : Inv p opts State.init := by
  simp [Inv, State.init]

theorem reachable_inv (p : Provider) (opts : Options) (sched : List Action) (s : State)
    (h : run p opts State.init sched = some s) : Inv p opts s :=
  run_inv p opts sched _ s (inv_init p opts) h

/-! ## No deadlock -/

theorem exists_unfinished (l : List Task) (h : (l.map Task.live).sum ≠ 0) :
    ∃ (i : Nat) (t : Task), l[i]? = some t ∧ t.pc ≠ TaskPc.done := by
  induction l with
  | nil => simp at h
  | cons x l ih =>
    by_cases hx : x.pc = .done
    · have : (l.map Task.live).sum ≠ 0 := by
        simpa [Task.live, Task.unfinished, hx] using h
      obtain ⟨i, t, hi, ht⟩ := ih this
      exact ⟨i + 1, t, by rw [List.getElem?_cons_succ]; exact hi, ht⟩
    · exact ⟨0, x, List.getElem?_cons_zero, hx⟩

theorem slot_sum_le_live_sum (l : List Task) :
    (l.map Task.slot).sum ≤ (l.map Task.live).sum := by
  induction l with
  | nil => simp
  | cons x l ih =>
    have : x.slot ≤ x.live := by
      cases hx : x.pc <;> simp [Task.slot, Task.live, Task.holdsSlot, Task.unfinished, hx]
    simp only [List.map_cons, List.sum_cons]
    omega

theorem stepTask_enabled (s : State) (ident : CallerIdentity) (i : Nat) (t : Task)
    (hpc : s.pc = .loop ident) (ht : s.tasks[i]? = some t) (hlive : t.pc ≠ .done) :
    ∃ s1, stepTask s i = some s1 := by
  unfold stepTask
  rw [hpc, ht]
  simp only
  cases hrun : t.pc with
  | running =>
    simp only
    cases hpend : t.pending with
    | cons inst more =>
      simp only
      cases buildInventory ident t.region inst <;> exact ⟨_, rfl⟩
    | nil =>
      simp only
      cases hpages : t.pages with
      | nil => exact ⟨_, rfl⟩
      | cons pg rest => cases pg <;> exact ⟨_, rfl⟩
  | releasing => exact ⟨_, rfl⟩
  | finishing => exact ⟨_, rfl⟩
  | done => exact absurd hrun hlive

theorem validate_none (opts : Options) (h : opts.Validate = none) :
    0 < opts.ChunkSize ∧ 0 ≤ opts.MaxRetries ∧ 0 < opts.Timeout := by
  unfold Options.Validate at h
  split at h
  · cases h
  · split at h
    · cases h
    · split at h
      · cases h
      · omega

theorem progress (p : Provider) (opts : Options) (s : State) (hinv : Inv p opts s)
    (hpc : ∀ result err, s.pc ≠ .returned result err) :
    ∃ a s1, step p opts s a = some s1 := by
  cases h : s.pc with
  | entry =>
    refine ⟨.main, ?_⟩
    simp only [step, stepMain, h]
    cases opts.Validate with
    | some err => exact ⟨_, rfl⟩
    | none =>
      cases p.GetCallerIdentity with
      | error err => exact ⟨_, rfl⟩
      | ok ident => cases p.ListRegions <;> exact ⟨_, rfl⟩
  | loop ident =>
    unfold Inv at hinv
    rw [h] at hinv
    obtain ⟨regions, hc⟩ := hinv
    by_cases hl : (s.tasks.map Task.live).sum = 0
    · have hsem : s.sem = 0 := by
        have := slot_sum_le_live_sum s.tasks
        have := hc.hsem
        omega
      have hwg : s.wg = 0 := by rw [hc.hwg]; exact hl
      have hpos := (validate_none opts hc.hval).1
      refine ⟨.main, ?_⟩
      simp only [step, stepMain, h]
      cases htodo : s.todo with
      | nil => simp only [hwg, if_true]; exact ⟨_, rfl⟩
      | cons e rest =>
        simp only
        by_cases hp : passesFilter opts (ToString e) = true
        · rw [if_pos hp, if_pos (by rw [hsem]; simpa using hpos)]
          exact ⟨_, rfl⟩
        · rw [if_neg hp]
          exact ⟨_, rfl⟩
    · obtain ⟨i, t, hi, ht⟩ := exists_unfinished s.tasks hl
      obtain ⟨s1, hs1⟩ := stepTask_enabled s ident i t h hi ht
      exact ⟨.task i, s1, hs1⟩
  | returned result err => exact absurd h (hpc result err)

/-! ## What a returned call has done -/

theorem sum_eq_zero_of_done {M : Type} [AddCommMonoid M] (f : Task → M)
    (hf : ∀ t : Task, t.pc = .done → f t = 0) (l : List Task)
    (h : (l.map Task.live).sum = 0) : (l.map f).sum = 0 := by
  induction l with
  | nil => rfl
  | cons x l ih =>
    simp only [List.map_cons, List.sum_cons] at h ⊢
    have hx : x.pc = .done := by
      cases hpc : x.pc <;> simp [Task.live, Task.unfinished, hpc] at h ⊢
    rw [hf x hx, ih (by omega), add_zero]

theorem buildInventory_region (ident : CallerIdentity) (region : String) (inst : Instance)
    (row : EC2Inventory) (h : buildInventory ident region inst = some row) :
    row.Region = region ∧ row.Errors = [] := by
  unfold buildInventory at h
  split at h
  · cases h; exact ⟨rfl, rfl⟩
  · cases h

theorem instRows_region (ident : CallerIdentity) (region : String) (insts : List Instance)
    (row : EC2Inventory) (h : row ∈ instRows ident region insts) :
    row.Region = region ∧ row.Errors = [] := by
  induction insts with
  | nil => simp [instRows] at h
  | cons inst more ih =>
    unfold instRows at h
    split at h
    · rename_i r hr
      rcases List.mem_cons.1 h with h1 | h1
      · subst h1; exact buildInventory_region ident region inst _ hr
      · exact ih h1
    · simp at h

theorem pagesRows_region (ident : CallerIdentity) (region : String) (pages : List PageResult)
    (row : EC2Inventory) (h : row ∈ pagesRows ident region pages) :
    row.Region = region ∧ row.Errors = [] := by
  induction pages with
  | nil => simp [pagesRows] at h
  | cons pg rest ih =>
    cases pg with
    | error err => simp [pagesRows] at h
    | page reservations =>
      unfold pagesRows at h
      rcases List.mem_append.1 h with h1 | h1
      · exact instRows_region ident region _ row h1
      · split at h1
        · simp at h1
        · exact ih h1

theorem scanRows_region (p : Provider) (opts : Options) (ident : CallerIdentity)
    (regions : List (Option String)) (row : EC2Inventory)
    (h : row ∈ scanRows p opts ident regions) :
    row.Region ∈ dispatched opts regions ∧ row.Errors = [] := by
  unfold scanRows at h
  obtain ⟨r, hr, hrow⟩ := List.mem_flatMap.1 h
  have := pagesRows_region ident r _ row hrow
  exact ⟨this.1 ▸ hr, this.2⟩

theorem returned_ok (p : Provider) (opts : Options) (ident : CallerIdentity)
    (regions : List (Option String)) (hval : opts.Validate = none)
    (hid : p.GetCallerIdentity = .ok ident) (hreg : p.ListRegions = .ok regions)
    (s : State) (hinv : Inv p opts s) (result : List EC2Inventory) (err : Option String)
    (hpc : s.pc = .returned result err) :
    err = none ∧ result = s.results ∧ result.Perm (scanRows p opts ident regions) ∧
      s.stdout.Perm (scanLines p opts ident regions) ∧
      s.tasks.map Task.region = dispatched opts regions ∧
      (∀ t ∈ s.tasks, t.pc = .done) ∧ s.sem = 0 ∧ s.wg = 0 := by
  unfold Inv at hinv
  rw [hpc] at hinv
  cases err with
  | some e =>
    obtain ⟨-, -, -, -, -, h | h | h⟩ := hinv
    · rw [hval] at h; cases h
    · rw [hid] at h; cases h
    · rw [hreg] at h; cases h
  | none =>
    obtain ⟨ident1, regions1, hc, hres, htodo, hwg⟩ := hinv
    have e1 : ident1 = ident := by
      have := hc.hid; rw [hid] at this; cases this; rfl
    have e2 : regions1 = regions := by
      have := hc.hreg; rw [hreg] at this; cases this; rfl
    subst e1 e2
    have hlive : (s.tasks.map Task.live).sum = 0 := by rw [← hc.hwg]; exact hwg
    have hrows := hc.hrows
    have hlines := hc.hlines
    rw [htodo, sum_eq_zero_of_done _ (by intro t ht; simp [Task.rows, ht]) _ hlive] at hrows
    rw [htodo, sum_eq_zero_of_done _ (by intro t ht; simp [Task.lines, ht]) _ hlive] at hlines
    have hdisp := hc.hdisp
    rw [htodo] at hdisp
    simp only [dispatched, List.map_nil, List.filter_nil, List.sum_nil, add_zero,
      List.append_nil] at hrows hlines hdisp
    refine ⟨rfl, hres, ?_, ?_, hdisp, ?_, ?_, hwg⟩
    · rw [hres]; exact Multiset.coe_eq_coe.1 hrows
    · exact Multiset.coe_eq_coe.1 hlines
    · intro t ht
      by_contra hne
      have h1 : t.live ∈ s.tasks.map Task.live := List.mem_map.2 ⟨t, ht, rfl⟩
      have h2 := List.single_le_sum (by intros; omega) _ h1
      have h3 : t.live = 1 := by
        cases hp : t.pc <;> simp_all [Task.live, Task.unfinished]
      omega
    · have := slot_sum_le_live_sum s.tasks
      have := hc.hsem
      omega

/-! ## Tasks that succeed and tasks that fail -/

theorem instPanics_eq (ident : CallerIdentity) (region : String) (insts : List Instance) :
    instPanics ident region insts
      = !(insts.all fun inst => (buildInventory ident region inst).isSome) := by
  induction insts with
  | nil => rfl
  | cons inst more ih =>
    unfold instPanics
    cases h : buildInventory ident region inst <;> simp [h, ih]

theorem instRows_complete (ident : CallerIdentity) (region : String) (insts : List Instance)
    (h : instPanics ident region insts = false) (inst : Instance) (hi : inst ∈ insts) :
    ∃ row, buildInventory ident region inst = some row ∧
      row ∈ instRows ident region insts := by
  induction insts with
  | nil => simp at hi
  | cons x more ih =>
    unfold instPanics at h
    unfold instRows
    cases hx : buildInventory ident region x with
    | none => simp [hx] at h
    | some rx =>
      simp only [hx] at h ⊢
      rcases List.mem_cons.1 hi with h1 | h1
      · subst h1; exact ⟨rx, hx, List.mem_cons_self _ _⟩
      · obtain ⟨row, hrow, hmem⟩ := ih h h1
        exact ⟨row, hrow, List.mem_cons_of_mem _ hmem⟩

theorem pagesRows_complete (ident : CallerIdentity) (region : String)
    (pages : List PageResult) (h : taskSucceeds ident region pages = true)
    (reservations : List (List Instance)) (hp : PageResult.page reservations ∈ pages)
    (inst : Instance) (hi : inst ∈ reservations.flatten) :
    ∃ row, buildInventory ident region inst = some row ∧
      row ∈ pagesRows ident region pages := by
  induction pages with
  | nil => simp at hp
  | cons pg rest ih =>
    cases pg with
    | error err => simp [taskSucceeds] at h
    | page rs =>
      have hsplit : instPanics ident region rs.flatten = false ∧
          taskSucceeds ident region rest = true := by
        rw [instPanics_eq]
        simpa [taskSucceeds] using h
      unfold pagesRows
      rw [hsplit.1]
      rcases List.mem_cons.1 hp with h1 | h1
      · cases h1
        obtain ⟨row, hrow, hmem⟩ := instRows_complete ident region _ hsplit.1 inst hi
        exact ⟨row, hrow, List.mem_append_left _ hmem⟩
      · obtain ⟨row, hrow, hmem⟩ := ih hsplit.2 h1
        exact ⟨row, hrow, List.mem_append_right _ (by simpa using hmem)⟩

theorem pagesLines_region (ident : CallerIdentity) (region : String)
    (pages : List PageResult) :
    (pagesLines ident region pages).map LogLine.region
      = if taskSucceeds ident region pages then [] else [region] := by
  induction pages with
  | nil => rfl
  | cons pg rest ih =>
    cases pg with
    | error err => simp [pagesLines, taskSucceeds, LogLine.region]
    | page rs =>
      unfold pagesLines
      by_cases hpan : instPanics ident region rs.flatten = true
      · have hall := hpan
        rw [instPanics_eq] at hall
        have : taskSucceeds ident region (PageResult.page rs :: rest) = false := by
          simp only [taskSucceeds, List.all_cons]
          simp only [Bool.not_eq_true', Bool.not_eq_eq_eq_not, Bool.not_true] at hall
          rw [hall]; rfl
        rw [if_pos hpan, this]
        simp [LogLine.region]
      · have hall := hpan
        rw [instPanics_eq] at hall
        have : taskSucceeds ident region (PageResult.page rs :: rest)
            = taskSucceeds ident region rest := by
          simp only [taskSucceeds, List.all_cons]
          simp only [Bool.not_eq_true', Bool.not_eq_eq_eq_not, Bool.not_true,
            Bool.not_eq_false] at hall
          rw [hall]; rfl
        rw [if_neg hpan, this, ih]

theorem scanLines_region (p : Provider) (opts : Options) (ident : CallerIdentity)
    (regions : List (Option String)) :
    (scanLines p opts ident regions).map LogLine.region
      = (dispatched opts regions).filter
          (fun r => !taskSucceeds ident r (p.DescribeInstances r)) := by
  unfold scanLines
  induction dispatched opts regions with
  | nil => rfl
  | cons r rest ih =>
    rw [List.flatMap_cons, List.map_append, ih, pagesLines_region, List.filter_cons]
    cases taskSucceeds ident r (p.DescribeInstances r) <;> simp

theorem passesFilter_iff (opts : Options) (r : String) :
    passesFilter opts r = true ↔ (opts.RegionFilter = [] ∨ r ∈ opts.RegionFilter) := by
  unfold passesFilter
  cases h : opts.RegionFilter with
  | nil => simp
  | cons x xs => simp

theorem dispatched_eq (opts : Options) (regions : List (Option String)) :
    dispatched opts regions
      = (regions.map ToString).filter
          (fun r => decide (opts.RegionFilter = [] ∨ r ∈ opts.RegionFilter)) := by
  unfold dispatched
  congr 1
  funext r
  have := passesFilter_iff opts r
  by_cases h : passesFilter opts r = true
  · rw [h]; exact (decide_eq_true (this.1 h)).symm
  · have h2 : ¬ (opts.RegionFilter = [] ∨ r ∈ opts.RegionFilter) := fun hc => h (this.2 hc)
    rw [Bool.not_eq_true] at h
    rw [h]; exact (decide_eq_false h2).symm

theorem tasks_initial_part (p : Provider) (opts : Options)
    (regions : List (Option String))
    (hreg : p.ListRegions = .ok regions) (s : State) (hinv : Inv p opts s) :
    s.tasks.map Task.region <+: dispatched opts regions := by
  have core : ∀ ident1 regions1, Core p opts ident1 regions1 s →
      s.tasks.map Task.region <+: dispatched opts regions := by
    intro ident1 regions1 hc
    have e2 : regions1 = regions := by
      have := hc.hreg; rw [hreg] at this; cases this; rfl
    subst e2
    exact ⟨_, hc.hdisp⟩
  unfold Inv at hinv
  split at hinv
  · subst hinv; exact ⟨_, rfl⟩
  · obtain ⟨regions1, hc⟩ := hinv
    exact core _ _ hc
  · obtain ⟨ident1, regions1, hc, -⟩ := hinv
    exact core _ _ hc
  · obtain ⟨-, htasks, -⟩ := hinv
    rw [htasks]; exact ⟨_, rfl⟩

theorem step_returned (p : Provider) (opts : Options) (s : State) (a : Action)
    (result : List EC2Inventory) (err : Option String) (h : s.pc = .returned result err) :
    step p opts s a = none := by
  cases a with
  | main => simp [step, stepMain, h]
  | task i => simp [step, stepTask, h]

theorem run_returned (p : Provider) (opts : Options) (s s1 : State) (sched : List Action)
    (result : List EC2Inventory) (err : Option String) (h : s.pc = .returned result err)
    (hrun : run p opts s sched = some s1) : s1 = s := by
  cases sched with
  | nil => simp [run] at hrun; exact hrun.symm
  | cons a rest => simp [run, step_returned p opts s a result err h] at hrun

theorem run_invalid (p : Provider) (opts : Options) (e : String)
    (hval : opts.Validate = some e) (sched : List Action) (s : State)
    (h : run p opts State.init sched = some s) :
    s = State.init ∨ s = { State.init with pc := .returned [] (some e) } := by
  cases sched with
  | nil => simp [run] at h; exact Or.inl h.symm
  | cons a rest =>
    cases a with
    | main =>
      have hs : step p opts State.init .main
          = some { State.init with pc := .returned [] (some e) } := by
        simp [step, stepMain, State.init, hval]
      simp only [run, hs] at h
      exact Or.inr (run_returned p opts _ s rest [] (some e) rfl h)
    | task i => simp [run, step, stepTask, State.init] at h

/-! ## Statements of the upsert shape -/

theorem Stmt.isUpsert_iff (stmt : Stmt) :
    stmt.isUpsert = true ↔
      stmt.columns = stmt.conflict :: stmt.nonKey ++ ["last_updated"] ∧ stmt.columns.Nodup ∧
      stmt.values
        = (List.range (stmt.nonKey.length + 1)).map (fun i => Expr.param (i + 1)) ++ [Expr.now] ∧
      stmt.set
        = stmt.nonKey.map (fun c => (c, Expr.excluded c)) ++ [("last_updated", Expr.now)] := by
  simp [Stmt.isUpsert, and_assoc]

theorem foldl_max_range (n : Nat) :
    ((List.range n).map (fun i => i + 1)).foldl max 0 = n := by
  induction n with
  | zero => rfl
  | succ n ih =>
    rw [List.range_succ, List.map_append, List.foldl_append, ih]
    simp

theorem Stmt.arity_eq (stmt : Stmt) (h : stmt.isUpsert = true) :
    stmt.arity = stmt.nonKey.length + 1 := by
  obtain ⟨-, -, hv, -⟩ := (Stmt.isUpsert_iff stmt).1 h
  unfold Stmt.arity
  rw [hv, List.map_append, List.foldl_append, List.map_map]
  have : ((fun e : Expr => match e with | .param i => i | _ => 0) ∘ fun i => Expr.param (i + 1))
      = fun i => i + 1 := rfl
  rw [this, foldl_max_range]
  simp

theorem map_range_getD (args : List Val) :
    (List.range args.length).map (fun i => (args[i]?).getD .null) = args := by
  apply List.ext_getElem
  · simp
  · intro i h1 h2
    simp [List.getElem?_eq_getElem h2]

theorem Stmt.values_eval (stmt : Stmt) (h : stmt.isUpsert = true) (args : List Val)
    (now : Nat) (hlen : args.length = stmt.nonKey.length + 1) (p : Row) :
    stmt.values.map (Expr.eval args now p) = args ++ [.time now] := by
  obtain ⟨-, -, hv, -⟩ := (Stmt.isUpsert_iff stmt).1 h
  rw [hv, List.map_append, List.map_map, ← hlen]
  have : (Expr.eval args now p ∘ fun i => Expr.param (i + 1))
      = fun i => (args[i]?).getD .null := by
    funext i; simp [Expr.eval]
  rw [this, map_range_getD]
  rfl

theorem lookup_map_self (l : List String) (f : String → Expr) (col : String) :
    (l.map (fun c => (c, f c))).lookup col = if col ∈ l then some (f col) else none := by
  induction l with
  | nil => simp
  | cons x l ih =>
    rw [List.map_cons, List.lookup_cons]
    by_cases hx : col = x
    · subst hx; simp
    · have : (col == x) = false := by simpa using hx
      rw [this, ih]
      simp [hx]

theorem Stmt.proposed_eq (stmt : Stmt) (h : stmt.isUpsert = true)
    (row : List (String × Val)) (now : Nat)
    (hcols : row.map Prod.fst ++ ["last_updated"] = stmt.columns) :
    stmt.proposed (row.map Prod.snd) now = storedRow row now := by
  obtain ⟨hc, hnd, -, -⟩ := (Stmt.isUpsert_iff stmt).1 h
  have hlen : (row.map Prod.snd).length = stmt.nonKey.length + 1 := by
    have := congrArg List.length hcols
    rw [hc] at this
    simp at this ⊢
    omega
  funext col
  unfold Stmt.proposed storedRow
  have hlu : "last_updated" ∉ row.map Prod.fst := by
    rw [← hcols] at hnd
    exact fun hmem => (List.nodup_append.1 hnd).2.2 hmem (List.mem_singleton_self _)
  have hz : row = (row.map Prod.fst).zip (row.map Prod.snd) := List.zip_of_prod rfl rfl
  rw [Stmt.values_eval stmt h _ now hlen, ← hcols, List.zip_append (by simp), ← hz,
    List.lookup_append]
  by_cases hcol : col = "last_updated"
  · subst hcol
    have : row.lookup "last_updated" = none := by
      rw [List.lookup_eq_none_iff]
      intro pr hpr
      have : pr.1 ≠ "last_updated" := fun he => hlu (List.mem_map.2 ⟨pr, hpr, he⟩)
      simpa using fun he => this he.symm
    simp [this, List.lookup_cons]
  · have : (col == "last_updated") = false := by simpa using hcol
    simp [hcol, List.lookup_cons, this]

theorem Stmt.tail_eq (stmt : Stmt) (h : stmt.isUpsert = true) :
    stmt.columns.tail = stmt.nonKey ++ ["last_updated"] ∧
      stmt.conflict ∉ stmt.columns.tail := by
  obtain ⟨hc, hnd, -, -⟩ := (Stmt.isUpsert_iff stmt).1 h
  have ht : stmt.columns.tail = stmt.nonKey ++ ["last_updated"] := by
    rw [hc]; rfl
  refine ⟨ht, ?_⟩
  rw [hc] at hnd
  rw [ht]
  exact (List.nodup_cons.1 hnd).1

theorem Stmt.merge_eq (stmt : Stmt) (h : stmt.isUpsert = true) (args : List Val) (now : Nat)
    (old p : Row) (hp : p "last_updated" = .time now) :
    stmt.merge args now old p = overwrite stmt.columns.tail old p := by
  obtain ⟨-, -, -, hs⟩ := (Stmt.isUpsert_iff stmt).1 h
  funext col
  unfold Stmt.merge overwrite
  rw [(Stmt.tail_eq stmt h).1, hs, List.lookup_append, lookup_map_self]
  by_cases h1 : col ∈ stmt.nonKey
  · simp [h1, Expr.eval]
  · by_cases h2 : col = "last_updated"
    · subst h2
      simp [h1, List.lookup_cons, Expr.eval, hp]
    · have : (col == "last_updated") = false := by simpa using h2
      simp [h1, h2, List.lookup_cons, this]

theorem storedRow_timestamp (row : List (String × Val)) (now : Nat) :
    storedRow row now "last_updated" = .time now := by
  simp [storedRow]

theorem Stmt.exec_eq (stmt : Stmt) (h : stmt.isUpsert = true) (row : List (String × Val))
    (now : Nat) (hcols : row.map Prod.fst ++ ["last_updated"] = stmt.columns) (t : Table) :
    stmt.exec (row.map Prod.snd) now t
      = .ok (upsertRow stmt.conflict stmt.columns.tail t (storedRow row now)) := by
  obtain ⟨hc, -, -, -⟩ := (Stmt.isUpsert_iff stmt).1 h
  have hlen : (row.map Prod.snd).length = stmt.arity := by
    rw [Stmt.arity_eq stmt h]
    have := congrArg List.length hcols
    rw [hc] at this
    simp at this ⊢
    omega
  unfold Stmt.exec upsertRow
  rw [if_neg (by simpa using hlen), Stmt.proposed_eq stmt h row now hcols]
  simp only [Stmt.merge_eq stmt h _ now _ _ (storedRow_timestamp row now)]
  split <;> rfl

/-! ## The transaction of `InsertResources` -/

theorem ExecContext_committed (db : DB) (stmt : Stmt) (args : List Val) (now : Nat)
    (fault : Option String) :
    (db.ExecContext stmt args now fault).2.committed = db.committed := by
  unfold DB.ExecContext
  split
  · rfl
  · rfl
  · split <;> rfl

theorem execLoop_committed {R : Type} (stmt : Stmt) (bind : R → List Val) (wrap : R → String)
    (f : Faults) (now : Nat) (rs : List R) :
    ∀ (k : Nat) (db : DB),
      (execLoop stmt bind wrap f now k rs db).2.committed = db.committed := by
  induction rs with
  | nil => intro k db; rfl
  | cons r rest ih =>
    intro k db
    unfold execLoop
    have hc := ExecContext_committed db stmt (bind r) now (f.exec k)
    split
    · rename_i e db1 heq
      rw [heq] at hc; exact hc
    · rename_i db1 heq
      rw [heq] at hc
      rw [ih (k + 1) db1]; exact hc

theorem execLoop_ok {R : Type} (stmt : Stmt) (h : stmt.isUpsert = true) (bind : R → List Val)
    (fieldsOf : R → List (String × Val)) (hbind : ∀ r, bind r = (fieldsOf r).map Prod.snd)
    (hcols : ∀ r, (fieldsOf r).map Prod.fst ++ ["last_updated"] = stmt.columns)
    (wrap : R → String) (f : Faults) (now : Nat) (rs : List R) :
    ∀ (k : Nat) (db db1 : DB) (view : String → Table), db.tx = some view →
      execLoop stmt bind wrap f now k rs db = (none, db1) →
      db1.tx = some (Function.update view stmt.table
        ((rs.map fun r => storedRow (fieldsOf r) now).foldl
          (upsertRow stmt.conflict stmt.columns.tail) (view stmt.table))) := by
  induction rs with
  | nil =>
    intro k db db1 view htx hrun
    simp only [execLoop, Prod.mk.injEq, true_and] at hrun
    subst hrun
    simp [htx]
  | cons r rest ih =>
    intro k db db1 view htx hrun
    unfold execLoop at hrun
    split at hrun
    · cases hrun
    · rename_i db2 heq
      unfold DB.ExecContext at heq
      rw [htx] at heq
      split at heq
      · cases heq
      · cases heq
      · rename_i view1 hv
        cases hv
        rw [hbind r, Stmt.exec_eq stmt h _ now (hcols r)] at heq
        simp only [Prod.mk.injEq, true_and] at heq
        subst heq
        rw [ih (k + 1) _ db1 _ rfl hrun]
        simp [Function.update_idem]

theorem insertResources_cases {R : Type} (stmt : Stmt) (bind : R → List Val)
    (wrap : R → String) (f : Faults) (now : Nat) (db : DB) (rs : List R)
    (h0 : rs.length ≠ 0) :
    (∃ e, (insertResources stmt bind wrap f now db rs).1 = some e ∧
      (insertResources stmt bind wrap f now db rs).2.committed = db.committed ∧
      (db.tx = none → (insertResources stmt bind wrap f now db rs).2.tx = none)) ∨
    (∃ db3 view, execLoop stmt bind wrap f now 0 rs
        { db with tx := some db.committed,
                  ops := db.ops ++ [.begin] ++ [.prepare stmt.table] } = (none, db3) ∧
      db3.tx = some view ∧
      (insertResources stmt bind wrap f now db rs).1 = none ∧
      (insertResources stmt bind wrap f now db rs).2.committed = view ∧
      (insertResources stmt bind wrap f now db rs).2.tx = none) := by
  unfold insertResources
  rw [if_neg h0]
  cases hb : f.begin with
  | some e0 => exact Or.inl ⟨_, rfl, rfl, fun h => h⟩
  | none =>
    cases hp : f.prepare with
    | some e1 => exact Or.inl ⟨_, rfl, rfl, fun _ => rfl⟩
    | none =>
      simp only [DB.BeginTx, DB.PrepareContext]
      have hc := execLoop_committed stmt bind wrap f now rs 0
        { db with tx := some db.committed,
                  ops := db.ops ++ [.begin] ++ [.prepare stmt.table] }
      rcases hl : execLoop stmt bind wrap f now 0 rs
        { db with tx := some db.committed,
                  ops := db.ops ++ [.begin] ++ [.prepare stmt.table] } with ⟨o, db3⟩
      rw [hl] at hc
      simp only at hc
      cases o with
      | some e2 => exact Or.inl ⟨_, rfl, hc, fun _ => rfl⟩
      | none =>
        simp only
        unfold DB.Commit
        cases hcm : f.commit with
        | some e3 => exact Or.inl ⟨_, rfl, hc, fun _ => rfl⟩
        | none =>
          cases htx : db3.tx with
          | none => exact Or.inl ⟨_, rfl, hc, fun _ => rfl⟩
          | some view => exact Or.inr ⟨db3, view, rfl, htx, rfl, rfl, rfl⟩

theorem insertResources_err {R : Type} (stmt : Stmt) (bind : R → List Val) (wrap : R → String)
    (f : Faults) (now : Nat) (db : DB) (rs : List R) (htx : db.tx = none) (e : String)
    (herr : (insertResources stmt bind wrap f now db rs).1 = some e) :
    (insertResources stmt bind wrap f now db rs).2.committed = db.committed ∧
      (insertResources stmt bind wrap f now db rs).2.tx = none := by
  by_cases h0 : rs.length = 0
  · simp [insertResources, h0] at herr
  · rcases insertResources_cases stmt bind wrap f now db rs h0 with
      ⟨-, -, hc, ht⟩ | ⟨-, -, -, -, hnone, -⟩
    · exact ⟨hc, ht htx⟩
    · rw [hnone] at herr; cases herr

theorem insertResources_ok {R : Type} (stmt : Stmt) (h : stmt.isUpsert = true)
    (bind : R → List Val) (fieldsOf : R → List (String × Val))
    (hbind : ∀ r, bind r = (fieldsOf r).map Prod.snd)
    (hcols : ∀ r, (fieldsOf r).map Prod.fst ++ ["last_updated"] = stmt.columns)
    (wrap : R → String) (f : Faults) (now : Nat) (db : DB) (rs : List R)
    (hok : (insertResources stmt bind wrap f now db rs).1 = none) :
    (insertResources stmt bind wrap f now db rs).2.committed
      = Function.update db.committed stmt.table
          ((rs.map fun r => storedRow (fieldsOf r) now).foldl
            (upsertRow stmt.conflict stmt.columns.tail) (db.committed stmt.table)) := by
  by_cases h0 : rs.length = 0
  · have : rs = [] := List.length_eq_zero.1 h0
    subst this
    simp [insertResources]
  · rcases insertResources_cases stmt bind wrap f now db rs h0 with
      ⟨e, he, -⟩ | ⟨db3, view, hloop, hview, -, hc, -⟩
    · rw [he] at hok; cases hok
    · have := execLoop_ok stmt h bind fieldsOf hbind hcols wrap f now rs 0 _ db3
        db.committed rfl hloop
      rw [hview] at this
      cases this
      exact hc

/-! ## Upserting a list of rows -/

theorem overwrite_key (k : String) (S : List String) (hk : k ∉ S) (r c : Row) :
    overwrite S r c k = r k := by
  simp [overwrite, hk]

theorem any_key_iff (k : String) (T : Table) (v : Val) :
    T.any (fun r => decide (r k = v)) = true ↔ v ∈ T.map (fun r => r k) := by
  simp only [List.any_eq_true, decide_eq_true_eq, List.mem_map]

theorem upsertRow_keys (k : String) (S : List String) (hk : k ∉ S) (T : Table) (c : Row) :
    (upsertRow k S T c).map (fun r => r k)
      = if c k ∈ T.map (fun r => r k) then T.map (fun r => r k)
        else T.map (fun r => r k) ++ [c k] := by
  unfold upsertRow
  by_cases h : T.any (fun r => decide (r k = c k)) = true
  · rw [if_pos h, if_pos ((any_key_iff k T (c k)).1 h), List.map_map]
    apply List.map_congr_left
    intro r _
    simp only [Function.comp]
    split
    · exact overwrite_key k S hk r c
    · rfl
  · rw [if_neg h, if_neg (fun hc => h ((any_key_iff k T (c k)).2 hc))]
    simp

theorem mem_upsertRow (k : String) (S : List String) (T : Table) (c row : Row) :
    row ∈ upsertRow k S T c ↔
      (∃ r ∈ T, (r k = c k ∧ row = overwrite S r c) ∨ (r k ≠ c k ∧ row = r)) ∨
      ((∀ r ∈ T, r k ≠ c k) ∧ row = c) := by
  unfold upsertRow
  by_cases h : T.any (fun r => decide (r k = c k)) = true
  · rw [if_pos h]
    obtain ⟨r0, hr0, hk0⟩ := List.any_eq_true.1 h
    have hk0 : r0 k = c k := by simpa using hk0
    constructor
    · intro hm
      obtain ⟨r, hr, he⟩ := List.mem_map.1 hm
      refine Or.inl ⟨r, hr, ?_⟩
      by_cases hrk : r k = c k
      · rw [if_pos hrk] at he; exact Or.inl ⟨hrk, he.symm⟩
      · rw [if_neg hrk] at he; exact Or.inr ⟨hrk, he.symm⟩
    · rintro (⟨r, hr, ⟨hrk, he⟩ | ⟨hrk, he⟩⟩ | ⟨hall, -⟩)
      · exact List.mem_map.2 ⟨r, hr, by rw [if_pos hrk, he]⟩
      · exact List.mem_map.2 ⟨r, hr, by rw [if_neg hrk, he]⟩
      · exact absurd hk0 (hall r0 hr0)
  · rw [if_neg h]
    have hall : ∀ r ∈ T, r k ≠ c k := by
      intro r hr hrk
      exact h (List.any_eq_true.2 ⟨r, hr, by simpa using hrk⟩)
    constructor
    · intro hm
      rcases List.mem_append.1 hm with hm | hm
      · exact Or.inl ⟨row, hm, Or.inr ⟨hall row hm, rfl⟩⟩
      · exact Or.inr ⟨hall, by simpa using hm⟩
    · rintro (⟨r, hr, ⟨hrk, -⟩ | ⟨-, he⟩⟩ | ⟨-, he⟩)
      · exact absurd hrk (hall r hr)
      · exact List.mem_append_left _ (he ▸ hr)
      · exact List.mem_append_right _ (by simp [he])

theorem foldl_upsert_keys_nodup (k : String) (S : List String) (hk : k ∉ S) (cs : List Row) :
    ∀ T : Table, (T.map (fun r => r k)).Nodup →
      ((cs.foldl (upsertRow k S) T).map (fun r => r k)).Nodup := by
  induction cs with
  | nil => intro T h; exact h
  | cons c cs ih =>
    intro T h
    rw [List.foldl_cons]
    apply ih
    rw [upsertRow_keys k S hk]
    split
    · exact h
    · rename_i hc
      exact List.nodup_append.2 ⟨h, List.nodup_singleton _, by
        intro a ha hb
        rw [List.mem_singleton.1 hb] at ha
        exact hc ha⟩

theorem foldl_upsert_keys_mem (k : String) (S : List String) (hk : k ∉ S) (cs : List Row) :
    ∀ (T : Table) (v : Val), v ∈ (cs.foldl (upsertRow k S) T).map (fun r => r k) ↔
      v ∈ T.map (fun r => r k) ∨ v ∈ cs.map (fun r => r k) := by
  induction cs with
  | nil => intro T v; simp
  | cons c cs ih =>
    intro T v
    rw [List.foldl_cons, ih, upsertRow_keys k S hk, List.map_cons, List.mem_cons]
    split
    · rename_i hc
      constructor
      · rintro (h | h)
        · exact Or.inl h
        · exact Or.inr (Or.inr h)
      · rintro (h | h | h)
        · exact Or.inl h
        · exact Or.inl (h ▸ hc)
        · exact Or.inr h
    · rw [List.mem_append, List.mem_singleton]
      tauto

theorem foldl_upsert_values (k : String) (S : List String) (hk : k ∉ S) (T : Table)
    (cs : List Row) :
    ∀ row ∈ cs.foldl (upsertRow k S) T, ∀ c,
      cs.reverse.find? (fun c => decide (c k = row k)) = some c →
        ∀ col ∈ S, row col = c col := by
  induction cs using List.reverseRecOn with
  | nil => intro row _ c h; simp at h
  | append_singleton cs c0 ih =>
    intro row hrow c hfind col hcol
    rw [List.foldl_append, List.foldl_cons, List.foldl_nil] at hrow
    rw [List.reverse_append, List.reverse_singleton, List.singleton_append,
      List.find?_cons] at hfind
    rcases (mem_upsertRow k S _ c0 row).1 hrow with
      ⟨r, hr, ⟨hrk, he⟩ | ⟨hrk, he⟩⟩ | ⟨-, he⟩
    · have hkey : c0 k = row k := by rw [he, overwrite_key k S hk, hrk]
      simp only [hkey, decide_True] at hfind
      cases hfind
      rw [he]; simp [overwrite, hcol]
    · subst he
      have hkey : ¬ c0 k = row k := fun h => hrk h.symm
      simp only [hkey, decide_False] at hfind
      exact ih row hr c hfind col hcol
    · subst he
      simp only [decide_True] at hfind
      cases hfind
      rfl

theorem foldl_upsert_untouched (k : String) (S : List String) (hk : k ∉ S) (cs : List Row) :
    ∀ (T : Table) (row : Row), row k ∉ cs.map (fun r => r k) →
      (row ∈ cs.foldl (upsertRow k S) T ↔ row ∈ T) := by
  induction cs with
  | nil => intro T row _; rfl
  | cons c cs ih =>
    intro T row hrow
    rw [List.map_cons, List.mem_cons, not_or] at hrow
    rw [List.foldl_cons, ih _ row hrow.2, mem_upsertRow]
    constructor
    · rintro (⟨r, hr, ⟨hrk, he⟩ | ⟨-, he⟩⟩ | ⟨-, he⟩)
      · exfalso; apply hrow.1
        rw [he, overwrite_key k S hk, hrk]
      · exact he ▸ hr
      · exfalso; apply hrow.1; rw [he]
    · intro hr
      exact Or.inl ⟨row, hr, Or.inr ⟨hrow.1, rfl⟩⟩

/-! ## Upserting the same rows again -/

theorem touch_key (k : String) (S : List String) (hk : k ∉ S) (cs : List Row) :
    ∀ r : Row, touch k S r cs k = r k := by
  induction cs with
  | nil => intro r; rfl
  | cons c cs ih =>
    intro r
    unfold touch
    rw [List.foldl_cons]
    have := ih (if r k = c k then overwrite S r c else r)
    unfold touch at this
    rw [this]
    split
    · exact overwrite_key k S hk r c
    · rfl

theorem touch_concat (k : String) (S : List String) (r : Row) (cs : List Row) (c : Row) :
    touch k S r (cs ++ [c])
      = if touch k S r cs k = c k then overwrite S (touch k S r cs) c else touch k S r cs := by
  unfold touch
  rw [List.foldl_append, List.foldl_cons, List.foldl_nil]

theorem touch_other (k : String) (S : List String) (r : Row) (cs : List Row) (col : String)
    (hcol : col ∉ S) : touch k S r cs col = r col := by
  induction cs using List.reverseRecOn with
  | nil => rfl
  | append_singleton cs c ih =>
    rw [touch_concat]
    split
    · simp [overwrite, hcol, ih]
    · exact ih

theorem touch_value (k : String) (S : List String) (hk : k ∉ S) (r : Row) (cs : List Row)
    (col : String) (hcol : col ∈ S) :
    touch k S r cs col
      = match cs.reverse.find? (fun c => decide (c k = r k)) with
        | some c => c col
        | none => r col := by
  induction cs using List.reverseRecOn with
  | nil => rfl
  | append_singleton cs c ih =>
    rw [touch_concat, touch_key k S hk, List.reverse_append, List.reverse_singleton,
      List.singleton_append, List.find?_cons]
    by_cases h : r k = c k
    · have h2 : c k = r k := h.symm
      simp [h, overwrite, hcol]
    · have h2 : ¬ c k = r k := fun e => h e.symm
      simp only [h, h2, if_false, decide_False]
      exact ih

theorem foldl_upsert_present (k : String) (S : List String) (hk : k ∉ S) (cs : List Row) :
    ∀ T : Table, (∀ c ∈ cs, c k ∈ T.map (fun r => r k)) →
      cs.foldl (upsertRow k S) T = T.map (fun r => touch k S r cs) := by
  induction cs with
  | nil => intro T _; simp [touch]
  | cons c cs ih =>
    intro T hall
    have hc := hall c (List.mem_cons_self _ _)
    have hU : upsertRow k S T c
        = T.map (fun r => if r k = c k then overwrite S r c else r) := by
      unfold upsertRow
      rw [if_pos ((any_key_iff k T (c k)).2 hc)]
    have hkeys : (upsertRow k S T c).map (fun r => r k) = T.map (fun r => r k) := by
      rw [upsertRow_keys k S hk, if_pos hc]
    rw [List.foldl_cons, ih _ (by
      intro c1 hc1
      rw [hkeys]
      exact hall c1 (List.mem_cons_of_mem _ hc1)), hU, List.map_map]
    rfl

theorem find?_map_key {α : Type} (l : List α) (g : α → Row) (k : String) (v : Val) :
    (l.map g).reverse.find? (fun c => decide (c k = v))
      = (l.reverse.find? (fun a => decide (g a k = v))).map g := by
  rw [← List.map_reverse, List.find?_map]
  rfl

theorem foldl_upsert_again {α : Type} (k : String) (S : List String) (hk : k ∉ S)
    (hlu : k ≠ "last_updated") (g1 g2 : α → Row)
    (hg : ∀ a col, col ≠ "last_updated" → g1 a col = g2 a col) (l : List α) (T : Table) :
    ((l.map g2).foldl (upsertRow k S) ((l.map g1).foldl (upsertRow k S) T)).map withoutTimestamp
      = ((l.map g1).foldl (upsertRow k S) T).map withoutTimestamp ∧
    ((l.map g2).foldl (upsertRow k S) ((l.map g1).foldl (upsertRow k S) T)).map (fun r => r k)
      = ((l.map g1).foldl (upsertRow k S) T).map (fun r => r k) := by
  have hpresent : ∀ c ∈ l.map g2,
      c k ∈ ((l.map g1).foldl (upsertRow k S) T).map (fun r => r k) := by
    intro c hc
    obtain ⟨a, ha, rfl⟩ := List.mem_map.1 hc
    rw [foldl_upsert_keys_mem k S hk, ← hg a k hlu]
    exact Or.inr (List.mem_map.2 ⟨g1 a, List.mem_map.2 ⟨a, ha, rfl⟩, rfl⟩)
  rw [foldl_upsert_present k S hk _ _ hpresent, List.map_map, List.map_map]
  constructor
  · apply List.map_congr_left
    intro row hrow
    funext col
    simp only [Function.comp, withoutTimestamp]
    by_cases hcol : col = "last_updated"
    · simp [hcol]
    · simp only [hcol, if_false]
      by_cases hS : col ∈ S
      · rw [touch_value k S hk row _ col hS, find?_map_key]
        cases hf : l.reverse.find? (fun a => decide (g2 a k = row k)) with
        | none => rfl
        | some a =>
          simp only [Option.map_some']
          have h1 : (l.map g1).reverse.find? (fun c => decide (c k = row k)) = some (g1 a) := by
            rw [find?_map_key]
            have : (fun a => decide (g1 a k = row k)) = fun a => decide (g2 a k = row k) := by
              funext a; rw [hg a k hlu]
            rw [this, hf]; rfl
          rw [foldl_upsert_values k S hk T _ row hrow _ h1 col hS, hg a col hcol]
      · exact touch_other k S row _ col hS
  · apply List.map_congr_left
    intro row _
    exact touch_key k S hk _ row

/-! ## From the five functions to the common body -/

theorem Batch.reduce (b : Batch) :
    ∃ (R : Type) (bind : R → List Val) (fieldsOf : R → List (String × Val))
      (wrap : R → String) (rs : List R),
      (∀ f now db, InsertResources f now db b = insertResources b.stmt bind wrap f now db rs) ∧
      b.rows = rs.map fieldsOf ∧ b.binds = rs.map bind ∧
      (∀ r, bind r = (fieldsOf r).map Prod.snd) ∧
      (∀ r, (fieldsOf r).map Prod.fst ++ ["last_updated"] = b.stmt.columns) ∧
      b.stmt.isUpsert = true := by
  cases b with
  | forS3 rs =>
    exact ⟨_, s3.bind, s3.fields, _, rs, fun _ _ _ => rfl, rfl, rfl, fun _ => rfl,
      fun _ => rfl, (by decide : s3.stmt.isUpsert = true)⟩
  | forEC2 rs =>
    exact ⟨_, ec2.bind, ec2.fields, _, rs, fun _ _ _ => rfl, rfl, rfl, fun _ => rfl,
      fun _ => rfl, (by decide : ec2.stmt.isUpsert = true)⟩
  | forRDS rs =>
    exact ⟨_, rds.bind, rds.fields, _, rs, fun _ _ _ => rfl, rfl, rfl, fun _ => rfl,
      fun _ => rfl, (by decide : rds.stmt.isUpsert = true)⟩
  | forLambda rs =>
    exact ⟨_, lambda.bind, lambda.fields, _, rs, fun _ _ _ => rfl, rfl, rfl, fun _ => rfl,
      fun _ => rfl, (by decide : lambda.stmt.isUpsert = true)⟩
  | forDynamoDB rs =>
    exact ⟨_, dynamodb.bind, dynamodb.fields, _, rs, fun _ _ _ => rfl, rfl, rfl,
      fun _ => rfl, fun _ => rfl, (by decide : dynamodb.stmt.isUpsert = true)⟩

theorem lookup_of_mem_nodup (row : List (String × Val)) (h : (row.map Prod.fst).Nodup)
    (cv : String × Val) (hcv : cv ∈ row) : row.lookup cv.1 = some cv.2 := by
  induction row with
  | nil => simp at hcv
  | cons x rest ih =>
    rw [List.map_cons, List.nodup_cons] at h
    rw [List.lookup_cons]
    rcases List.mem_cons.1 hcv with he | hm
    · subst he; simp
    · have : cv.1 ≠ x.1 := fun e => h.1 (e ▸ List.mem_map.2 ⟨cv, hm, rfl⟩)
      have hb : (cv.1 == x.1) = false := by simpa using this
      rw [hb]
      exact ih h.2 hm

theorem storedRow_key (stmt : Stmt) (h : stmt.isUpsert = true) (row : List (String × Val))
    (now : Nat) (hcols : row.map Prod.fst ++ ["last_updated"] = stmt.columns) :
    storedRow row now stmt.conflict = keyOf row ∧ stmt.conflict ≠ "last_updated" := by
  obtain ⟨hc, hnd, -, -⟩ := (Stmt.isUpsert_iff stmt).1 h
  have hne : stmt.conflict ≠ "last_updated" := by
    intro e
    rw [hc] at hnd
    exact (List.nodup_cons.1 hnd).1 (by rw [e]; simp)
  refine ⟨?_, hne⟩
  rw [hc] at hcols
  cases row with
  | nil =>
    have := congrArg List.length hcols
    simp at this
  | cons x rest =>
    obtain ⟨xk, xv⟩ := x
    rw [List.map_cons, List.cons_append] at hcols
    have hx : xk = stmt.conflict := (List.cons.inj hcols).1
    rw [← hx] at hne ⊢
    simp [storedRow, keyOf, hne, List.lookup_cons]

theorem storedRow_value (stmt : Stmt) (h : stmt.isUpsert = true) (row : List (String × Val))
    (now : Nat) (hcols : row.map Prod.fst ++ ["last_updated"] = stmt.columns)
    (cv : String × Val) (hcv : cv ∈ row.tail) :
    cv.1 ∈ stmt.columns.tail ∧ storedRow row now cv.1 = cv.2 := by
  obtain ⟨-, hnd, -, -⟩ := (Stmt.isUpsert_iff stmt).1 h
  rw [← hcols] at hnd
  have hnd1 := (List.nodup_append.1 hnd).1
  have hmem : cv ∈ row := List.mem_of_mem_tail hcv
  have hne : cv.1 ≠ "last_updated" := by
    intro e
    exact (List.nodup_append.1 hnd).2.2 (List.mem_map.2 ⟨cv, hmem, e⟩)
      (List.mem_singleton_self _)
  constructor
  · rw [← hcols]
    cases row with
    | nil => simp at hcv
    | cons x rest =>
      simp only [List.map_cons, List.cons_append, List.tail_cons, List.mem_append]
      exact Or.inl (List.mem_map.2 ⟨cv, hcv, rfl⟩)
  · simp [storedRow, hne, lookup_of_mem_nodup row hnd1 cv hmem]

theorem find?_congr_mem {α : Type} (p q : α → Bool) (l : List α)
    (h : ∀ a ∈ l, p a = q a) : l.find? p = l.find? q := by
  induction l with
  | nil => rfl
  | cons x l ih =>
    rw [List.find?_cons, List.find?_cons, h x (List.mem_cons_self _ _),
      ih (fun a ha => h a (List.mem_cons_of_mem _ ha))]

theorem lastWithKey_find (stmt : Stmt) (h : stmt.isUpsert = true)
    (rows : List (List (String × Val))) (now : Nat)
    (hcols : ∀ row ∈ rows, row.map Prod.fst ++ ["last_updated"] = stmt.columns) (v : Val)
    (row : List (String × Val)) (hlast : lastWithKey rows v = some row) :
    (rows.map fun row => storedRow row now).reverse.find?
        (fun c => decide (c stmt.conflict = v)) = some (storedRow row now) ∧ row ∈ rows := by
  unfold lastWithKey at hlast
  have hmem : row ∈ rows := List.mem_reverse.1 (List.mem_of_find?_eq_some hlast)
  refine ⟨?_, hmem⟩
  rw [find?_map_key]
  have : rows.reverse.find? (fun a => decide (storedRow a now stmt.conflict = v))
      = rows.reverse.find? (fun row => decide (keyOf row = v)) := by
    apply find?_congr_mem
    intro a ha
    rw [(storedRow_key stmt h a now (hcols a (List.mem_reverse.1 ha))).1]
  rw [this, hlast]
  rfl

/-! ## The sequential orchestrator -/

theorem runSequentialLoop_all_nil (services : List (String × Outcome)) :
    ∀ invoked, (∀ x ∈ services, x.2 = .nil) →
      runSequentialLoop services invoked = (.nil, invoked ++ services.map Prod.fst) := by
  induction services with
  | nil => intro invoked _; simp [runSequentialLoop]
  | cons x rest ih =>
    intro invoked h
    obtain ⟨name, fn⟩ := x
    have hx : fn = .nil := h (name, fn) (List.mem_cons_self _ _)
    subst hx
    simp only [runSequentialLoop]
    rw [ih _ (fun y hy => h y (List.mem_cons_of_mem _ hy))]
    simp

theorem runSequentialLoop_first_error (services : List (String × Outcome)) :
    ∀ (invoked : List String) (k : Nat) (name err : String),
      services[k]? = some (name, .error err) →
      (∀ j, j < k → ∃ n, services[j]? = some (n, .nil)) →
      runSequentialLoop services invoked
        = (.error ("failed to collect " ++ name ++ " inventory: " ++ err),
            invoked ++ (services.take (k + 1)).map Prod.fst) := by
  induction services with
  | nil => intro invoked k name err h; simp at h
  | cons x rest ih =>
    intro invoked k name err h hbefore
    cases k with
    | zero =>
      simp only [List.getElem?_cons_zero, Option.some.injEq] at h
      subst h
      simp [runSequentialLoop]
    | succ k =>
      obtain ⟨n0, h0⟩ := hbefore 0 (Nat.succ_pos k)
      simp only [List.getElem?_cons_zero, Option.some.injEq] at h0
      subst h0
      simp only [List.getElem?_cons_succ] at h
      simp only [runSequentialLoop]
      rw [ih _ k name err h (fun j hj => by
        obtain ⟨n, hn⟩ := hbefore (j + 1) (Nat.succ_lt_succ hj)
        exact ⟨n, by simpa using hn⟩)]
      simp

theorem runSequentialLoop_first_panic (services : List (String × Outcome)) :
    ∀ (invoked : List String) (k : Nat) (name : String),
      services[k]? = some (name, .panic) →
      (∀ j, j < k → ∃ n, services[j]? = some (n, .nil)) →
      runSequentialLoop services invoked
        = (.panic, invoked ++ (services.take (k + 1)).map Prod.fst) := by
  induction services with
  | nil => intro invoked k name h; simp at h
  | cons x rest ih =>
    intro invoked k name h hbefore
    cases k with
    | zero =>
      simp only [List.getElem?_cons_zero, Option.some.injEq] at h
      subst h
      simp [runSequentialLoop]
    | succ k =>
      obtain ⟨n0, h0⟩ := hbefore 0 (Nat.succ_pos k)
      simp only [List.getElem?_cons_zero, Option.some.injEq] at h0
      subst h0
      simp only [List.getElem?_cons_succ] at h
      simp only [runSequentialLoop]
      rw [ih _ k name h (fun j hj => by
        obtain ⟨n, hn⟩ := hbefore (j + 1) (Nat.succ_lt_succ hj)
        exact ⟨n, by simpa using hn⟩)]
      simp

theorem runSequentialLoop_nil_iff (services : List (String × Outcome)) :
    ∀ invoked, (runSequentialLoop services invoked).1 = .nil ↔ ∀ x ∈ services, x.2 = .nil := by
  induction services with
  | nil => intro invoked; simp [runSequentialLoop]
  | cons x rest ih =>
    intro invoked
    obtain ⟨name, fn⟩ := x
    cases fn with
    | error err => simp [runSequentialLoop]
    | panic => simp [runSequentialLoop]
    | nil => simp [runSequentialLoop, ih]

theorem runSequentialLoop_invoked (services : List (String × Outcome)) :
    ∀ invoked, ∃ n, (runSequentialLoop services invoked).2
      = invoked ++ (services.take n).map Prod.fst := by
  induction services with
  | nil => intro invoked; exact ⟨0, by simp [runSequentialLoop]⟩
  | cons x rest ih =>
    intro invoked
    obtain ⟨name, fn⟩ := x
    cases fn with
    | error err => exact ⟨1, by simp [runSequentialLoop]⟩
    | panic => exact ⟨1, by simp [runSequentialLoop]⟩
    | nil =>
      obtain ⟨n, hn⟩ := ih (invoked ++ [name])
      exact ⟨n + 1, by simp [runSequentialLoop, hn]⟩

/-! ## The parallel orchestrator -/

theorem sum_map_set_any {α M : Type} [AddCommMonoid M] (f : α → M) :
    ∀ (l : List α) (i : Nat) (t t1 : α), l[i]? = some t →
      ((l.set i t1).map f).sum + f t = (l.map f).sum + f t1
  | [], i, t, t1, h => by simp at h
  | x :: l, 0, t, t1, h => by
    simp at h; subst h; simp [add_comm, add_left_comm, add_assoc]
  | x :: l, i+1, t, t1, h => by
    simp only [List.getElem?_cons_succ] at h
    have := sum_map_set_any f l i t t1 h
    simp only [List.set_cons_succ, List.map_cons, List.sum_cons, add_assoc, this]

theorem le_sum_map_any {α : Type} (f : α → Nat) (l : List α) (i : Nat) (t : α)
    (h : l[i]? = some t) : f t ≤ (l.map f).sum := by
  have h2 : f t ∈ l.map f := List.mem_map.2 ⟨t, List.getElem?_mem h, rfl⟩
  exact List.single_le_sum (by intros; omega) _ h2

theorem map_set_same {α β : Type} (f : α → β) (l : List α) (i : Nat) (t t1 : α)
    (h : l[i]? = some t) (hf : f t1 = f t) : (l.set i t1).map f = l.map f := by
  induction l generalizing i with
  | nil => simp
  | cons x l ih =>
    cases i with
    | zero => simp at h; subst h; simp [hf]
    | succ i => simp at h; simp [ih i h]

theorem flatMap_set_same {α β : Type} (f : α → List β) (l : List α) (i : Nat) (t t1 : α)
    (h : l[i]? = some t) (hf : f t1 = f t) : (l.set i t1).flatMap f = l.flatMap f := by
  induction l generalizing i with
  | nil => simp
  | cons x l ih =>
    cases i with
    | zero => simp at h; subst h; simp [List.flatMap_cons, hf]
    | succ i => simp at h; simp [List.flatMap_cons, ih i h]

theorem ParInv.set_job {r : Collectors} {s s1 : ParState} {i : Nat} {j j1 : Job}
    (hc : ParInv r s) (hj : s.jobs[i]? = some j) (hret1 : s1.ret = none)
    (hcr1 : s1.crashed = false)
    (hnext : s1.next = s.next) (hjobs : s1.jobs = s.jobs.set i j1)
    (hname : j1.name = j.name) (hout : j1.outcome = j.outcome)
    (hwg : s1.wg + j.live = s.wg + j1.live)
    (sent : List String) (hsent : s1.errChan = s.errChan ++ sent)
    (hcap : sent.length + j1.unsent ≤ j.unsent)
    (hpend : sent ++ j1.pending = j.pending)
    (called : List String) (hcalled : s1.invoked = s.invoked ++ called)
    (hinv : called ++ j1.uninvoked = j.uninvoked)
    (hp : (j1.pc = .panicking ∨ j1.pc = .fatal) → j1.outcome = .panic) :
    ParInv r s1 := by
  refine ⟨?_, ?_, ?_, ?_, ?_, ?_, ?_, ?_⟩
  · rw [hjobs, hnext, map_set_same _ _ _ _ _ hj (by rw [hname, hout])]
    exact hc.hjobs
  · have e := sum_map_set_any Job.live s.jobs i j j1 hj
    have := hc.hwg
    rw [hjobs]; omega
  · have e := sum_map_set_any Job.unsent s.jobs i j j1 hj
    have := hc.hcap
    rw [hjobs, hsent, List.length_append, List.length_set]
    omega
  · have e := sum_map_set_any (fun j => (j.pending : Multiset String)) s.jobs i j j1 hj
    simp only [← hpend, ← Multiset.coe_add, ← add_assoc] at e
    have e2 := add_right_cancel e
    rw [hjobs, hsent, flatMap_set_same _ _ _ _ _ hj (by rw [hout]), ← Multiset.coe_add,
      ← hc.hchan, ← e2]
    abel
  · have e := sum_map_set_any (fun j => (j.uninvoked : Multiset String)) s.jobs i j j1 hj
    simp only [← hinv, ← Multiset.coe_add, ← add_assoc] at e
    have e2 := add_right_cancel e
    rw [hjobs, hcalled, map_set_same _ _ _ _ _ hj hname, ← Multiset.coe_add, ← hc.hinvoked,
      ← e2]
    abel
  · intro result h
    rw [hret1] at h; cases h
  · intro j2 hj2 hpc
    rw [hjobs] at hj2
    rcases List.mem_or_eq_of_mem_set hj2 with h1 | h1
    · exact hc.hpanic j2 h1 hpc
    · subst h1; exact hp hpc
  · intro h
    rw [hcr1] at h; cases h

theorem stepJob_inv (r : Collectors) (s s1 : ParState) (i : Nat) (hc : ParInv r s)
    (h : stepJob s i = some s1) : ParInv r s1 := by
  unfold stepJob at h
  split at h
  · rename_i j hcr hret hj
    have hlive := le_sum_map_any Job.live s.jobs i j hj
    rw [← hc.hwg] at hlive
    split at h
    · rename_i hpc
      cases h
      refine ParInv.set_job hc hj hret hcr rfl rfl rfl rfl ?_ [] ?_ ?_ ?_ [j.name] rfl ?_ ?_
      · simp [Job.live, hpc]
      · simp
      · simp [Job.unsent, hpc]
      · simp [Job.pending, hpc]
      · simp [Job.uninvoked, hpc]
      · simp
    · rename_i hpc
      split at h
      · rename_i hout
        cases h
        refine ParInv.set_job hc hj hret hcr rfl rfl rfl rfl ?_ [] ?_ ?_ ?_ [] ?_ ?_ ?_
        · simp [Job.live, hpc]
        · simp
        · simp [Job.unsent, hpc]
        · simp [Job.pending, hpc, hout, Outcome.errors]
        · simp
        · simp [Job.uninvoked, hpc]
        · simp
      · rename_i err hout
        cases h
        refine ParInv.set_job hc hj hret hcr rfl rfl rfl rfl ?_ [] ?_ ?_ ?_ [] ?_ ?_ ?_
        · simp [Job.live, hpc]
        · simp
        · simp [Job.unsent, hpc]
        · simp [Job.pending, hpc, hout, Outcome.errors]
        · simp
        · simp [Job.uninvoked, hpc]
        · simp
      · rename_i hout
        cases h
        refine ParInv.set_job hc hj hret hcr rfl rfl rfl rfl ?_ [] ?_ ?_ ?_ [] ?_ ?_ ?_
        · simp [Job.live, hpc]
        · simp
        · simp [Job.unsent, hpc]
        · simp [Job.pending, hpc, hout, Outcome.errors]
        · simp
        · simp [Job.uninvoked, hpc]
        · intro _; exact hout
    · rename_i err hpc
      split at h
      · cases h
        refine ParInv.set_job hc hj hret hcr rfl rfl rfl rfl ?_ [err] rfl ?_ ?_ [] ?_ ?_ ?_
        · simp [Job.live, hpc]
        · simp [Job.unsent, hpc]
        · simp [Job.pending, hpc]
        · simp
        · simp [Job.uninvoked, hpc]
        · simp
      · cases h
    · rename_i hpc
      cases h
      refine ParInv.set_job hc hj hret hcr rfl rfl rfl rfl ?_ [] ?_ ?_ ?_ [] ?_ ?_ ?_
      · simp [Job.live, hpc]
      · simp
      · simp [Job.unsent, hpc]
      · simp [Job.pending, hpc]
      · simp
      · simp [Job.uninvoked, hpc]
      · simp
    · rename_i hpc
      cases h
      have h1 : j.live = 1 := by simp [Job.live, hpc]
      refine ParInv.set_job hc hj hret hcr rfl rfl rfl rfl ?_ [] ?_ ?_ ?_ [] ?_ ?_ ?_
      · simp [Job.live, hpc]; omega
      · simp
      · simp [Job.unsent, hpc]
      · simp [Job.pending, hpc]
      · simp
      · simp [Job.uninvoked, hpc]
      · simp
    · cases h
    · rename_i hpc
      cases h
      have h1 : j.live = 1 := by simp [Job.live, hpc]
      refine ParInv.set_job hc hj hret hcr rfl rfl rfl rfl ?_ [] ?_ ?_ ?_ [] ?_ ?_ ?_
      · simp [Job.live, hpc]; omega
      · simp
      · simp [Job.unsent, hpc]
      · simp [Job.pending, hpc]
      · simp
      · simp [Job.uninvoked, hpc]
      · intro _
        exact hc.hpanic j (List.getElem?_mem hj) (Or.inl hpc)
    · rename_i hpc
      cases h
      refine ⟨hc.hjobs, hc.hwg, hc.hcap, hc.hchan, hc.hinvoked, ?_, hc.hpanic, ?_⟩
      · intro result h2
        simp only at h2
        rw [hret] at h2; cases h2
      · intro _
        exact ⟨j, List.getElem?_mem hj, hpc⟩
  · cases h

theorem stepParMain_inv (r : Collectors) (s s1 : ParState) (hc : ParInv r s)
    (h : stepParMain s = some s1) : ParInv r s1 := by
  unfold stepParMain at h
  split at h
  · rename_i hcr hret
    split at h
    · rename_i name fn rest hnext
      cases h
      refine ⟨?_, ?_, ?_, ?_, ?_, ?_, ?_, ?_⟩
      · have := hc.hjobs
        rw [hnext] at this
        simpa using this
      · have := hc.hwg
        simp [Job.live]; omega
      · have := hc.hcap
        simp [Job.unsent]; omega
      · have := hc.hchan
        simp only [List.map_append, List.sum_append, List.map_cons, List.map_nil,
          List.sum_cons, List.sum_nil, List.flatMap_append]
        rw [← add_assoc, this, ← Multiset.coe_add]
        simp [Job.pending, List.flatMap_cons]
      · have := hc.hinvoked
        simp only [List.map_append, List.sum_append, List.map_cons, List.map_nil,
          List.sum_cons, List.sum_nil]
        rw [← add_assoc, this, ← Multiset.coe_add]
        simp [Job.uninvoked]
      · intro result h2
        simp only at h2
        rw [hret] at h2; cases h2
      · intro j2 hj2 hpc
        simp only [List.mem_append, List.mem_singleton] at hj2
        rcases hj2 with h1 | h1
        · exact hc.hpanic j2 h1 hpc
        · subst h1; simp at hpc
      · intro h2
        simp only at h2
        rw [hcr] at h2; cases h2
    · rename_i hnext
      split at h
      · rename_i hwg
        cases h
        refine ⟨hc.hjobs, hc.hwg, hc.hcap, hc.hchan, hc.hinvoked, ?_, hc.hpanic, ?_⟩
        · intro result h2
          simp only [Option.some.injEq] at h2
          exact ⟨hnext, hwg, h2.symm, hcr⟩
        · intro h2
          simp only at h2
          rw [hcr] at h2; cases h2
      · cases h
  · cases h

theorem runPar_inv (r : Collectors) :
    ∀ (sched : List ParAction) (s s1 : ParState), ParInv r s → runPar s sched = some s1 →
      ParInv r s1
  | [], s, s1, hinv, h => by simp [runPar] at h; subst h; exact hinv
  | a :: sched, s, s1, hinv, h => by
    unfold runPar at h
    split at h
    · rename_i s2 hs
      refine runPar_inv r sched s2 s1 ?_ h
      cases a with
      | main => exact stepParMain_inv r s s2 hinv hs
      | job i => exact stepJob_inv r s s2 i hinv hs
    · cases h

theorem parInv_init (r : Collectors) : ParInv r (ParState.init r) := by
  refine ⟨by simp [ParState.init], rfl, by simp [ParState.init], rfl, rfl, ?_, ?_, ?_⟩
  · intro result h
    simp [ParState.init] at h
  · intro j hj
    simp [ParState.init] at hj
  · intro h
    simp [ParState.init] at h

theorem stepPar_cost (s s1 : ParState) (a : ParAction) (h : stepPar s a = some s1) :
    s1.cost < s.cost := by
  cases a with
  | main =>
    simp only [stepPar, stepParMain] at h
    split at h
    · rename_i hcr hret
      split at h
      · rename_i name fn rest hnext
        cases h
        simp [ParState.cost, hret, hcr, hnext, Job.cost]
        omega
      · rename_i hnext
        split at h
        · cases h; simp [ParState.cost, hret, hcr]
        · cases h
    · cases h
  | job i =>
    simp only [stepPar, stepJob] at h
    split at h
    · rename_i j hcr hret hj
      have key : ∀ (s2 : ParState) (j1 : Job), s2.ret = s.ret → s2.crashed = s.crashed →
          s2.next = s.next → s2.jobs = s.jobs.set i j1 → j1.cost < j.cost →
          s2.cost < s.cost := by
        intro s2 j1 h1 h0 h2 h3 h4
        have e := sum_map_set_any Job.cost s.jobs i j j1 hj
        unfold ParState.cost
        rw [h1, h0, h2, h3]
        omega
      split at h
      · rename_i hpc
        cases h
        exact key _ _ rfl rfl rfl rfl (by simp [Job.cost, hpc])
      · rename_i hpc
        split at h <;> cases h <;> exact key _ _ rfl rfl rfl rfl (by simp [Job.cost, hpc])
      · rename_i err hpc
        split at h
        · cases h
          exact key _ _ rfl rfl rfl rfl (by simp [Job.cost, hpc])
        · cases h
      · rename_i hpc
        cases h
        exact key _ _ rfl rfl rfl rfl (by simp [Job.cost, hpc])
      · rename_i hpc
        cases h
        exact key _ _ rfl rfl rfl rfl (by simp [Job.cost, hpc])
      · cases h
      · rename_i hpc
        cases h
        exact key _ _ rfl rfl rfl rfl (by simp [Job.cost, hpc])
      · rename_i hpc
        cases h
        simp [ParState.cost, hcr]
    · cases h

theorem runPar_cost :
    ∀ (sched : List ParAction) (s s1 : ParState), runPar s sched = some s1 →
      s1.cost + sched.length ≤ s.cost
  | [], s, s1, h => by simp [runPar] at h; subst h; simp
  | a :: sched, s, s1, h => by
    unfold runPar at h
    split at h
    · rename_i s2 hs
      have h1 := stepPar_cost s s2 a hs
      have h2 := runPar_cost sched s2 s1 h
      simp only [List.length_cons]
      omega
    · cases h

theorem exists_live_job (l : List Job) (h : (l.map Job.live).sum ≠ 0) :
    ∃ (i : Nat) (j : Job), l[i]? = some j ∧ j.live = 1 := by
  induction l with
  | nil => simp at h
  | cons x l ih =>
    by_cases hx : x.live = 1
    · exact ⟨0, x, List.getElem?_cons_zero, hx⟩
    · have h0 : x.live = 0 := by
        cases hpc : x.pc <;> simp_all [Job.live]
      have : (l.map Job.live).sum ≠ 0 := by
        simpa [h0] using h
      obtain ⟨i, j, hi, hj⟩ := ih this
      exact ⟨i + 1, j, by rw [List.getElem?_cons_succ]; exact hi, hj⟩

theorem parInv_length (r : Collectors) (s : ParState) (hc : ParInv r s) :
    s.jobs.length + s.next.length = 5 := by
  have := congrArg List.length hc.hjobs
  simpa [parallelServices] using this

theorem job_enabled (r : Collectors) (s : ParState) (hc : ParInv r s) (hret : s.ret = none)
    (hcr : s.crashed = false)
    (i : Nat) (j : Job) (hi : s.jobs[i]? = some j) (hj : j.pc ≠ .done) :
    ∃ s1, stepJob s i = some s1 := by
  simp only [stepJob, hret, hcr, hi]
  cases hpc : j.pc with
  | launched => exact ⟨_, rfl⟩
  | running =>
    simp only
    cases j.outcome <;> exact ⟨_, rfl⟩
  | returned err =>
    cases err with
    | none => exact ⟨_, rfl⟩
    | some err =>
      have h1 := le_sum_map_any Job.unsent s.jobs i j hi
      have h2 : j.unsent = 1 := by simp [Job.unsent, hpc]
      have h3 := hc.hcap
      have h4 := parInv_length r s hc
      simp only
      rw [if_pos (by omega)]
      exact ⟨_, rfl⟩
  | finishing => exact ⟨_, rfl⟩
  | done => exact absurd hpc hj
  | panicking => exact ⟨_, rfl⟩
  | fatal => exact ⟨_, rfl⟩

theorem launch_enabled (s : ParState) (hret : s.ret = none) (hcr : s.crashed = false)
    (hnext : s.next ≠ []) : ∃ s1, stepParMain s = some s1 := by
  simp only [stepParMain, hret, hcr]
  cases h : s.next with
  | nil => exact absurd h hnext
  | cons x rest =>
    obtain ⟨name, fn⟩ := x
    exact ⟨_, rfl⟩

theorem par_progress (r : Collectors) (s : ParState) (hc : ParInv r s) (hret : s.ret = none)
    (hcr : s.crashed = false) : ∃ a s1, stepPar s a = some s1 := by
  by_cases hl : (s.jobs.map Job.live).sum = 0
  · refine ⟨.main, ?_⟩
    simp only [stepPar, stepParMain, hret, hcr]
    cases hnext : s.next with
    | nil =>
      have : s.wg = 0 := by rw [hc.hwg]; exact hl
      simp only [this, if_true]
      exact ⟨_, rfl⟩
    | cons x rest =>
      obtain ⟨name, fn⟩ := x
      exact ⟨_, rfl⟩
  · obtain ⟨i, j, hi, hj⟩ := exists_live_job s.jobs hl
    have hne : j.pc ≠ .done := by
      intro hd; simp [Job.live, hd] at hj
    obtain ⟨s1, hs1⟩ := job_enabled r s hc hret hcr i j hi hne
    exact ⟨.job i, s1, hs1⟩

theorem finished_of_live_zero (l : List Job) (h : (l.map Job.live).sum = 0) :
    ∀ j ∈ l, j.finished = true := by
  intro j hj
  have h1 : j.live ∈ l.map Job.live := List.mem_map.2 ⟨j, hj, rfl⟩
  have h2 := List.single_le_sum (by intros; omega) _ h1
  cases hp : j.pc <;> simp_all [Job.live, Job.finished]

theorem sum_eq_zero_of_jobs_done {M : Type} [AddCommMonoid M] (f : Job → M)
    (hf : ∀ j : Job, j.finished = true → f j = 0) (l : List Job)
    (h : ∀ j ∈ l, j.finished = true) : (l.map f).sum = 0 := by
  induction l with
  | nil => rfl
  | cons x l ih =>
    simp only [List.map_cons, List.sum_cons]
    rw [hf x (h x (List.mem_cons_self _ _)),
      ih (fun j hj => h j (List.mem_cons_of_mem _ hj)), add_zero]

theorem par_returned (r : Collectors) (s : ParState) (hc : ParInv r s)
    (result : Option String) (hret : s.ret = some result) :
    result = s.errChan.head? ∧
      s.errChan.Perm ((parallelServices r).flatMap (fun x => x.2.errors)) ∧
      s.invoked.Perm ["S3", "EC2", "RDS", "Lambda", "DynamoDB"] ∧
      s.jobs.map (fun j => (j.name, j.outcome)) = parallelServices r ∧
      (∀ j ∈ s.jobs, j.finished = true) ∧ s.crashed = false := by
  obtain ⟨hnext, hwg, hres, hcr⟩ := hc.hret result hret
  have hlive : (s.jobs.map Job.live).sum = 0 := by rw [← hc.hwg]; exact hwg
  have hfin := finished_of_live_zero s.jobs hlive
  have hjobs := hc.hjobs
  rw [hnext, List.append_nil] at hjobs
  have hchan := hc.hchan
  have hinv := hc.hinvoked
  rw [sum_eq_zero_of_jobs_done _
    (by intro j hj; cases hp : j.pc <;> simp_all [Job.pending, Job.finished]) _ hfin,
    add_zero] at hchan
  rw [sum_eq_zero_of_jobs_done _
    (by intro j hj; cases hp : j.pc <;> simp_all [Job.uninvoked, Job.finished]) _ hfin,
    add_zero] at hinv
  have e1 : s.jobs.flatMap (fun j => j.outcome.errors)
      = (parallelServices r).flatMap (fun x => x.2.errors) := by
    rw [← hjobs, List.flatMap_map]
  have e2 : s.jobs.map Job.name = ["S3", "EC2", "RDS", "Lambda", "DynamoDB"] := by
    have := congrArg (List.map Prod.fst) hjobs
    rw [List.map_map] at this
    exact this
  refine ⟨hres, ?_, ?_, hjobs, hfin, hcr⟩
  · rw [← e1]; exact Multiset.coe_eq_coe.1 hchan
  · rw [← e2]; exact Multiset.coe_eq_coe.1 hinv

theorem par_no_panic (r : Collectors) (s : ParState) (hc : ParInv r s)
    (hno : ∀ x ∈ parallelServices r, x.2 ≠ .panic) :
    s.crashed = false ∧ ∀ j ∈ s.jobs, j.pc ≠ .panicking ∧ j.pc ≠ .fatal := by
  have hjob : ∀ j ∈ s.jobs, j.pc ≠ .panicking ∧ j.pc ≠ .fatal := by
    intro j hj
    have hmem : (j.name, j.outcome) ∈ parallelServices r := by
      rw [← hc.hjobs]
      exact List.mem_append_left _ (List.mem_map.2 ⟨j, hj, rfl⟩)
    have hne := hno _ hmem
    constructor
    · intro hp; exact hne (hc.hpanic j hj (Or.inl hp))
    · intro hp; exact hne (hc.hpanic j hj (Or.inr hp))
  refine ⟨?_, hjob⟩
  cases hcr : s.crashed with
  | false => rfl
  | true =>
    obtain ⟨j, hj, hp⟩ := hc.hcrash hcr
    exact absurd hp (hjob j hj).2

theorem stepPar_crashed (s : ParState) (a : ParAction) (hcr : s.crashed = true) :
    stepPar s a = none := by
  cases a with
  | main => simp [stepPar, stepParMain, hcr]
  | job i => simp [stepPar, stepJob, hcr]

theorem stepPar_errChan (s s1 : ParState) (a : ParAction) (h : stepPar s a = some s1) :
    s1.errChan = s.errChan ++ sentBy s a := by
  cases a with
  | main =>
    simp only [stepPar, stepParMain] at h
    split at h
    · split at h
      · cases h; simp [sentBy]
      · split at h
        · cases h; simp [sentBy]
        · cases h
    · cases h
  | job i =>
    simp only [stepPar, stepJob] at h
    split at h
    · rename_i j hcr hret hj
      simp only [sentBy, hj]
      split at h
      · rename_i hpc; cases h; simp [hpc]
      · rename_i hpc
        split at h <;> cases h <;> simp [hpc]
      · rename_i err hpc
        split at h
        · cases h; simp [hpc]
        · cases h
      · rename_i hpc; cases h; simp [hpc]
      · rename_i hpc; cases h; simp [hpc]
      · cases h
      · rename_i hpc; cases h; simp [hpc]
      · rename_i hpc; cases h; simp [hpc]
    · cases h

theorem runPar_reports :
    ∀ (sched : List ParAction) (s s1 : ParState), runPar s sched = some s1 →
      s1.errChan = s.errChan ++ reports s sched
  | [], s, s1, h => by simp [runPar] at h; subst h; simp [reports]
  | a :: sched, s, s1, h => by
    unfold runPar at h
    unfold reports
    split at h
    · rename_i s2 hs
      rw [runPar_reports sched s2 s1 h, stepPar_errChan s s2 a hs, List.append_assoc]
    · cases h

theorem Outcome.errors_eq_nil (o : Outcome) (h : o ≠ .panic) : o.errors = [] ↔ o = .nil := by
  cases o <;> simp_all [Outcome.errors]

/-! ## A scan in which no region passes the filter -/

theorem run_skip_all (p : Provider) (opts : Options) (ident : CallerIdentity) :
    ∀ (todo : List (Option String)) (s : State), s.pc = .loop ident → s.todo = todo →
      s.wg = 0 → (∀ e ∈ todo, passesFilter opts (ToString e) = false) →
      run p opts s (List.replicate (todo.length + 1) .main)
        = some { s with todo := [], pc := .returned s.results none } := by
  intro todo
  induction todo with
  | nil =>
    intro s hpc htodo hwg _
    simp [run, step, stepMain, hpc, htodo, hwg]
  | cons e rest ih =>
    intro s hpc htodo hwg hall
    have hstep : step p opts s .main = some { s with todo := rest } := by
      simp [step, stepMain, hpc, htodo, hall e (List.mem_cons_self _ _)]
    rw [List.length_cons, List.replicate_succ, run, hstep]
    exact ih { s with todo := rest } hpc rfl hwg
      (fun e1 h1 => hall e1 (List.mem_cons_of_mem _ h1))

/-! ## The invariant about provider calls -/

theorem callsAhead_update {p : Provider} {opts : Options} {ident : CallerIdentity}
    {s s1 : State} {i : Nat} {t t1 : Task} (ht : s.tasks[i]? = some t)
    (htodo : s1.todo = s.todo) (htasks : s1.tasks = s.tasks.set i t1)
    (new : List ProviderCall) (hcalls : s1.calls = s.calls ++ new)
    (hnew : new ++ t1.fetches ident = t.fetches ident) :
    callsAhead p opts ident s1 = callsAhead p opts ident s := by
  have e := sum_map_set (fun t => (t.fetches ident : Multiset ProviderCall)) s.tasks i t t1 ht
  simp only [← hnew, ← Multiset.coe_add, ← add_assoc] at e
  have e2 := add_right_cancel e
  unfold callsAhead
  rw [htasks, htodo, hcalls, ← Multiset.coe_add, ← e2]
  abel

theorem Task.start_fetches (p : Provider) (ident : CallerIdentity) (r : String) :
    (Task.start p r).fetches ident
      = List.replicate (pagesFetched ident r (p.DescribeInstances r)) (.nextPage r) := by
  simp [Task.start, Task.fetches, instPanics]

theorem stepTask_calls (p : Provider) (opts : Options) (s s1 : State) (i : Nat)
    (hinv : CallsInv p opts s) (h : stepTask s i = some s1) : CallsInv p opts s1 := by
  unfold stepTask at h
  split at h
  · rename_i ident t hpc ht
    unfold CallsInv at hinv
    rw [hpc] at hinv
    obtain ⟨regions, hid, hreg, hc⟩ := hinv
    have key : ∀ s2 : State, s2.pc = s.pc →
        callsAhead p opts ident s2 = callsAhead p opts ident s → CallsInv p opts s2 := by
      intro s2 h2 hc2
      unfold CallsInv
      rw [h2, hpc]
      exact ⟨regions, hid, hreg, hc2.trans hc⟩
    split at h
    · rename_i hrun
      split at h
      · rename_i inst more hpend
        split at h
        · rename_i row hrow
          cases h
          refine key _ rfl (callsAhead_update ht rfl rfl [] (by simp) ?_)
          simp [Task.fetches, hrun, hpend, instPanics, hrow]
        · rename_i hrow
          cases h
          refine key _ rfl (callsAhead_update ht rfl rfl [] (by simp) ?_)
          simp [Task.fetches, hrun, hpend, instPanics, hrow]
      · rename_i hpend
        split at h
        · rename_i hpages
          cases h
          refine key _ rfl (callsAhead_update ht rfl rfl [] (by simp) ?_)
          simp [Task.fetches, hrun, hpend, hpages, instPanics, pagesFetched]
        · rename_i err rest hpages
          cases h
          refine key _ rfl (callsAhead_update ht rfl rfl [.nextPage t.region] rfl ?_)
          simp [Task.fetches, hrun, hpend, hpages, instPanics, pagesFetched]
        · rename_i reservations rest hpages
          cases h
          refine key _ rfl (callsAhead_update ht rfl rfl [.nextPage t.region] rfl ?_)
          simp only [Task.fetches, hrun, hpend, hpages, instPanics, pagesFetched]
          split <;> simp [List.replicate_succ, Nat.add_comm 1]
    · rename_i hrun
      cases h
      refine key _ rfl (callsAhead_update ht rfl rfl [] (by simp) ?_)
      simp [Task.fetches, hrun]
    · rename_i hrun
      cases h
      refine key _ rfl (callsAhead_update ht rfl rfl [] (by simp) ?_)
      simp [Task.fetches, hrun]
    · cases h
  · cases h

theorem stepMain_calls (p : Provider) (opts : Options) (s s1 : State)
    (hinv : CallsInv p opts s) (h : stepMain p opts s = some s1) : CallsInv p opts s1 := by
  unfold stepMain at h
  split at h
  · rename_i hpc
    unfold CallsInv at hinv
    rw [hpc] at hinv
    subst hinv
    split at h
    · cases h; simp [CallsInv, State.init]
    · split at h
      · cases h; simp [CallsInv, State.init]
      · rename_i ident hid
        split at h
        · cases h; simp [CallsInv, State.init]
        · rename_i regions hreg
          cases h
          refine ⟨regions, hid, hreg, ?_⟩
          simp only [callsAhead, State.init, scanCalls, List.map_nil, List.sum_nil, add_zero,
            Task.start_fetches, List.nil_append]
          rw [← coe_flatMap, Multiset.coe_add]
  · rename_i ident hpc
    unfold CallsInv at hinv
    rw [hpc] at hinv
    obtain ⟨regions, hid, hreg, hc⟩ := hinv
    split at h
    · rename_i regionEntry rest htodo
      simp only at h
      have hd := dispatched_cons opts regionEntry rest
      split at h
      · rename_i hpass
        rw [if_pos hpass] at hd
        split at h
        · cases h
          unfold CallsInv
          simp only [hpc]
          refine ⟨regions, hid, hreg, ?_⟩
          rw [← hc]
          unfold callsAhead
          rw [htodo, hd]
          simp only [List.map_append, List.sum_append, List.map_cons, List.sum_cons,
            List.map_nil, List.sum_nil]
          abel
        · cases h
      · rename_i hpass
        rw [if_neg hpass] at hd
        cases h
        unfold CallsInv
        simp only [hpc]
        refine ⟨regions, hid, hreg, ?_⟩
        rw [← hc]
        unfold callsAhead
        rw [htodo, hd]
    · split at h
      · cases h
        exact ⟨ident, regions, hid, hreg, hc⟩
      · cases h
  · cases h

theorem run_calls (p : Provider) (opts : Options) :
    ∀ (sched : List Action) (s s1 : State), CallsInv p opts s → run p opts s sched = some s1 →
      CallsInv p opts s1
  | [], s, s1, hinv, h => by simp [run] at h; subst h; exact hinv
  | a :: sched, s, s1, hinv, h => by
    unfold run at h
    split at h
    · rename_i s2 hs
      refine run_calls p opts sched s2 s1 ?_ h
      cases a with
      | main => exact stepMain_calls p opts s s2 hinv hs
      | task i => exact stepTask_calls p opts s s2 i hinv hs
    · cases h

theorem returned_calls (p : Provider) (opts : Options) (ident : CallerIdentity)
    (regions : List (Option String)) (hval : opts.Validate = none)
    (hid : p.GetCallerIdentity = .ok ident) (hreg : p.ListRegions = .ok regions)
    (sched : List Action) (s : State) (h : run p opts State.init sched = some s)
    (result : List EC2Inventory) (err : Option String) (hpc : s.pc = .returned result err) :
    s.calls.Perm (scanCalls p opts ident regions) := by
  have hinv := reachable_inv p opts sched s h
  have hcalls := run_calls p opts sched _ s (by simp [CallsInv, State.init]) h
  obtain ⟨herr, -, -, -, -, hdone, -, hwg⟩ :=
    returned_ok p opts ident regions hval hid hreg s hinv result err hpc
  subst herr
  have htodo : s.todo = [] := by
    unfold Inv at hinv
    rw [hpc] at hinv
    obtain ⟨-, -, -, -, h1, -⟩ := hinv
    exact h1
  unfold CallsInv at hcalls
  rw [hpc] at hcalls
  obtain ⟨ident1, regions1, hid1, hreg1, hc⟩ := hcalls
  have e1 : ident1 = ident := by rw [hid] at hid1; cases hid1; rfl
  have e2 : regions1 = regions := by rw [hreg] at hreg1; cases hreg1; rfl
  subst e1 e2
  unfold callsAhead at hc
  have hz : (s.tasks.map (fun t => (t.fetches ident1 : Multiset ProviderCall))).sum = 0 := by
    apply List.sum_eq_zero
    intro x hx
    obtain ⟨t, ht, rfl⟩ := List.mem_map.1 hx
    simp [Task.fetches, hdone t ht]
  rw [hz, htodo] at hc
  simp only [dispatched, List.map_nil, List.filter_nil, List.sum_nil, add_zero] at hc
  exact Multiset.coe_eq_coe.1 hc

theorem instPanics_of_all (ident : CallerIdentity) (region : String) (insts : List Instance)
    (h : (insts.all fun inst => (buildInventory ident region inst).isSome) = true) :
    instPanics ident region insts = false := by
  rw [instPanics_eq, h]; rfl

theorem pagesFetched_error (ident : CallerIdentity) (region : String)
    (pre post : List PageResult) (e : String) (h : taskSucceeds ident region pre = true) :
    pagesFetched ident region (pre ++ .error e :: post) = pre.length + 1 ∧
      pagesLines ident region (pre ++ .error e :: post) = [.fetchFailed region e] ∧
      pagesRows ident region (pre ++ .error e :: post) = pagesRows ident region pre := by
  induction pre with
  | nil => simp [pagesFetched, pagesLines, pagesRows]
  | cons pg rest ih =>
    cases pg with
    | error err => simp [taskSucceeds] at h
    | page rs =>
      have hsplit : instPanics ident region rs.flatten = false ∧
          taskSucceeds ident region rest = true := by
        rw [instPanics_eq]
        simpa [taskSucceeds] using h
      obtain ⟨h1, h2, h3⟩ := ih hsplit.2
      refine ⟨?_, ?_, ?_⟩
      · rw [List.cons_append, pagesFetched, hsplit.1, h1]
        simp only [Bool.false_eq_true, if_false, List.length_cons]
        omega
      · rw [List.cons_append, pagesLines, hsplit.1]
        simpa using h2
      · rw [List.cons_append, pagesRows, pagesRows, hsplit.1, h3]

theorem count_flatMap_replicate (l : List String) (f : String → Nat) (r : String) :
    (l.flatMap fun x => List.replicate (f x) (ProviderCall.nextPage x)).count (.nextPage r)
      = l.count r * f r := by
  induction l with
  | nil => simp
  | cons x l ih =>
    rw [List.flatMap_cons, List.count_append, ih, List.count_cons]
    by_cases hx : x = r
    · subst hx
      simp [List.count_replicate]
      ring
    · have h1 : (ProviderCall.nextPage x == ProviderCall.nextPage r) = false := by
        simpa using hx
      have h2 : (x == r) = false := by simpa using hx
      simp [List.count_replicate, h1, h2]

/-! ## Steps after the context is done -/

theorem Task.start_cancelled (p : Provider) (region : String) :
    Task.start p.cancelled region = (Task.start p region).cancelled := by
  simp [Task.start, Task.cancelled, Provider.cancelled]

theorem stepMain_cancelled (p : Provider) (opts : Options) (s : State)
    (ident : CallerIdentity) (hpc : s.pc = .loop ident) :
    stepMain p.cancelled opts s.cancelled = (stepMain p opts s).map State.cancelled := by
  unfold stepMain
  simp only [State.cancelled, hpc]
  cases htodo : s.todo with
  | nil =>
    simp only
    split <;> rfl
  | cons e rest =>
    simp only
    split
    · split
      · simp [Task.start_cancelled, State.cancelled]
      · rfl
    · rfl

theorem getElem?_cancelled (s : State) (i : Nat) :
    s.cancelled.tasks[i]? = (s.tasks[i]?).map Task.cancelled := by
  simp [State.cancelled]

theorem stepTask_cancelled (s : State) (i : Nat) (t : Task) (ht : s.tasks[i]? = some t)
    (h : t.pc ≠ .running ∨ t.pending ≠ [] ∨ t.pages = []) :
    stepTask s.cancelled i = (stepTask s i).map State.cancelled := by
  unfold stepTask
  rw [getElem?_cancelled, ht]
  simp only [Option.map_some']
  have hpcs : s.cancelled.pc = s.pc := rfl
  rw [hpcs]
  cases hpc : s.pc with
  | entry => rfl
  | returned result err => rfl
  | loop ident =>
    simp only
    have e1 : t.cancelled.pc = t.pc := rfl
    have e2 : t.cancelled.pending = t.pending := rfl
    have e3 : t.cancelled.region = t.region := rfl
    rw [e1]
    cases hrun : t.pc with
    | running =>
      simp only [e2, e3]
      cases hpend : t.pending with
      | cons inst more =>
        simp only
        cases buildInventory ident t.region inst <;>
          simp [State.cancelled, Task.cancelled, List.map_set]
      | nil =>
        rcases h with h | h | h
        · exact absurd hrun h
        · exact absurd hpend h
        · have e4 : t.cancelled.pages = [] := by simp [Task.cancelled, h]
          simp only [e4, h]
          simp [State.cancelled, Task.cancelled, List.map_set, h]
    | releasing => simp [State.cancelled, Task.cancelled, List.map_set]
    | finishing => simp [State.cancelled, Task.cancelled, List.map_set]
    | done => rfl

theorem stepTask_cancelled_fetch (s : State) (ident : CallerIdentity) (i : Nat) (t : Task)
    (hpc : s.pc = .loop ident) (ht : s.tasks[i]? = some t) (hrun : t.pc = .running)
    (hpend : t.pending = []) (hpages : t.pages ≠ []) :
    stepTask s.cancelled i
      = some { s.cancelled with
          calls := s.calls ++ [.nextPage t.region]
          stdout := s.stdout ++ [.fetchFailed t.region ctxErr]
          tasks := s.cancelled.tasks.set i { t.cancelled with pc := .releasing } } := by
  unfold stepTask
  rw [getElem?_cancelled, ht]
  have hpcs : s.cancelled.pc = s.pc := rfl
  have e4 : t.cancelled.pages = [.error ctxErr] := by
    cases hp : t.pages with
    | nil => exact absurd hp hpages
    | cons x xs => simp [Task.cancelled, hp]
  have e1 : t.cancelled.pc = .running := hrun
  have e2 : t.cancelled.pending = [] := hpend
  simp only [Option.map_some', hpcs, hpc, e1, e2, e4]
  rfl

/-! ## Tags: the first and the last value of a key -/

theorem lookup_mapSet (m : List (String × String)) (k0 v k : String) :
    (mapSet m k0 v).lookup k = if k = k0 then some v else m.lookup k := by
  induction m with
  | nil =>
    by_cases h : k = k0
    · subst h; simp [mapSet]
    · have hb : (k == k0) = false := by simpa using h
      simp [mapSet, List.lookup_cons, hb, h]
  | cons x m ih =>
    obtain ⟨k1, v1⟩ := x
    unfold mapSet
    by_cases h1 : k1 = k0
    · subst h1
      rw [if_pos rfl, List.lookup_cons, List.lookup_cons]
      by_cases h : k = k1
      · subst h; simp
      · have hb : (k == k1) = false := by simpa using h
        simp [hb, h]
    · rw [if_neg h1, List.lookup_cons, List.lookup_cons, ih]
      by_cases h : k = k1
      · subst h; simp [h1]
      · have hb : (k == k1) = false := by simpa using h
        simp [hb]

theorem lookup_foldl_mapSet (tags : List Tag) (k : String) :
    ∀ m : List (String × String),
      (tags.foldl (fun result t => mapSet result (ToString t.Key) (ToString t.Value)) m).lookup k
        = match tags.reverse.find? (fun t => decide (ToString t.Key = k)) with
          | some t => some (ToString t.Value)
          | none => m.lookup k := by
  induction tags with
  | nil => intro m; rfl
  | cons t ts ih =>
    intro m
    rw [List.foldl_cons, ih, List.reverse_cons, List.find?_append]
    cases hts : ts.reverse.find? (fun t => decide (ToString t.Key = k)) with
    | some t1 => rfl
    | none =>
      rw [lookup_mapSet]
      by_cases h : ToString t.Key = k
      · simp [List.find?_cons, h]
      · have h2 : ¬ k = ToString t.Key := fun e => h e.symm
        simp [List.find?_cons, h, h2]

theorem getTagValue_eq_find (tags : List Tag) (k : String) :
    getTagValue tags k
      = ((tags.find? (fun t => decide (ToString t.Key = k))).map
          (fun t => ToString t.Value)).getD "" := by
  induction tags with
  | nil => rfl
  | cons t ts ih =>
    unfold getTagValue
    by_cases h : ToString t.Key = k
    · simp [List.find?_cons, h]
    · simp [List.find?_cons, h, ih]

theorem find_reverse_of_nodup (tags : List Tag) (k : String)
    (h : (tags.map (fun t => ToString t.Key)).Nodup) :
    tags.reverse.find? (fun t => decide (ToString t.Key = k))
      = tags.find? (fun t => decide (ToString t.Key = k)) := by
  induction tags with
  | nil => rfl
  | cons t ts ih =>
    rw [List.map_cons, List.nodup_cons] at h
    rw [List.reverse_cons, List.find?_append, ih h.2, List.find?_cons]
    by_cases hk : ToString t.Key = k
    · have hnone : ts.find? (fun t => decide (ToString t.Key = k)) = none := by
        rw [List.find?_eq_none]
        intro x hx
        simp only [decide_eq_true_eq]
        intro hxk
        exact h.1 (List.mem_map.2 ⟨x, hx, hxk.trans hk.symm⟩)
      simp [hnone, hk, List.find?_cons]
    · simp [hk, List.find?_cons]

/-! ## Splitting an ARN at its slashes -/

theorem splitAt_ne_nil (sep : Char) (l : List Char) : splitAt sep l ≠ [] := by
  cases l with
  | nil => simp [splitAt]
  | cons c cs =>
    unfold splitAt
    split
    · simp
    · split <;> simp

theorem splitAt_no_sep (sep : Char) (l : List Char) (h : sep ∉ l) : splitAt sep l = [l] := by
  induction l with
  | nil => rfl
  | cons c cs ih =>
    rw [List.mem_cons, not_or] at h
    unfold splitAt
    rw [if_neg (fun e => h.1 e.symm), ih h.2]

theorem splitAt_parts (sep : Char) (l : List Char) : ∀ part ∈ splitAt sep l, sep ∉ part := by
  induction l with
  | nil => intro part h; simp [splitAt] at h; subst h; simp
  | cons c cs ih =>
    intro part h
    unfold splitAt at h
    split at h
    · rcases List.mem_cons.1 h with h1 | h1
      · subst h1; simp
      · exact ih part h1
    · rename_i hc
      split at h
      · simp at h; subst h; simpa using fun e => hc e.symm
      · rename_i p ps hsplit
        rcases List.mem_cons.1 h with h1 | h1
        · subst h1
          have := ih p (by rw [hsplit]; exact List.mem_cons_self _ _)
          rw [List.mem_cons, not_or]
          exact ⟨fun e => hc e.symm, this⟩
        · exact ih part (by rw [hsplit]; exact List.mem_cons_of_mem _ h1)

theorem splitAt_after_sep (sep : Char) (suf : List Char) :
    ∀ pre : List Char,
      (splitAt sep (pre ++ sep :: suf)).getLast? = (splitAt sep suf).getLast? ∧
        2 ≤ (splitAt sep (pre ++ sep :: suf)).length := by
  have hlen : 1 ≤ (splitAt sep suf).length := by
    cases h : splitAt sep suf with
    | nil => exact absurd h (splitAt_ne_nil sep suf)
    | cons x xs => simp
  intro pre
  induction pre with
  | nil =>
    rw [List.nil_append, splitAt, if_pos rfl]
    constructor
    · cases h : splitAt sep suf with
      | nil => exact absurd h (splitAt_ne_nil sep suf)
      | cons x xs => simp [List.getLast?_cons_cons]
    · simp only [List.length_cons]; omega
  | cons c cs ih =>
    obtain ⟨h1, h2⟩ := ih
    rw [List.cons_append, splitAt]
    cases hs : splitAt sep (cs ++ sep :: suf) with
    | nil => exact absurd hs (splitAt_ne_nil sep _)
    | cons p ps =>
      rw [hs] at h1 h2
      have hps : ps ≠ [] := by
        intro e; rw [e] at h2; simp at h2
      obtain ⟨q, qs, hq⟩ := List.exists_cons_of_ne_nil hps
      subst hq
      split
      · constructor
        · rw [List.getLast?_cons_cons]; exact h1
        · simp only [List.length_cons] at h2 ⊢; omega
      · constructor
        · rw [List.getLast?_cons_cons, ← h1, List.getLast?_cons_cons]
        · simp only [List.length_cons] at h2 ⊢; omega

/-! ## What the scan reads of its options -/

theorem step_options (p : Provider) (o1 o2 : Options) (hv1 : o1.Validate = none)
    (hv2 : o2.Validate = none) (hc : o1.ChunkSize = o2.ChunkSize)
    (hf : o1.RegionFilter = o2.RegionFilter) (s : State) (a : Action) :
    step p o1 s a = step p o2 s a := by
  cases a with
  | task i => rfl
  | main =>
    have hp : ∀ r, passesFilter o1 r = passesFilter o2 r := by
      intro r; unfold passesFilter; rw [hf]
    unfold step stepMain
    cases s.pc with
    | entry => simp only [hv1, hv2]
    | loop ident =>
      simp only
      cases s.todo with
      | nil => rfl
      | cons regionEntry rest => simp only [hp, hc]
    | returned result err => rfl

theorem run_options (p : Provider) (o1 o2 : Options) (hv1 : o1.Validate = none)
    (hv2 : o2.Validate = none) (hc : o1.ChunkSize = o2.ChunkSize)
    (hf : o1.RegionFilter = o2.RegionFilter) :
    ∀ (sched : List Action) (s : State), run p o1 s sched = run p o2 s sched
  | [], s => rfl
  | a :: sched, s => by
    unfold run
    rw [step_options p o1 o2 hv1 hv2 hc hf s a]
    cases step p o2 s a with
    | none => rfl
    | some s1 => exact run_options p o1 o2 hv1 hv2 hc hf sched s1

theorem dispatched_options (o1 o2 : Options) (hf : o1.RegionFilter = o2.RegionFilter)
    (regions : List (Option String)) : dispatched o1 regions = dispatched o2 regions := by
  rw [dispatched_eq, dispatched_eq, hf]

theorem run_identity_error (p : Provider) (opts : Options) (e : String)
    (hval : opts.Validate = none) (hid : p.GetCallerIdentity = .error e)
    (sched : List Action) (s : State) (h : run p opts State.init sched = some s) :
    s = State.init ∨
      s = { State.init with pc := .returned [] (some e), calls := [.getCallerIdentity] } := by
  cases sched with
  | nil => simp [run] at h; exact Or.inl h.symm
  | cons a rest =>
    cases a with
    | main =>
      have hs : step p opts State.init .main
          = some { State.init with
              pc := .returned [] (some e), calls := [.getCallerIdentity] } := by
        simp [step, stepMain, State.init, hval, hid]
      simp only [run, hs] at h
      exact Or.inr (run_returned p opts _ s rest [] (some e) rfl h)
    | task i => simp [run, step, stepTask, State.init] at h

theorem run_regions_error (p : Provider) (opts : Options) (ident : CallerIdentity)
    (e : String) (hval : opts.Validate = none) (hid : p.GetCallerIdentity = .ok ident)
    (hreg : p.ListRegions = .error e)
    (sched : List Action) (s : State) (h : run p opts State.init sched = some s) :
    s = State.init ∨
      s = { State.init with
            pc := .returned [] (some e), calls := [.getCallerIdentity, .listRegions] } := by
  cases sched with
  | nil => simp [run] at h; exact Or.inl h.symm
  | cons a rest =>
    cases a with
    | main =>
      have hs : step p opts State.init .main
          = some { State.init with
              pc := .returned [] (some e), calls := [.getCallerIdentity, .listRegions] } := by
        simp [step, stepMain, State.init, hval, hid, hreg]
      simp only [run, hs] at h
      exact Or.inr (run_returned p opts _ s rest [] (some e) rfl h)
    | task i => simp [run, step, stepTask, State.init] at h

/-- Every state of the call can be run on to the return. -/
theorem exists_returned (p : Provider) (opts : Options) :
    ∀ (n : Nat) (s : State), Inv p opts s → s.cost p ≤ n →
      ∃ sched s1 result err, run p opts s sched = some s1 ∧ s1.pc = .returned result err := by
  intro n
  induction n with
  | zero =>
    intro s hinv hcost
    by_cases hpc : ∀ result err, s.pc ≠ .returned result err
    · obtain ⟨a, s1, hstep⟩ := progress p opts s hinv hpc
      have := step_cost p opts s s1 a hstep
      omega
    · push_neg at hpc
      obtain ⟨result, err, hr⟩ := hpc
      exact ⟨[], s, result, err, rfl, hr⟩
  | succ n ih =>
    intro s hinv hcost
    by_cases hpc : ∀ result err, s.pc ≠ .returned result err
    · obtain ⟨a, s1, hstep⟩ := progress p opts s hinv hpc
      have hlt := step_cost p opts s s1 a hstep
      obtain ⟨sched, s2, result, err, hrun, hr⟩ :=
        ih s1 (step_inv p opts s s1 a hinv hstep) (by omega)
      refine ⟨a :: sched, s2, result, err, ?_, hr⟩
      simp only [run, hstep]
      exact hrun
    · push_neg at hpc
      obtain ⟨result, err, hr⟩ := hpc
      exact ⟨[], s, result, err, rfl, hr⟩

/-- Two returns of the call under options that differ only in what validation reads: the
same error, the same rows, tasks and provider calls up to the order of the goroutines. -/
theorem returned_options (p : Provider) (o1 o2 : Options) (hv1 : o1.Validate = none)
    (hv2 : o2.Validate = none) (hf : o1.RegionFilter = o2.RegionFilter)
    (sched1 sched2 : List Action) (s1 s2 : State)
    (h1 : run p o1 State.init sched1 = some s1) (h2 : run p o2 State.init sched2 = some s2)
    (r1 r2 : List EC2Inventory) (e1 e2 : Option String)
    (hp1 : s1.pc = .returned r1 e1) (hp2 : s2.pc = .returned r2 e2) :
    e1 = e2 ∧ r1.Perm r2 ∧ s1.tasks.map Task.region = s2.tasks.map Task.region ∧
      s1.calls.Perm s2.calls ∧ s1.stdout.Perm s2.stdout := by
  cases hid : p.GetCallerIdentity with
  | error e =>
    have a1 := run_identity_error p o1 e hv1 hid sched1 s1 h1
    have a2 := run_identity_error p o2 e hv2 hid sched2 s2 h2
    rcases a1 with a1 | a1
    · subst a1; simp [State.init] at hp1
    rcases a2 with a2 | a2
    · subst a2; simp [State.init] at hp2
    subst a1; subst a2
    simp only [MainPc.returned.injEq] at hp1 hp2
    obtain ⟨rfl, rfl⟩ := hp1
    obtain ⟨rfl, rfl⟩ := hp2
    simp
  | ok ident =>
    cases hreg : p.ListRegions with
    | error e =>
      have a1 := run_regions_error p o1 ident e hv1 hid hreg sched1 s1 h1
      have a2 := run_regions_error p o2 ident e hv2 hid hreg sched2 s2 h2
      rcases a1 with a1 | a1
      · subst a1; simp [State.init] at hp1
      rcases a2 with a2 | a2
      · subst a2; simp [State.init] at hp2
      subst a1; subst a2
      simp only [MainPc.returned.injEq] at hp1 hp2
      obtain ⟨rfl, rfl⟩ := hp1
      obtain ⟨rfl, rfl⟩ := hp2
      simp
    | ok regions =>
      have hd := dispatched_options o1 o2 hf regions
      obtain ⟨he1, -, hrows1, hlines1, htasks1, -⟩ :=
        returned_ok p o1 ident regions hv1 hid hreg s1 (reachable_inv p o1 sched1 s1 h1) r1 e1 hp1
      obtain ⟨he2, -, hrows2, hlines2, htasks2, -⟩ :=
        returned_ok p o2 ident regions hv2 hid hreg s2 (reachable_inv p o2 sched2 s2 h2) r2 e2 hp2
      have hc1 := returned_calls p o1 ident regions hv1 hid hreg sched1 s1 h1 r1 e1 hp1
      have hc2 := returned_calls p o2 ident regions hv2 hid hreg sched2 s2 h2 r2 e2 hp2
      unfold scanRows at hrows1 hrows2
      unfold scanLines at hlines1 hlines2
      unfold scanCalls at hc1 hc2
      rw [hd] at hrows1 hlines1 htasks1 hc1
      exact ⟨he1.trans he2.symm, hrows1.trans hrows2.symm, htasks1.trans htasks2.symm,
        hc1.trans hc2.symm, hlines1.trans hlines2.symm⟩

/-! ## The path of a snapshot -/

theorem splitAt_append_sep (sep : Char) (rest : List Char) :
    ∀ a : List Char, sep ∉ a → splitAt sep (a ++ sep :: rest) = a :: splitAt sep rest := by
  intro a
  induction a with
  | nil => intro _; simp [splitAt]
  | cons c cs ih =>
    intro h
    rw [List.mem_cons, not_or] at h
    rw [List.cons_append, splitAt, if_neg (fun e => h.1 e.symm), ih h.2]

theorem clean_two (b : List Char) (hb : '/' ∉ b) (hlen : 3 ≤ b.length) :
    filepath.Clean (String.mk (".cloudventory".data ++ '/' :: b))
      = String.mk (".cloudventory".data ++ '/' :: b) := by
  have h1 : b ≠ [] := by
    intro e; rw [e] at hlen; simp at hlen
  have h2 : b ≠ ['.'] := by
    intro e; rw [e] at hlen; simp at hlen
  have h3 : b ≠ ['.', '.'] := by
    intro e; rw [e] at hlen; simp at hlen
  have hsplit : splitAt '/' (".cloudventory".data ++ '/' :: b) = [".cloudventory".data, b] := by
    rw [splitAt_append_sep '/' _ _ (by decide), splitAt_no_sep '/' _ hb]
  unfold filepath.Clean
  simp only [hsplit]
  simp [filepath.cleanParts, h1, h2, h3, List.intercalate, List.intersperse]
  intro e
  have := congrArg String.data e
  simp at this

theorem outputFile_plain (service : String) (h : '/' ∉ service.data) :
    outputFile service = ".cloudventory/" ++ service ++ "_inventory.json" := by
  have hb : '/' ∉ (service ++ "_inventory.json").data := by
    rw [String.data_append, List.mem_append, not_or]
    exact ⟨h, by decide⟩
  have hlen : 3 ≤ (service ++ "_inventory.json").data.length := by
    rw [String.data_append, List.length_append]
    have : "_inventory.json".data.length = 15 := by decide
    omega
  have hpath : String.mk (List.intercalate ['/']
      ([".cloudventory", service ++ "_inventory.json"].map String.data))
      = String.mk (".cloudventory".data ++ '/' :: (service ++ "_inventory.json").data) := by
    simp [List.intercalate, List.intersperse]
  unfold outputFile filepath.Join
  rw [if_neg (by decide), hpath, clean_two _ hb hlen]
  apply String.ext
  simp only [String.data_append]
  simp

/-! ## The claims about the fan-out scan -/

/-- C1: for valid options, in every state the call `FetchInventoryAcrossRegions` can
reach, the number of region tasks that hold a slot of the semaphore (admitted, slot not
yet released) equals the number of tokens in the channel and is at most `ChunkSize`. -/
theorem admitted_le_chunkSize (p : Provider) (opts : Options)
    (hval : opts.Validate = none) (sched : List Action) (s : State)
    (h : run p opts State.init sched = some s) :
    (s.admitted : Int) ≤ opts.ChunkSize ∧ s.admitted = s.sem := by
  have hinv := reachable_inv p opts sched s h
  have hpos := (validate_none opts hval).1
  have core : ∀ ident regions, Core p opts ident regions s →
      (s.admitted : Int) ≤ opts.ChunkSize ∧ s.admitted = s.sem := by
    intro ident regions hc
    have e : s.admitted = s.sem := by
      unfold State.admitted
      rw [length_filter_holdsSlot, hc.hsem]
    exact ⟨e ▸ hc.hcap, e⟩
  unfold Inv at hinv
  split at hinv
  · subst hinv
    simp [State.admitted, State.init]; omega
  · obtain ⟨regions, hc⟩ := hinv
    exact core _ _ hc
  · obtain ⟨ident, regions, hc, -⟩ := hinv
    exact core _ _ hc
  · obtain ⟨-, htasks, -, -, hsem, -⟩ := hinv
    simp [State.admitted, htasks, hsem]; omega

/-- C1, at the concrete scan: with two slots, after five steps two tasks hold a slot. -/
theorem admitted_le_chunkSize_witness :
    demoMid.admitted = 2 ∧
      ((demoMid.admitted : Int) ≤ demoOpts.ChunkSize ∧ demoMid.admitted = demoMid.sem) :=
  ⟨by decide,
    admitted_le_chunkSize demoProvider demoOpts (by decide) (demoSched.take 5) demoMid
      (by decide)⟩

/-- C2: when validation and the two entry calls succeed, the call returns on every
schedule (no schedule is longer than the cost of the initial state, and every state that
has not returned has a next step), it returns a nil error, its result is a rearrangement
of the rows of the dispatched regions, each region contributing the rows its own task
appends whatever the other tasks do, and for every dispatched region whose task does not
fail the result holds the row of every instance of every page of that region. -/
theorem fetch_isolates_region_failures (p : Provider) (opts : Options)
    (ident : CallerIdentity) (regions : List (Option String))
    (hval : opts.Validate = none) (hid : p.GetCallerIdentity = .ok ident)
    (hreg : p.ListRegions = .ok regions) (sched : List Action) (s : State)
    (h : run p opts State.init sched = some s) :
    sched.length ≤ State.init.cost p ∧
    ((∀ result err, s.pc ≠ .returned result err) → ∃ a s1, step p opts s a = some s1) ∧
    (∀ result err, s.pc = .returned result err →
      err = none ∧ result.Perm (scanRows p opts ident regions) ∧
      ∀ r ∈ dispatched opts regions, taskSucceeds ident r (p.DescribeInstances r) = true →
        ∀ reservations, PageResult.page reservations ∈ p.DescribeInstances r →
          ∀ inst ∈ reservations.flatten,
            ∃ row, buildInventory ident r inst = some row ∧ row ∈ result) := by
  have hinv := reachable_inv p opts sched s h
  refine ⟨?_, progress p opts s hinv, ?_⟩
  · have := run_cost p opts sched _ s h
    omega
  · intro result err hpc
    obtain ⟨herr, -, hperm, -⟩ :=
      returned_ok p opts ident regions hval hid hreg s hinv result err hpc
    refine ⟨herr, hperm, ?_⟩
    intro r hr hok reservations hpage inst hinst
    obtain ⟨row, hrow, hmem⟩ :=
      pagesRows_complete ident r _ hok reservations hpage inst hinst
    refine ⟨row, hrow, hperm.mem_iff.2 ?_⟩
    exact List.mem_flatMap.2 ⟨r, hr, hmem⟩

/-- C2, at the concrete scan: B fails, the call returns nil and the rows of A and C. -/
theorem fetch_isolates_region_failures_witness :
    demoEnd.pc = .returned demoResult none ∧ demoResult.map (fun row => row.Region) = ["A", "C"] ∧
    (demoSched.length ≤ State.init.cost demoProvider ∧
    ((∀ result err, demoEnd.pc ≠ .returned result err) →
      ∃ a s1, step demoProvider demoOpts demoEnd a = some s1) ∧
    (∀ result err, demoEnd.pc = .returned result err →
      err = none ∧
      result.Perm (scanRows demoProvider demoOpts demoIdent [some "A", some "B", some "C"]) ∧
      ∀ r ∈ dispatched demoOpts [some "A", some "B", some "C"],
        taskSucceeds demoIdent r (demoProvider.DescribeInstances r) = true →
        ∀ reservations, PageResult.page reservations ∈ demoProvider.DescribeInstances r →
          ∀ inst ∈ reservations.flatten,
            ∃ row, buildInventory demoIdent r inst = some row ∧ row ∈ result)) :=
  ⟨by decide, by decide,
    fetch_isolates_region_failures demoProvider demoOpts demoIdent
      [some "A", some "B", some "C"] (by decide) rfl rfl demoSched demoEnd (by decide)⟩

/-- C3, as stated, fails: at the concrete scan, where the page fetch of B returns an error
and A and C succeed, the returned value holds the rows of A and C and carries no failure
entry at all, so not exactly one for B; the failure of B is only printed. -/
theorem ledger_entry_for_failed_region_missing :
    run demoProvider demoOpts State.init demoSched = some demoEnd ∧
    demoEnd.pc = .returned demoResult none ∧
    demoResult.map (fun row => row.Region) = ["A", "C"] ∧
    ((failureLedger demoResult).filter (fun e => e.1 = "B")).length ≠ 1 ∧
    failureLedger demoResult = [] ∧
    demoEnd.stdout = [.fetchFailed "B" "boom"] := by
  decide

/-- C3, amended: when validation and the two entry calls succeed, the returned value is a
rearrangement of the rows of the dispatched regions, every row has an empty `Errors`
member and the value carries no failure entry; standard output holds exactly one line for
every dispatched region whose task returned an error or panicked, and no other line. -/
theorem failures_printed_not_returned (p : Provider) (opts : Options)
    (ident : CallerIdentity) (regions : List (Option String))
    (hval : opts.Validate = none) (hid : p.GetCallerIdentity = .ok ident)
    (hreg : p.ListRegions = .ok regions) (sched : List Action) (s : State)
    (result : List EC2Inventory) (err : Option String)
    (h : run p opts State.init sched = some s) (hpc : s.pc = .returned result err) :
    result.Perm (scanRows p opts ident regions) ∧
    (∀ row ∈ result, row.Errors = []) ∧
    failureLedger result = [] ∧
    (s.stdout.map LogLine.region).Perm
      ((dispatched opts regions).filter
        (fun r => !taskSucceeds ident r (p.DescribeInstances r))) := by
  have hinv := reachable_inv p opts sched s h
  obtain ⟨-, -, hperm, hlines, -⟩ :=
    returned_ok p opts ident regions hval hid hreg s hinv result err hpc
  have herrs : ∀ row ∈ result, row.Errors = [] := fun row hrow =>
    (scanRows_region p opts ident regions row (hperm.mem_iff.1 hrow)).2
  refine ⟨hperm, herrs, ?_, ?_⟩
  · unfold failureLedger
    rw [List.flatMap_eq_nil_iff]
    intro row hrow
    rw [herrs row hrow]; rfl
  · rw [← scanLines_region]
    exact hlines.map _

/-- C3 amended, at the concrete scan: one printed line, for B, and no entry returned. -/
theorem failures_printed_not_returned_witness :
    demoResult.Perm (scanRows demoProvider demoOpts demoIdent [some "A", some "B", some "C"]) ∧
    (∀ row ∈ demoResult, row.Errors = []) ∧
    failureLedger demoResult = [] ∧
    (demoEnd.stdout.map LogLine.region).Perm
      ((dispatched demoOpts [some "A", some "B", some "C"]).filter
        (fun r => !taskSucceeds demoIdent r (demoProvider.DescribeInstances r))) :=
  failures_printed_not_returned demoProvider demoOpts demoIdent [some "A", some "B", some "C"]
    (by decide) rfl rfl demoSched demoEnd demoResult none (by decide) (by decide)

/-- C8: `Options.Validate` returns an error exactly when `ChunkSize <= 0` or
`MaxRetries < 0` or `Timeout <= 0`, and nil exactly when the chunk size is positive, the
retry count non-negative and the timeout positive. -/
theorem validate_error_iff (o : Options) :
    (o.Validate.isSome = true ↔ (o.ChunkSize ≤ 0 ∨ o.MaxRetries < 0 ∨ o.Timeout ≤ 0)) ∧
    (o.Validate = none ↔ (0 < o.ChunkSize ∧ 0 ≤ o.MaxRetries ∧ 0 < o.Timeout)) := by
  unfold Options.Validate
  constructor
  · split_ifs <;> simp <;> omega
  · split_ifs <;> simp <;> omega

/-- C9: for options that `Validate` rejects with error `e`, every state of a call of
`FetchInventoryAcrossRegions`, and the state `RunInventory` ends in, has no provider call
made, no task dispatched, no row and no printed line; the first step of the fetch returns
the nil result with `e`, and `RunInventory` returns the nil result with `e`. -/
theorem invalid_options_no_side_effects (p : Provider) (opts : Options) (e : String)
    (hval : opts.Validate = some e) (sched : List Action) (s : State)
    (h : run p opts State.init sched = some s ∨ RunInventory p opts sched = some s) :
    (s.calls = [] ∧ s.tasks = [] ∧ s.results = [] ∧ s.stdout = [] ∧
      (s.pc = .entry ∨ s.pc = .returned [] (some e))) ∧
    run p opts State.init [.main] = some { State.init with pc := .returned [] (some e) } ∧
    RunInventory p opts sched = some { State.init with pc := .returned [] (some e) } := by
  have hrun : RunInventory p opts sched
      = some { State.init with pc := .returned [] (some e) } := by
    simp [RunInventory, hval]
  refine ⟨?_, ?_, hrun⟩
  · have hs : s = State.init ∨ s = { State.init with pc := .returned [] (some e) } := by
      rcases h with h | h
      · exact run_invalid p opts e hval sched s h
      · rw [hrun] at h; cases h; exact Or.inr rfl
    rcases hs with hs | hs <;> subst hs <;> simp [State.init]
  · simp [run, step, stepMain, State.init, hval]

/-- C9, at the concrete provider with `ChunkSize = 0`. -/
theorem invalid_options_no_side_effects_witness :
    ({ State.init with pc := .returned [] (some "chunk size must be greater than 0") }
        : State).calls = [] ∧
    RunInventory demoProvider { demoOpts with ChunkSize := 0 } demoSched
      = some { State.init with pc := .returned [] (some "chunk size must be greater than 0") } :=
  have h := invalid_options_no_side_effects demoProvider { demoOpts with ChunkSize := 0 }
    "chunk size must be greater than 0" (by decide) demoSched
    { State.init with pc := .returned [] (some "chunk size must be greater than 0") }
    (Or.inr (by decide))
  ⟨h.1.1, h.2.2⟩

/-- C10: when validation and the two entry calls succeed, the regions of the tasks
dispatched so far are always an initial part of the enumerated regions that satisfy
"the filter is empty or contains the region", in enumeration order; when the call has
returned they are exactly those regions and the region of every returned row is one of
them; with an empty filter they are all enumerated regions. -/
theorem dispatch_iff_filter (p : Provider) (opts : Options) (ident : CallerIdentity)
    (regions : List (Option String)) (hval : opts.Validate = none)
    (hid : p.GetCallerIdentity = .ok ident) (hreg : p.ListRegions = .ok regions)
    (sched : List Action) (s : State) (h : run p opts State.init sched = some s) :
    s.tasks.map Task.region <+:
      (regions.map ToString).filter
        (fun r => decide (opts.RegionFilter = [] ∨ r ∈ opts.RegionFilter)) ∧
    (∀ result err, s.pc = .returned result err →
      s.tasks.map Task.region
        = (regions.map ToString).filter
            (fun r => decide (opts.RegionFilter = [] ∨ r ∈ opts.RegionFilter)) ∧
      ∀ row ∈ result, row.Region ∈ s.tasks.map Task.region) ∧
    (opts.RegionFilter = [] →
      (regions.map ToString).filter
          (fun r => decide (opts.RegionFilter = [] ∨ r ∈ opts.RegionFilter))
        = regions.map ToString) := by
  have hinv := reachable_inv p opts sched s h
  rw [← dispatched_eq]
  refine ⟨tasks_initial_part p opts regions hreg s hinv, ?_, ?_⟩
  · intro result err hpc
    obtain ⟨-, -, hperm, -, hdisp, -⟩ :=
      returned_ok p opts ident regions hval hid hreg s hinv result err hpc
    refine ⟨hdisp, fun row hrow => ?_⟩
    rw [hdisp]
    exact (scanRows_region p opts ident regions row (hperm.mem_iff.1 hrow)).1
  · intro hempty
    rw [dispatched_eq]
    simp [hempty]

/-- C10, at the concrete provider with the filter `["C", "A"]`: the scan returns having
dispatched tasks for A and C only, and rows of A and C only. -/
theorem dispatch_iff_filter_witness :
    demoFilterEnd.tasks.map Task.region = ["A", "C"] ∧
    demoFilterEnd.pc = .returned demoFilterEnd.results none ∧
    demoFilterEnd.results.map (fun row => row.Region) = ["A", "C"] ∧
    (demoFilterEnd.tasks.map Task.region <+:
      ([some "A", some "B", some "C"].map ToString).filter
        (fun r => decide (demoFilterOpts.RegionFilter = [] ∨ r ∈ demoFilterOpts.RegionFilter)) ∧
    (∀ result err, demoFilterEnd.pc = .returned result err →
      demoFilterEnd.tasks.map Task.region
        = ([some "A", some "B", some "C"].map ToString).filter
            (fun r =>
              decide (demoFilterOpts.RegionFilter = [] ∨ r ∈ demoFilterOpts.RegionFilter)) ∧
      ∀ row ∈ result, row.Region ∈ demoFilterEnd.tasks.map Task.region) ∧
    (demoFilterOpts.RegionFilter = [] →
      ([some "A", some "B", some "C"].map ToString).filter
          (fun r => decide (demoFilterOpts.RegionFilter = [] ∨ r ∈ demoFilterOpts.RegionFilter))
        = [some "A", some "B", some "C"].map ToString)) :=
  ⟨by decide, by decide, by decide,
    dispatch_iff_filter demoProvider demoFilterOpts demoIdent [some "A", some "B", some "C"]
      (by decide) rfl rfl demoFilterSched demoFilterEnd (by decide)⟩

/-! ## The claims about the upsert persister -/

/-- C4: when `InsertResources`, called with no transaction open, returns an error (at
`BeginTx`, `PrepareContext`, the `ExecContext` of any row, or `Commit`), the committed
tables are exactly those before the call and no transaction is left open: no row of the
batch is visible, including the rows executed before the failing one. -/
theorem insert_error_leaves_store (b : Batch) (f : Faults) (now : Nat) (db : DB)
    (htx : db.tx = none) (e : String) (herr : (InsertResources f now db b).1 = some e) :
    (InsertResources f now db b).2.committed = db.committed ∧
      (InsertResources f now db b).2.tx = none := by
  obtain ⟨R, bind, fieldsOf, wrap, rs, hI, -⟩ := Batch.reduce b
  rw [hI] at herr ⊢
  exact insertResources_err b.stmt bind wrap f now db rs htx e herr

/-- C4, at the concrete store: the third `ExecContext` of the batch fails after two rows
were executed, the call returns that error, and the store is as before. -/
theorem insert_error_leaves_store_witness :
    (InsertResources demoFaults 5 demoDB demoBatch).1
      = some "failed to insert EC2 instance i-1: boom" ∧
    (InsertResources demoFaults 5 demoDB demoBatch).2.ops.length = 7 ∧
    ((InsertResources demoFaults 5 demoDB demoBatch).2.committed = demoDB.committed ∧
      (InsertResources demoFaults 5 demoDB demoBatch).2.tx = none) :=
  ⟨by decide, by decide,
    insert_error_leaves_store demoBatch demoFaults 5 demoDB rfl
      "failed to insert EC2 instance i-1: boom" (by decide)⟩

/-- C5: when the natural keys stored in the table are pairwise distinct and the same batch
is persisted twice in succession, both calls returning nil, then after the second call the
stored keys are pairwise distinct, every natural key of the batch is stored exactly once,
the stored keys are those after the first call, every stored row equals the row at its
place after the first call in every column but `last_updated`, and the other tables are
as after the first call. -/
theorem upsert_twice_same (b : Batch) (f1 f2 : Faults) (now1 now2 : Nat) (db : DB)
    (hnd : (db.keys b).Nodup)
    (h1 : (InsertResources f1 now1 db b).1 = none)
    (h2 : (InsertResources f2 now2 (InsertResources f1 now1 db b).2 b).1 = none) :
    ((InsertResources f2 now2 (InsertResources f1 now1 db b).2 b).2.keys b).Nodup ∧
    (∀ row ∈ b.rows,
      ((InsertResources f2 now2 (InsertResources f1 now1 db b).2 b).2.keys b).count (keyOf row)
        = 1) ∧
    (InsertResources f2 now2 (InsertResources f1 now1 db b).2 b).2.keys b
      = (InsertResources f1 now1 db b).2.keys b ∧
    ((InsertResources f2 now2 (InsertResources f1 now1 db b).2 b).2.committed
        b.stmt.table).map withoutTimestamp
      = ((InsertResources f1 now1 db b).2.committed b.stmt.table).map withoutTimestamp ∧
    (∀ t, t ≠ b.stmt.table →
      (InsertResources f2 now2 (InsertResources f1 now1 db b).2 b).2.committed t
        = (InsertResources f1 now1 db b).2.committed t) := by
  obtain ⟨R, bind, fieldsOf, wrap, rs, hI, hrows, -, hbind, hcols, hshape⟩ := Batch.reduce b
  rw [hI] at h1
  have e1 := insertResources_ok b.stmt hshape bind fieldsOf hbind hcols wrap f1 now1 db rs h1
  rw [← hI] at e1
  rw [hI f2] at h2
  have e2 := insertResources_ok b.stmt hshape bind fieldsOf hbind hcols wrap f2 now2 _ rs h2
  rw [← hI f2] at e2
  have hk := (Stmt.tail_eq b.stmt hshape).2
  have hkey : ∀ (r : R) (now : Nat),
      storedRow (fieldsOf r) now b.stmt.conflict = keyOf (fieldsOf r) ∧
        b.stmt.conflict ≠ "last_updated" :=
    fun r now => storedRow_key b.stmt hshape _ now (hcols r)
  have hlu : b.stmt.conflict ≠ "last_updated" := by
    obtain ⟨hc, hn, -, -⟩ := (Stmt.isUpsert_iff b.stmt).1 hshape
    intro e
    rw [hc] at hn
    exact (List.nodup_cons.1 hn).1 (by rw [e]; simp)
  have hagain := foldl_upsert_again b.stmt.conflict b.stmt.columns.tail hk hlu
    (fun r => storedRow (fieldsOf r) now1) (fun r => storedRow (fieldsOf r) now2)
    (by intro a col hcol; simp [storedRow, hcol]) rs (db.committed b.stmt.table)
  have hT1 : (InsertResources f1 now1 db b).2.committed b.stmt.table
      = (rs.map fun r => storedRow (fieldsOf r) now1).foldl
          (upsertRow b.stmt.conflict b.stmt.columns.tail) (db.committed b.stmt.table) := by
    rw [e1, Function.update_same]
  have hT2 : (InsertResources f2 now2 (InsertResources f1 now1 db b).2 b).2.committed
        b.stmt.table
      = (rs.map fun r => storedRow (fieldsOf r) now2).foldl
          (upsertRow b.stmt.conflict b.stmt.columns.tail)
          ((InsertResources f1 now1 db b).2.committed b.stmt.table) := by
    rw [e2, Function.update_same]
  have hnd1 : ((InsertResources f1 now1 db b).2.keys b).Nodup := by
    unfold DB.keys
    rw [hT1]
    exact foldl_upsert_keys_nodup _ _ hk _ _ hnd
  have hkeys : (InsertResources f2 now2 (InsertResources f1 now1 db b).2 b).2.keys b
      = (InsertResources f1 now1 db b).2.keys b := by
    unfold DB.keys
    rw [hT2, hT1]
    exact hagain.2
  refine ⟨hkeys ▸ hnd1, ?_, hkeys, ?_, ?_⟩
  · intro row hrow
    rw [hkeys]
    apply List.count_eq_one_of_mem hnd1
    unfold DB.keys
    rw [hT1, foldl_upsert_keys_mem _ _ hk]
    rw [hrows] at hrow
    obtain ⟨r, hr, rfl⟩ := List.mem_map.1 hrow
    refine Or.inr (List.mem_map.2 ⟨storedRow (fieldsOf r) now1, ?_, (hkey r now1).1⟩)
    exact List.mem_map.2 ⟨r, hr, rfl⟩
  · rw [hT2, hT1]
    exact hagain.1
  · intro t ht
    rw [e2, Function.update_noteq ht]

/-- C5, at the concrete store and batch (two rows of the batch share the key `i-1`). -/
theorem upsert_twice_same_witness :
    ((InsertResources Faults.none 9 (InsertResources Faults.none 5 demoDB demoBatch).2
        demoBatch).2.keys demoBatch).Nodup ∧
    (∀ row ∈ demoBatch.rows,
      ((InsertResources Faults.none 9 (InsertResources Faults.none 5 demoDB demoBatch).2
        demoBatch).2.keys demoBatch).count (keyOf row) = 1) ∧
    (InsertResources Faults.none 9 (InsertResources Faults.none 5 demoDB demoBatch).2
        demoBatch).2.keys demoBatch
      = (InsertResources Faults.none 5 demoDB demoBatch).2.keys demoBatch ∧
    ((InsertResources Faults.none 9 (InsertResources Faults.none 5 demoDB demoBatch).2
        demoBatch).2.committed demoBatch.stmt.table).map withoutTimestamp
      = ((InsertResources Faults.none 5 demoDB demoBatch).2.committed
          demoBatch.stmt.table).map withoutTimestamp ∧
    (∀ t, t ≠ demoBatch.stmt.table →
      (InsertResources Faults.none 9 (InsertResources Faults.none 5 demoDB demoBatch).2
        demoBatch).2.committed t
        = (InsertResources Faults.none 5 demoDB demoBatch).2.committed t) :=
  upsert_twice_same demoBatch Faults.none Faults.none 5 9 demoDB (by decide) (by decide)
    (by decide)

/-- C7: for every store, every fault pattern and each of the five resource types,
`InsertResources` called with an empty batch returns nil and the very database it was
given: no call is made on the connection (no transaction begins) and nothing changes. -/
theorem insert_empty_is_noop (b : Batch) (f : Faults) (now : Nat) (db : DB)
    (hempty : b.rows = []) : InsertResources f now db b = (none, db) := by
  cases b <;> simp only [Batch.rows, List.map_eq_nil_iff] at hempty <;> subst hempty <;> rfl

/-- C7, at the concrete store with every call of the connection set to fail. -/
theorem insert_empty_is_noop_witness :
    InsertResources
        { begin := some "down", prepare := some "down", exec := fun _ => some "down",
          commit := some "down" } 5 demoDB (.forLambda [])
      = (none, demoDB) :=
  insert_empty_is_noop (.forLambda []) _ 5 demoDB rfl

/-- C6: for each of the five resource types, after `InsertResources` returns nil: every
natural key of the batch is stored; a stored row whose key is in the batch has every
non-key member of the last batch row with that key in the column of the same name, and
the transaction time as `last_updated`, whether the key was stored before or not; a row
whose key is not in the batch is stored after the call exactly when it was before; the
other tables are unchanged. In the statement every inserted column but the conflict
column is assigned by the update list, the `VALUES` list is `$1, ..., $n, NOW()`, and the
arguments bound for a row are its members in the order of the inserted columns. -/
theorem upsert_writes_every_column (b : Batch) (f : Faults) (now : Nat) (db : DB)
    (hok : (InsertResources f now db b).1 = none) :
    (∀ row ∈ b.rows, keyOf row ∈ (InsertResources f now db b).2.keys b) ∧
    (∀ stored ∈ (InsertResources f now db b).2.committed b.stmt.table, ∀ row,
      lastWithKey b.rows (stored b.stmt.conflict) = some row →
        (∀ cv ∈ row.tail, stored cv.1 = cv.2) ∧ stored "last_updated" = .time now) ∧
    (∀ stored : Row, stored b.stmt.conflict ∉ b.rows.map keyOf →
      (stored ∈ (InsertResources f now db b).2.committed b.stmt.table ↔
        stored ∈ db.committed b.stmt.table)) ∧
    (∀ t, t ≠ b.stmt.table → (InsertResources f now db b).2.committed t = db.committed t) ∧
    (∀ col ∈ b.stmt.columns, col ≠ b.stmt.conflict → col ∈ b.stmt.set.map Prod.fst) ∧
    b.stmt.values
      = (List.range (b.stmt.columns.length - 1)).map (fun i => Expr.param (i + 1))
        ++ [Expr.now] ∧
    (∀ row ∈ b.rows, row.map Prod.fst ++ ["last_updated"] = b.stmt.columns) ∧
    b.binds = b.rows.map (fun row => row.map Prod.snd) := by
  obtain ⟨R, bind, fieldsOf, wrap, rs, hI, hrows, hbinds, hbind, hcols, hshape⟩ :=
    Batch.reduce b
  rw [hI] at hok
  have e1 := insertResources_ok b.stmt hshape bind fieldsOf hbind hcols wrap f now db rs hok
  rw [← hI] at e1
  have hk := (Stmt.tail_eq b.stmt hshape).2
  have htail := (Stmt.tail_eq b.stmt hshape).1
  obtain ⟨hc, hn, hv, hs⟩ := (Stmt.isUpsert_iff b.stmt).1 hshape
  have hT : (InsertResources f now db b).2.committed b.stmt.table
      = (rs.map fun r => storedRow (fieldsOf r) now).foldl
          (upsertRow b.stmt.conflict b.stmt.columns.tail) (db.committed b.stmt.table) := by
    rw [e1, Function.update_same]
  have hrowcols : ∀ row ∈ b.rows, row.map Prod.fst ++ ["last_updated"] = b.stmt.columns := by
    intro row hrow
    rw [hrows] at hrow
    obtain ⟨r, -, rfl⟩ := List.mem_map.1 hrow
    exact hcols r
  have hcand : (rs.map fun r => storedRow (fieldsOf r) now)
      = b.rows.map (fun row => storedRow row now) := by
    rw [hrows, List.map_map]; rfl
  have hcandkeys : (b.rows.map (fun row => storedRow row now)).map (fun r => r b.stmt.conflict)
      = b.rows.map keyOf := by
    rw [List.map_map]
    apply List.map_congr_left
    intro row hrow
    exact (storedRow_key b.stmt hshape row now (hrowcols row hrow)).1
  refine ⟨?_, ?_, ?_, ?_, ?_, ?_, hrowcols, ?_⟩
  · intro row hrow
    unfold DB.keys
    rw [hT, foldl_upsert_keys_mem _ _ hk, hcand, hcandkeys]
    exact Or.inr (List.mem_map.2 ⟨row, hrow, rfl⟩)
  · intro stored hstored row hlast
    rw [hT, hcand] at hstored
    obtain ⟨hfind, hmem⟩ :=
      lastWithKey_find b.stmt hshape b.rows now hrowcols _ row hlast
    have hval := foldl_upsert_values _ _ hk _ _ stored hstored _ hfind
    constructor
    · intro cv hcv
      obtain ⟨h1, h2⟩ := storedRow_value b.stmt hshape row now (hrowcols row hmem) cv hcv
      rw [hval cv.1 h1, h2]
    · rw [hval "last_updated" (by rw [htail]; simp), storedRow_timestamp]
  · intro stored hnot
    rw [hT, hcand]
    exact foldl_upsert_untouched _ _ hk _ _ stored (by rw [hcandkeys]; exact hnot)
  · intro t ht
    rw [e1, Function.update_noteq ht]
  · intro col hcol hne
    rw [hc] at hcol
    rw [hs]
    rcases List.mem_cons.1 hcol with h | h
    · exact absurd h hne
    · rcases List.mem_append.1 h with h | h
      · simp only [List.map_append, List.map_map, List.mem_append, List.mem_map]
        exact Or.inl ⟨col, h, rfl⟩
      · simp only [List.map_append, List.mem_append]
        exact Or.inr (by simpa using h)
  · rw [hv]
    congr 2
    · have := congrArg List.length hc
      rw [this]; simp
  · rw [hbinds, hrows, List.map_map]
    apply List.map_congr_left
    intro r _
    exact hbind r

/-- C6, at the concrete store and batch: `i-2` was stored and is overwritten, `i-1` is
new and takes the values of its last batch row. -/
theorem upsert_writes_every_column_witness :
    ((InsertResources Faults.none 5 demoDB demoBatch).2.committed "ec2_instances").map
        (fun r => (r "instance_id", r "state", r "instance_type", r "last_updated"))
      = [(.str "i-2", .str "running", .str "t3.large", .time 5),
         (.str "i-1", .str "stopped", .str "t3.micro", .time 5)] ∧
    ((∀ row ∈ demoBatch.rows,
        keyOf row ∈ (InsertResources Faults.none 5 demoDB demoBatch).2.keys demoBatch) ∧
    (∀ stored ∈ (InsertResources Faults.none 5 demoDB demoBatch).2.committed
        demoBatch.stmt.table, ∀ row,
      lastWithKey demoBatch.rows (stored demoBatch.stmt.conflict) = some row →
        (∀ cv ∈ row.tail, stored cv.1 = cv.2) ∧ stored "last_updated" = .time 5) ∧
    (∀ stored : Row, stored demoBatch.stmt.conflict ∉ demoBatch.rows.map keyOf →
      (stored ∈ (InsertResources Faults.none 5 demoDB demoBatch).2.committed
          demoBatch.stmt.table ↔
        stored ∈ demoDB.committed demoBatch.stmt.table)) ∧
    (∀ t, t ≠ demoBatch.stmt.table →
      (InsertResources Faults.none 5 demoDB demoBatch).2.committed t = demoDB.committed t) ∧
    (∀ col ∈ demoBatch.stmt.columns, col ≠ demoBatch.stmt.conflict →
      col ∈ demoBatch.stmt.set.map Prod.fst) ∧
    demoBatch.stmt.values
      = (List.range (demoBatch.stmt.columns.length - 1)).map (fun i => Expr.param (i + 1))
        ++ [Expr.now] ∧
    (∀ row ∈ demoBatch.rows, row.map Prod.fst ++ ["last_updated"] = demoBatch.stmt.columns) ∧
    demoBatch.binds = demoBatch.rows.map (fun row => row.map Prod.snd)) :=
  ⟨by decide, upsert_writes_every_column demoBatch Faults.none 5 demoDB (by decide)⟩

/-- C11: for valid options, when validation and the two entry calls succeed and no
enumerated region passes the filter (the region list is empty, or the filter is not empty
and contains none of the enumerated regions), the call returns the empty result and a nil
error after one step per region, having asked the provider nothing else; and in every
state it can reach no task was dispatched, and if it has returned, the result is empty and
the error nil. -/
theorem no_region_passes_returns_empty (p : Provider) (opts : Options)
    (ident : CallerIdentity) (regions : List (Option String))
    (hval : opts.Validate = none) (hid : p.GetCallerIdentity = .ok ident)
    (hreg : p.ListRegions = .ok regions)
    (hnone : regions = [] ∨
      (opts.RegionFilter ≠ [] ∧ ∀ r ∈ regions, ToString r ∉ opts.RegionFilter)) :
    run p opts State.init (List.replicate (regions.length + 2) .main)
      = some { State.init with
          pc := .returned [] none
          calls := [.getCallerIdentity, .listRegions] } ∧
    ∀ sched s, run p opts State.init sched = some s →
      s.tasks = [] ∧ ∀ result err, s.pc = .returned result err → result = [] ∧ err = none := by
  have hfilter : ∀ e ∈ regions, passesFilter opts (ToString e) = false := by
    intro e he
    rw [Bool.eq_false_iff]
    intro hpass
    rcases hnone with h | ⟨h1, h2⟩
    · rw [h] at he; simp at he
    · rcases (passesFilter_iff opts (ToString e)).1 hpass with h3 | h3
      · exact h1 h3
      · exact h2 e he h3
  have hdisp : dispatched opts regions = [] := by
    unfold dispatched
    rw [List.filter_eq_nil_iff]
    intro r hr
    obtain ⟨e, he, rfl⟩ := List.mem_map.1 hr
    rw [hfilter e he]; simp
  constructor
  · have hstep : step p opts State.init .main
        = some { State.init with
            pc := .loop ident, todo := regions,
            calls := [.getCallerIdentity, .listRegions] } := by
      simp [step, stepMain, State.init, hval, hid, hreg]
    rw [List.replicate_succ, run, hstep]
    exact run_skip_all p opts ident regions _ rfl rfl rfl hfilter
  · intro sched s h
    have hinv := reachable_inv p opts sched s h
    have hpre := tasks_initial_part p opts regions hreg s hinv
    rw [hdisp] at hpre
    refine ⟨?_, ?_⟩
    · have := List.eq_nil_of_prefix_nil hpre
      exact List.map_eq_nil_iff.1 this
    · intro result err hpc
      obtain ⟨herr, -, hperm, -⟩ :=
        returned_ok p opts ident regions hval hid hreg s hinv result err hpc
      refine ⟨?_, herr⟩
      have : scanRows p opts ident regions = [] := by
        unfold scanRows; rw [hdisp]; rfl
      rw [this] at hperm
      exact hperm.eq_nil

/-- C11, at the concrete provider with a filter that names no enumerated region. -/
theorem no_region_passes_returns_empty_witness :
    run demoProvider { demoOpts with RegionFilter := ["Z"] } State.init
        (List.replicate ([some "A", some "B", some "C"].length + 2) .main)
      = some { State.init with
          pc := .returned [] none
          calls := [.getCallerIdentity, .listRegions] } ∧
    ∀ sched s, run demoProvider { demoOpts with RegionFilter := ["Z"] } State.init sched
        = some s →
      s.tasks = [] ∧ ∀ result err, s.pc = .returned result err → result = [] ∧ err = none :=
  no_region_passes_returns_empty demoProvider { demoOpts with RegionFilter := ["Z"] }
    demoIdent [some "A", some "B", some "C"] (by decide) rfl rfl
    (Or.inr ⟨by decide, by decide⟩)

/-! ## The claims about the orchestrator, the page reader and the snapshot writer -/

/-- C12: `runSequential` invokes the collectors in the order S3, EC2, RDS, Lambda,
DynamoDB (the services invoked are always an initial part of that list); it returns nil
exactly when all five return nil, and then all five were invoked; when the collector at
place `k` is the first not to return nil and it returns an error, the result is that
error wrapped with the service name and exactly the first `k + 1` services were invoked;
when it panics instead, `runSequential` does not return: the panic, which nothing
recovers, leaves it, again with exactly the first `k + 1` services invoked. At the
DynamoDB table `orders`, in provisioned mode, `dynamodb.FetchResources` panics, so
`collectDynamoDB` does, and `runSequential` returns no error naming DynamoDB. -/
theorem runSequential_fail_fast (r : Collectors) :
    ((runSequential r).1 = .nil ↔
      (r.collectS3 = .nil ∧ r.collectEC2 = .nil ∧ r.collectRDS = .nil ∧
        r.collectLambda = .nil ∧ r.collectDynamoDB = .nil)) ∧
    (∃ n, (runSequential r).2 = ["S3", "EC2", "RDS", "Lambda", "DynamoDB"].take n) ∧
    ((runSequential r).1 = .nil →
      (runSequential r).2 = ["S3", "EC2", "RDS", "Lambda", "DynamoDB"]) ∧
    (∀ (k : Nat) (name err : String),
      (sequentialServices r)[k]? = some (name, .error err) →
      (∀ j, j < k → ∃ n, (sequentialServices r)[j]? = some (n, .nil)) →
      runSequential r
        = (.error ("failed to collect " ++ name ++ " inventory: " ++ err),
            ["S3", "EC2", "RDS", "Lambda", "DynamoDB"].take (k + 1))) ∧
    (∀ (k : Nat) (name : String),
      (sequentialServices r)[k]? = some (name, .panic) →
      (∀ j, j < k → ∃ n, (sequentialServices r)[j]? = some (n, .nil)) →
      runSequential r = (.panic, ["S3", "EC2", "RDS", "Lambda", "DynamoDB"].take (k + 1))) ∧
    (dynamodb.FetchResources demoDynamoClient = .panic ∧
      demoPanicCollectors.collectDynamoDB = .panic ∧
      runSequential demoPanicCollectors
        = (.panic, ["S3", "EC2", "RDS", "Lambda", "DynamoDB"])) := by
  have hnames : (sequentialServices r).map Prod.fst = ["S3", "EC2", "RDS", "Lambda", "DynamoDB"] :=
    rfl
  have hiff := runSequentialLoop_nil_iff (sequentialServices r) []
  have hall : (∀ x ∈ sequentialServices r, x.2 = .nil) ↔
      (r.collectS3 = .nil ∧ r.collectEC2 = .nil ∧ r.collectRDS = .nil ∧
        r.collectLambda = .nil ∧ r.collectDynamoDB = .nil) := by
    simp [sequentialServices]
  refine ⟨hiff.trans hall, ?_, ?_, ?_, ?_, by decide, by decide, by decide⟩
  · obtain ⟨n, hn⟩ := runSequentialLoop_invoked (sequentialServices r) []
    refine ⟨n, ?_⟩
    rw [← hnames, ← List.map_take]
    simpa using hn
  · intro h
    have := runSequentialLoop_all_nil (sequentialServices r) [] (hiff.1 h)
    unfold runSequential
    rw [this, hnames]; rfl
  · intro k name err hk hbefore
    have := runSequentialLoop_first_error (sequentialServices r) [] k name err hk hbefore
    unfold runSequential
    rw [this, List.map_take, hnames]; rfl
  · intro k name hk hbefore
    have := runSequentialLoop_first_panic (sequentialServices r) [] k name hk hbefore
    unfold runSequential
    rw [this, List.map_take, hnames]; rfl

/-- C13: for every outcome of the five collectors and every schedule of `runParallel`: no
schedule has more than 27 steps and every state that has neither returned nor crashed has
a next step; until then the launch loop can always launch its next goroutine and every
unfinished goroutine can always take its next step, whatever the others returned; the
channel holds the errors in the order of the sends; when the call has returned, all five
goroutines were launched, every collector was invoked and every goroutine has come to its
end, the channel holds exactly the errors the collectors returned, the result is the one
sent first, and it is nil exactly when no collector returned an error. When no collector
panics, the process does not crash, every goroutine returns, and the result is nil
exactly when all five returned nil. A panic of a collector is recovered nowhere: once it
has ended the process, no step follows and `runParallel` has not returned; so at the
DynamoDB table `orders`, in provisioned mode, the process ends with four collectors not
invoked and `runParallel` never returns. -/
theorem runParallel_waits_for_all (r : Collectors) (sched : List ParAction) (s : ParState)
    (h : runPar (ParState.init r) sched = some s) :
    sched.length ≤ 27 ∧
    (s.ret = none → s.crashed = false → ∃ a s1, stepPar s a = some s1) ∧
    (s.ret = none → s.crashed = false → s.next ≠ [] → ∃ s1, stepPar s .main = some s1) ∧
    (s.ret = none → s.crashed = false → ∀ i j, s.jobs[i]? = some j → j.pc ≠ .done →
      ∃ s1, stepPar s (.job i) = some s1) ∧
    s.errChan = reports (ParState.init r) sched ∧
    (∀ result, s.ret = some result →
      s.jobs.map (fun j => (j.name, j.outcome)) = parallelServices r ∧
      (∀ j ∈ s.jobs, j.finished = true) ∧
      s.invoked.Perm ["S3", "EC2", "RDS", "Lambda", "DynamoDB"] ∧
      s.errChan.Perm ((parallelServices r).flatMap (fun x => x.2.errors)) ∧
      result = (reports (ParState.init r) sched).head? ∧
      (result = none ↔ ∀ x ∈ parallelServices r, x.2.errors = [])) ∧
    ((∀ x ∈ parallelServices r, x.2 ≠ .panic) →
      s.crashed = false ∧
      ∀ result, s.ret = some result →
        (∀ j ∈ s.jobs, j.pc = .done) ∧
        (result = none ↔
          (r.collectS3 = .nil ∧ r.collectEC2 = .nil ∧ r.collectRDS = .nil ∧
            r.collectLambda = .nil ∧ r.collectDynamoDB = .nil))) ∧
    (s.crashed = true →
      s.ret = none ∧ (∃ j ∈ s.jobs, j.outcome = .panic ∧ j.pc = .fatal) ∧
      ∀ a, stepPar s a = none) ∧
    (runPar (ParState.init demoPanicCollectors) demoPanicSched = some demoPanicEnd ∧
      demoPanicEnd.crashed = true ∧ demoPanicEnd.ret = none ∧
      demoPanicEnd.invoked = ["DynamoDB"]) := by
  have hinv := runPar_inv r sched _ s (parInv_init r) h
  have hrep : s.errChan = reports (ParState.init r) sched := by
    have := runPar_reports sched _ s h
    simpa [ParState.init] using this
  have hnone : ∀ result, s.ret = some result →
      (result = none ↔ ∀ x ∈ parallelServices r, x.2.errors = []) := by
    intro result hret
    obtain ⟨hres, hperm, -⟩ := par_returned r s hinv result hret
    rw [hres]
    constructor
    · intro hhead
      have hnil : s.errChan = [] := by
        cases hs : s.errChan with
        | nil => rfl
        | cons x xs => rw [hs] at hhead; simp at hhead
      rw [hnil] at hperm
      have := hperm.symm.eq_nil
      intro x hx
      have h2 := List.flatMap_eq_nil_iff.1 this x hx
      exact h2
    · intro hall
      have : (parallelServices r).flatMap (fun x => x.2.errors) = [] :=
        List.flatMap_eq_nil_iff.2 hall
      rw [this] at hperm
      rw [hperm.eq_nil]; rfl
  refine ⟨?_, par_progress r s hinv, fun hret hcr => launch_enabled s hret hcr,
    fun hret hcr i j hi hj => job_enabled r s hinv hret hcr i j hi hj, hrep, ?_, ?_, ?_,
    by decide, by decide, by decide, by decide⟩
  · have := runPar_cost sched _ s h
    have h0 : (ParState.init r).cost = 27 := by
      simp [ParState.cost, ParState.init, parallelServices]
    omega
  · intro result hret
    obtain ⟨hres, hperm, hinvoked, hjobs, hdone, -⟩ := par_returned r s hinv result hret
    exact ⟨hjobs, hdone, hinvoked, hperm, by rw [hres, hrep], hnone result hret⟩
  · intro hno
    obtain ⟨hcr, hpcs⟩ := par_no_panic r s hinv hno
    refine ⟨hcr, ?_⟩
    intro result hret
    obtain ⟨-, -, -, -, hdone, -⟩ := par_returned r s hinv result hret
    constructor
    · intro j hj
      have h1 := hdone j hj
      have h2 := hpcs j hj
      cases hp : j.pc <;> simp_all [Job.finished]
    · rw [hnone result hret]
      simp only [parallelServices, List.mem_cons, List.mem_singleton, List.not_mem_nil,
        or_false, forall_eq_or_imp, forall_eq] at hno ⊢
      obtain ⟨ha, hb, hc, hd, he⟩ := hno
      rw [Outcome.errors_eq_nil _ ha, Outcome.errors_eq_nil _ hb, Outcome.errors_eq_nil _ hc,
        Outcome.errors_eq_nil _ hd, Outcome.errors_eq_nil _ he]
  · intro hcr
    obtain ⟨j, hj, hp⟩ := hinv.hcrash hcr
    refine ⟨?_, ⟨j, hj, hinv.hpanic j hj (Or.inr hp), hp⟩, fun a => stepPar_crashed s a hcr⟩
    cases hret : s.ret with
    | none => rfl
    | some result =>
      have := (hinv.hret result hret).2.2.2
      rw [hcr] at this; cases this

/-- C13, at the concrete run: EC2 and Lambda fail, Lambda sends first, and the call
returns the error of Lambda after all five collectors were invoked. -/
theorem runParallel_waits_for_all_witness :
    demoParEnd.ret = some (some "lambda down") ∧
    demoParEnd.invoked = ["Lambda", "EC2", "S3", "RDS", "DynamoDB"] ∧
    reports (ParState.init demoCollectors) demoParSched = ["lambda down", "ec2 down"] ∧
    (demoParSched.length ≤ 27 ∧
    (demoParEnd.ret = none → demoParEnd.crashed = false →
      ∃ a s1, stepPar demoParEnd a = some s1) ∧
    (demoParEnd.ret = none → demoParEnd.crashed = false → demoParEnd.next ≠ [] →
      ∃ s1, stepPar demoParEnd .main = some s1) ∧
    (demoParEnd.ret = none → demoParEnd.crashed = false →
      ∀ i j, demoParEnd.jobs[i]? = some j → j.pc ≠ .done →
        ∃ s1, stepPar demoParEnd (.job i) = some s1) ∧
    demoParEnd.errChan = reports (ParState.init demoCollectors) demoParSched ∧
    (∀ result, demoParEnd.ret = some result →
      demoParEnd.jobs.map (fun j => (j.name, j.outcome)) = parallelServices demoCollectors ∧
      (∀ j ∈ demoParEnd.jobs, j.finished = true) ∧
      demoParEnd.invoked.Perm ["S3", "EC2", "RDS", "Lambda", "DynamoDB"] ∧
      demoParEnd.errChan.Perm
        ((parallelServices demoCollectors).flatMap (fun x => x.2.errors)) ∧
      result = (reports (ParState.init demoCollectors) demoParSched).head? ∧
      (result = none ↔ ∀ x ∈ parallelServices demoCollectors, x.2.errors = [])) ∧
    ((∀ x ∈ parallelServices demoCollectors, x.2 ≠ .panic) →
      demoParEnd.crashed = false ∧
      ∀ result, demoParEnd.ret = some result →
        (∀ j ∈ demoParEnd.jobs, j.pc = .done) ∧
        (result = none ↔
          (demoCollectors.collectS3 = .nil ∧ demoCollectors.collectEC2 = .nil ∧
            demoCollectors.collectRDS = .nil ∧ demoCollectors.collectLambda = .nil ∧
            demoCollectors.collectDynamoDB = .nil))) ∧
    (demoParEnd.crashed = true →
      demoParEnd.ret = none ∧
      (∃ j ∈ demoParEnd.jobs, j.outcome = .panic ∧ j.pc = .fatal) ∧
      ∀ a, stepPar demoParEnd a = none) ∧
    (runPar (ParState.init demoPanicCollectors) demoPanicSched = some demoPanicEnd ∧
      demoPanicEnd.crashed = true ∧ demoPanicEnd.ret = none ∧
      demoPanicEnd.invoked = ["DynamoDB"])) :=
  ⟨by decide, by decide, by decide,
    runParallel_waits_for_all demoCollectors demoParSched demoParEnd (by decide)⟩

/-- C14, as stated, fails: in the scan of region B, whose second page fetch returns an
error, no third page is requested, but the error is not reported to the caller: the call
returns the row of the first page and a nil error, and the error is only printed. And
with `MaxRetries = 0` and a client whose retryer makes three attempts, the failing page
is requested three times, not at most once. -/
theorem page_error_not_reported_upward :
    run demoFailingPages demoOpts State.init demoFailingSched = some demoFailingEnd ∧
    demoFailingEnd.pc = .returned demoFailingEnd.results none ∧
    demoFailingEnd.results.map (fun row => row.InstanceID) = ["i-1"] ∧
    demoFailingEnd.calls
      = [.getCallerIdentity, .listRegions, .nextPage "B", .nextPage "B"] ∧
    demoFailingEnd.stdout = [.fetchFailed "B" "throttled"] ∧
    demoOpts.MaxRetries + 1 = 1 ∧
    requestsSent (fun _ k => if k = 1 then 3 else 1) demoFailingEnd.calls "B" = [1, 3] := by
  decide

/-- C14, amended: when validation and the two entry calls succeed and the answers of a
dispatched region are pages that build, then an error, then anything, the returned scan
has called `NextPage` for that region exactly once for each page up to and including the
failing one, per task of the region, and for no page after it; the requests behind these
calls are as many as the retryer of the client makes, whatever `MaxRetries` is: under any
other valid options with the same filter the calls are the same; the error is printed on
standard output and the call returns a nil error: the error does not reach the caller. -/
theorem page_error_stops_region (p : Provider) (opts : Options) (ident : CallerIdentity)
    (regions : List (Option String)) (hval : opts.Validate = none)
    (hid : p.GetCallerIdentity = .ok ident) (hreg : p.ListRegions = .ok regions)
    (r : String) (pre post : List PageResult) (e : String)
    (hr : r ∈ dispatched opts regions)
    (hpages : p.DescribeInstances r = pre ++ .error e :: post)
    (hpre : taskSucceeds ident r pre = true)
    (sched : List Action) (s : State) (result : List EC2Inventory) (err : Option String)
    (h : run p opts State.init sched = some s) (hpc : s.pc = .returned result err) :
    err = none ∧
    s.calls.count (.nextPage r) = (dispatched opts regions).count r * (pre.length + 1) ∧
    (∀ attempts, requestsSent attempts s.calls r
      = (List.range ((dispatched opts regions).count r * (pre.length + 1))).map
          (attempts r)) ∧
    (∀ (o2 : Options) (sched2 : List Action) (s2 : State) (result2 : List EC2Inventory)
        (err2 : Option String),
      o2.Validate = none → o2.RegionFilter = opts.RegionFilter →
      run p o2 State.init sched2 = some s2 → s2.pc = .returned result2 err2 →
        s2.calls.count (.nextPage r) = s.calls.count (.nextPage r)) ∧
    LogLine.fetchFailed r e ∈ s.stdout ∧
    (∀ row ∈ pagesRows ident r pre, row ∈ result) := by
  have hinv := reachable_inv p opts sched s h
  obtain ⟨herr, -, hperm, hlines, -⟩ :=
    returned_ok p opts ident regions hval hid hreg s hinv result err hpc
  have hcalls := returned_calls p opts ident regions hval hid hreg sched s h result err hpc
  obtain ⟨hf, hl, hrows⟩ := pagesFetched_error ident r pre post e hpre
  rw [← hpages] at hf hl hrows
  have hcount : s.calls.count (.nextPage r)
      = (dispatched opts regions).count r * (pre.length + 1) := by
    rw [hcalls.count_eq, scanCalls, List.count_append, count_flatMap_replicate, hf]
    simp
  refine ⟨herr, hcount, ?_, ?_, ?_, ?_⟩
  · intro attempts
    rw [requestsSent, hcount]
  · intro o2 sched2 s2 result2 err2 hv2 hf2 h2 hpc2
    exact ((returned_options p opts o2 hval hv2 hf2.symm sched sched2 s s2 h h2 result result2
      err err2 hpc hpc2).2.2.2.1.count_eq _).symm
  · rw [hlines.mem_iff, scanLines]
    exact List.mem_flatMap.2 ⟨r, hr, by rw [hl]; simp⟩
  · intro row hrow
    rw [hperm.mem_iff, scanRows]
    exact List.mem_flatMap.2 ⟨r, hr, by rw [hrows]; exact hrow⟩

/-- C14 amended, at the scan of region B. -/
theorem page_error_stops_region_witness :
    (none : Option String) = none ∧
    demoFailingEnd.calls.count (.nextPage "B")
      = (dispatched demoOpts [some "B"]).count "B"
          * ([PageResult.page [[demoInstance "i-1"]]].length + 1) ∧
    (∀ attempts, requestsSent attempts demoFailingEnd.calls "B"
      = (List.range ((dispatched demoOpts [some "B"]).count "B"
          * ([PageResult.page [[demoInstance "i-1"]]].length + 1))).map (attempts "B")) ∧
    (∀ (o2 : Options) (sched2 : List Action) (s2 : State) (result2 : List EC2Inventory)
        (err2 : Option String),
      o2.Validate = none → o2.RegionFilter = demoOpts.RegionFilter →
      run demoFailingPages o2 State.init sched2 = some s2 → s2.pc = .returned result2 err2 →
        s2.calls.count (.nextPage "B") = demoFailingEnd.calls.count (.nextPage "B")) ∧
    LogLine.fetchFailed "B" "throttled" ∈ demoFailingEnd.stdout ∧
    (∀ row ∈ pagesRows demoIdent "B" [.page [[demoInstance "i-1"]]],
      row ∈ demoFailingEnd.results) :=
  page_error_stops_region demoFailingPages demoOpts demoIdent [some "B"] (by decide) rfl rfl
    "B" [.page [[demoInstance "i-1"]]] [.page [[demoInstance "i-2"]]] "throttled"
    (by decide) rfl (by decide) demoFailingSched demoFailingEnd demoFailingEnd.results none
    (by decide) (by decide)

/-- C15, evaluated at a provider that serves the EC2 instances in two pages:
`ec2.FetchResources` makes one `DescribeInstances` call, does not read the token of the
answer and returns the row of the first page only, though the second page holds instance
`i-2`; the paginator loop of `FetchInventoryAcrossRegions` run against a region with the
same two pages returns the rows of both. -/
theorem ec2_fetch_reads_first_page_only :
    (∃ r, ec2.FetchResources demoTwoPages = .ok [r] ∧ r.InstanceID = "i-1") ∧
    demoTwoPages (some "page-2")
      = .ok { Reservations := [[demoRaw "i-2"]], NextToken := none } ∧
    (pagesRows demoIdent "A"
        [.page [[demoInstance "i-1"]], .page [[demoInstance "i-2"]]]).map
      (fun row => row.InstanceID) = ["i-1", "i-2"] :=
  ⟨⟨_, rfl, rfl⟩, rfl, by decide⟩

/-- C16, evaluated at records with an absent sub-structure: the row build panics for a
DynamoDB table without `BillingModeSummary`, for an EC2 instance without `State` or
without `Placement` (in `ec2.FetchResources`, where it ends the whole fetch, and in the
scan of `fetcher.go`), and for an S3 encryption rule without
`ApplyServerSideEncryptionByDefault`; an absent `LaunchTime`, which the code tests for,
yields the empty value. -/
theorem normalisation_panics_on_absent_substructure :
    dynamodb.buildResource (some demoTable) (.ok none) (.ok []) = none ∧
    ec2.buildResource { demoRaw "i-1" with State := none } = none ∧
    ec2.buildResource { demoRaw "i-1" with Placement := none } = none ∧
    ec2.FetchResources
        (fun _ =>
          .ok { Reservations := [[demoRaw "i-1"], [{ demoRaw "i-2" with State := none }]],
                NextToken := none })
      = .panic ∧
    buildInventory demoIdent "A" { demoInstance "i-1" with State := none } = none ∧
    s3.buildResource { Name := some "logs", CreationDate := some "2023-01-01" }
        { location := .ok "", versioning := .ok "Enabled", encryption := .ok (some [none]),
          publicAccess := .error "no configuration" }
      = none ∧
    (ec2.buildResource { demoRaw "i-1" with LaunchTime := none }).map (fun r => r.LaunchTime)
      = some "" := by
  decide

/-- C17, as stated, fails: with a prior document in place and `os.Create` failing, the
call returns an error and the file holds no document, neither the prior nor the new one;
with the write failing after two bytes it holds a partial one. -/
theorem store_not_atomic :
    (storeCloudventory { FSFaults.none with create := some "denied" }
        { files := fun path => if path = outputFile "EC2" then some "old" else none }
        "EC2" (.ok "new document")).1
      = some "failed to create output file: denied" ∧
    (storeCloudventory { FSFaults.none with create := some "denied" }
        { files := fun path => if path = outputFile "EC2" then some "old" else none }
        "EC2" (.ok "new document")).2.files (outputFile "EC2") = none ∧
    (storeCloudventory { FSFaults.none with write := some (2, "disk full") }
        { files := fun path => if path = outputFile "EC2" then some "old" else none }
        "EC2" (.ok "new document")).2.files (outputFile "EC2") = some "ne" := by
  decide

/-- C17, amended: the file `storeCloudventory` writes is the cleaned path
`filepath.Join` returns, which is `.cloudventory/<service>_inventory.json` for every
service name without a slash; after the call every other file is as before; when the call
returns nil the file holds the complete new document; when it returns an error the file
holds the complete prior document only if `MkdirAll` or `Remove` failed, no document if
`Create` failed, an empty file if marshalling failed and an initial part of the new
document if the write failed. -/
theorem store_replaces_in_place (faults : FSFaults) (fs : FS) (service : String)
    (document : Except String String) :
    ('/' ∉ service.data →
      outputFile service = ".cloudventory/" ++ service ++ "_inventory.json") ∧
    (outputFile "EC2" = ".cloudventory/EC2_inventory.json" ∧
      outputFile "./EC2" = ".cloudventory/EC2_inventory.json" ∧
      outputFile "../EC2" = "EC2_inventory.json") ∧
    (∀ path, path ≠ outputFile service →
      (storeCloudventory faults fs service document).2.files path = fs.files path) ∧
    ((storeCloudventory faults fs service document).1 = none →
      ∃ text, document = .ok text ∧
        (storeCloudventory faults fs service document).2.files (outputFile service)
          = some text) ∧
    (∀ err, (storeCloudventory faults fs service document).1 = some err →
      ((faults.mkdirAll ≠ none ∨ faults.remove ≠ none) ∧
        (storeCloudventory faults fs service document).2.files (outputFile service)
          = fs.files (outputFile service)) ∨
      (faults.create ≠ none ∧
        (storeCloudventory faults fs service document).2.files (outputFile service) = none) ∨
      ((∃ e, document = .error e) ∧
        (storeCloudventory faults fs service document).2.files (outputFile service)
          = some "") ∨
      (∃ text written e, document = .ok text ∧ faults.write = some (written, e) ∧
        (storeCloudventory faults fs service document).2.files (outputFile service)
          = some (String.mk (text.data.take written)))) := by
  refine ⟨outputFile_plain service, by decide, ?_⟩
  unfold storeCloudventory
  generalize outputFile service = out
  cases h1 : faults.mkdirAll with
  | some e1 => simp
  | none =>
    cases h2 : faults.remove with
    | some e2 => simp
    | none =>
      cases h3 : faults.create with
      | some e3 =>
        simp only [ne_eq, reduceCtorEq, not_false_eq_true, true_and, not_true_eq_false,
          or_self, false_and, false_or, Function.update_same, true_or, implies_true, and_true]
        refine ⟨fun path hp => Function.update_noteq hp _ _, ?_⟩
        simp
      | none =>
        cases document with
        | error e4 =>
          refine ⟨fun path hp => Function.update_noteq hp _ _, by simp, ?_⟩
          intro err _
          exact Or.inr (Or.inr (Or.inl ⟨⟨e4, rfl⟩, Function.update_same _ _ _⟩))
        | ok text =>
          cases h4 : faults.write with
          | some w =>
            obtain ⟨written, e5⟩ := w
            refine ⟨fun path hp => Function.update_noteq hp _ _, by simp, ?_⟩
            intro err _
            exact Or.inr (Or.inr (Or.inr
              ⟨text, written, e5, rfl, rfl, Function.update_same _ _ _⟩))
          | none =>
            exact ⟨fun path hp => Function.update_noteq hp _ _,
              fun _ => ⟨text, rfl, Function.update_same _ _ _⟩, by simp⟩

/-- C18, as stated, fails: at the concrete scan with the context done right after the
regions were listed, the next two steps of the dispatch loop still acquire two slots and
launch the tasks of A and B. -/
theorem cancelled_context_still_admits :
    runCtx demoProvider demoOpts false State.init
        [.act .main, .cancel, .act .main, .act .main] = some demoCancelledMid ∧
    demoCancelledMid.tasks.map Task.region = ["A", "B"] ∧ demoCancelledMid.sem = 2 := by
  decide

/-- C18, amended: in the dispatch loop, once the context is done the calling goroutine
takes exactly the step it would take otherwise, so it still acquires a slot and launches
a task for every remaining region that passes the filter; a task that is processing a page
takes exactly the step it would take otherwise, so every remaining instance of the page
is built and appended; and the next page fetch of a task, if its paginator has more
pages, fails with the context's error, which is printed and ends the task. -/
theorem cancelled_context_finishes_page (p : Provider) (opts : Options) (s : State)
    (ident : CallerIdentity) (hpc : s.pc = .loop ident) :
    stepMain p.cancelled opts s.cancelled = (stepMain p opts s).map State.cancelled ∧
    (∀ i t, s.tasks[i]? = some t → (t.pc ≠ .running ∨ t.pending ≠ [] ∨ t.pages = []) →
      stepTask s.cancelled i = (stepTask s i).map State.cancelled) ∧
    (∀ i t, s.tasks[i]? = some t → t.pc = .running → t.pending = [] → t.pages ≠ [] →
      stepTask s.cancelled i
        = some { s.cancelled with
            calls := s.calls ++ [.nextPage t.region]
            stdout := s.stdout ++ [.fetchFailed t.region ctxErr]
            tasks := s.cancelled.tasks.set i { t.cancelled with pc := .releasing } }) :=
  ⟨stepMain_cancelled p opts s ident hpc,
    fun i t ht h => stepTask_cancelled s i t ht h,
    fun i t ht hrun hpend hpages => stepTask_cancelled_fetch s ident i t hpc ht hrun hpend hpages⟩

/-- C18 amended, at the concrete scan: with the context done while A is processing its
page, the row of that page is still appended, C is still admitted, and the scan returns
the row of A with a nil error. -/
theorem cancelled_context_finishes_page_witness :
    demoCancelledEnd.pc = .returned demoCancelledEnd.results none ∧
    demoCancelledEnd.results.map (fun row => row.Region) = ["A"] ∧
    demoCancelledEnd.tasks.map Task.region = ["A", "B", "C"] ∧
    (stepMain demoProvider.cancelled demoOpts demoMid.cancelled
        = (stepMain demoProvider demoOpts demoMid).map State.cancelled ∧
    (∀ i t, demoMid.tasks[i]? = some t →
      (t.pc ≠ .running ∨ t.pending ≠ [] ∨ t.pages = []) →
      stepTask demoMid.cancelled i = (stepTask demoMid i).map State.cancelled) ∧
    (∀ i t, demoMid.tasks[i]? = some t → t.pc = .running → t.pending = [] → t.pages ≠ [] →
      stepTask demoMid.cancelled i
        = some { demoMid.cancelled with
            calls := demoMid.calls ++ [.nextPage t.region]
            stdout := demoMid.stdout ++ [.fetchFailed t.region ctxErr]
            tasks := demoMid.cancelled.tasks.set i { t.cancelled with pc := .releasing } })) :=
  ⟨by decide, by decide, by decide,
    cancelled_context_finishes_page demoProvider demoOpts demoMid demoIdent (by decide)⟩

/-- C19, as stated, fails twice: in the snapshot-writing `main`, when the configuration
loads and `RunAllInventories` reports a failure, the failure is logged and the process
exits with status zero; and the process of `cmd/main.go` exits with status 2 on a command
line that does not parse, before any pipeline has run. -/
theorem snapshot_exits_zero_on_failure :
    snapshotMain none [("S3", "[]inventory.S3Inventory")] (some "EC2: access denied")
        (fun _ => none)
      = (0, ["Some inventory fetches failed: EC2: access denied",
             "S3 inventory fetched: []inventory.S3Inventory"]) ∧
    cmd.main .bad { sqlOpen := none, ping := none, loadDefaultConfig := none } .nil = 2 := by
  decide

/-- C19, amended: the process of `cmd/main.go` exits with a non-zero status exactly when
its command line does not parse (status 2) or, the flags parsed, `run` does not return
nil; `run` returns an error, and `main` ends in `log.Fatal` with status 1, exactly when a
set-up step fails or, the set-up done, `collectInventory` returns an error; with the
set-up done the status is non-zero exactly when `collectInventory` does not return nil,
which in sequential mode is when not all five collectors return nil (a panic, which
nothing recovers, ends the process with status 2). The snapshot-writing `main` exits
non-zero exactly when loading the configuration fails, whatever `RunAllInventories` and
`storeCloudventory` report. -/
theorem exit_status_by_pipeline (flags : FlagParse) (setup : Setup)
    (collectInventory : Outcome) (r : Collectors) (cfgErr err : Option String)
    (results : List (String × String)) (store : String → Option String) :
    cmd.main .help setup collectInventory = 0 ∧
    cmd.main .bad setup collectInventory = 2 ∧
    (cmd.main flags setup collectInventory ≠ 0 ↔
      (flags = .bad ∨ (flags = .parsed ∧ cmd.run setup collectInventory ≠ .nil))) ∧
    (cmd.main .parsed setup collectInventory = 1 ↔
      ∃ e, cmd.run setup collectInventory = .error e) ∧
    (cmd.main .parsed setup collectInventory = 2 ↔ cmd.run setup collectInventory = .panic) ∧
    ((∃ e, cmd.run setup collectInventory = .error e) ↔
      (setup.sqlOpen ≠ none ∨ setup.ping ≠ none ∨ setup.loadDefaultConfig ≠ none ∨
        ∃ e, collectInventory = .error e)) ∧
    (setup.sqlOpen = none → setup.ping = none → setup.loadDefaultConfig = none →
      ((∃ e, cmd.run setup collectInventory = .error e) ↔ ∃ e, collectInventory = .error e) ∧
      (cmd.run setup collectInventory = .panic ↔ collectInventory = .panic) ∧
      (cmd.main .parsed setup collectInventory ≠ 0 ↔ collectInventory ≠ .nil) ∧
      (cmd.main .parsed setup (runSequential r).1 ≠ 0 ↔
        ¬ (r.collectS3 = .nil ∧ r.collectEC2 = .nil ∧ r.collectRDS = .nil ∧
          r.collectLambda = .nil ∧ r.collectDynamoDB = .nil))) ∧
    ((snapshotMain cfgErr results err store).1 ≠ 0 ↔ cfgErr ≠ none) := by
  have hseq : (runSequential r).1 = .nil ↔
      (r.collectS3 = .nil ∧ r.collectEC2 = .nil ∧ r.collectRDS = .nil ∧
        r.collectLambda = .nil ∧ r.collectDynamoDB = .nil) := by
    rw [runSequential, runSequentialLoop_nil_iff]
    simp [sequentialServices]
  have hmain : ∀ c : Outcome, setup.sqlOpen = none → setup.ping = none →
      setup.loadDefaultConfig = none → (cmd.main .parsed setup c ≠ 0 ↔ c ≠ .nil) := by
    intro c h1 h2 h3
    unfold cmd.main cmd.run
    rw [h1, h2, h3]
    cases c <;> simp
  refine ⟨rfl, rfl, ?_, ?_, ?_, ?_, ?_, ?_⟩
  · unfold cmd.main
    cases flags <;> cases cmd.run setup collectInventory <;> simp
  · unfold cmd.main
    cases cmd.run setup collectInventory <;> simp
  · unfold cmd.main
    cases cmd.run setup collectInventory <;> simp
  · unfold cmd.run
    cases setup.sqlOpen <;> cases setup.ping <;> cases setup.loadDefaultConfig <;>
      cases collectInventory <;> simp
  · intro h1 h2 h3
    refine ⟨?_, ?_, hmain collectInventory h1 h2 h3, ?_⟩
    · unfold cmd.run
      rw [h1, h2, h3]
      cases collectInventory <;> simp
    · unfold cmd.run
      rw [h1, h2, h3]
      cases collectInventory <;> simp
    · rw [hmain _ h1 h2 h3, ne_eq, hseq]
  · unfold snapshotMain
    cases cfgErr <;> simp

theorem foldl_join_append (separator : String) (rest : List String) :
    ∀ a b : String,
      rest.foldl (fun result s => result ++ (separator ++ s)) (a ++ b)
        = a ++ rest.foldl (fun result s => result ++ (separator ++ s)) b := by
  induction rest with
  | nil => intro a b; rfl
  | cons x rest ih =>
    intro a b
    rw [List.foldl_cons, List.foldl_cons, String.append_assoc, ih]

theorem intercalate_go_eq (separator : String) (rest : List String) :
    ∀ acc : String,
      String.intercalate.go acc separator rest
        = rest.foldl (fun result s => result ++ (separator ++ s)) acc := by
  induction rest with
  | nil => intro acc; rfl
  | cons x rest ih =>
    intro acc
    rw [String.intercalate.go, ih, List.foldl_cons, String.append_assoc]

/-- C20: `joinStrings` returns the empty string for an empty list, the element for a
singleton, and `x ++ sep ++ joinStrings (y :: rest) sep` for a list `x :: y :: rest`: the
elements in order with the separator between adjacent ones only; the copies of packages
`ec2`, `rds`, `lambda` and `dynamodb` are the same function. -/
theorem joinStrings_spec (x y : String) (rest slice : List String) (sep : String) :
    ec2.joinStrings [] sep = "" ∧ ec2.joinStrings [x] sep = x ∧
    ec2.joinStrings (x :: y :: rest) sep = x ++ sep ++ ec2.joinStrings (y :: rest) sep ∧
    ec2.joinStrings slice sep = String.intercalate sep slice ∧
    ec2.joinStrings ["a", "b", "c"] "," = "a,b,c" ∧ ec2.joinStrings ["x", "y"] "|" = "x|y" ∧
    rds.joinStrings slice sep = ec2.joinStrings slice sep ∧
    lambda.joinStrings slice sep = ec2.joinStrings slice sep ∧
    dynamodb.joinStrings slice sep = ec2.joinStrings slice sep := by
  refine ⟨rfl, rfl, ?_, ?_, by decide, by decide, rfl, rfl, rfl⟩
  · simp only [ec2.joinStrings, List.foldl_cons]
    rw [String.append_assoc, foldl_join_append, foldl_join_append]
  · cases slice with
    | nil => rfl
    | cons first more => exact (intercalate_go_eq sep more first).symm

/-- C21: `getEnv` returns the value of the variable when it is set, also when it is set to
the empty string, and the default value when it is not set; in particular for the two
cases of `TestGetEnv`. -/
theorem getEnv_spec (env : String → Option String) (key defaultValue : String) :
    (∀ value, env key = some value → getEnv env key defaultValue = value) ∧
    (env key = none → getEnv env key defaultValue = defaultValue) ∧
    (∀ value, getEnv (setenv env key value) key defaultValue = value) ∧
    getEnv (setenv env key "") key defaultValue = "" ∧
    getEnv (setenv (fun _ => none) "TEST_VAR" "env_value") "TEST_VAR" "default" = "env_value" ∧
    getEnv (fun _ => none) "NONEXISTENT_VAR" "default" = "default" := by
  refine ⟨?_, ?_, ?_, ?_, by decide, rfl⟩
  · intro value h; simp [getEnv, h]
  · intro h; simp [getEnv, h]
  · intro value; simp [getEnv, setenv]
  · simp [getEnv, setenv]

/-- C22: `getTagValue` returns the value of the first tag whose key (read with
`aws.ToString`) is `k`, the empty string when there is none; `extractTags` holds for `k`
the value of the last such tag; so when the keys of the tags are pairwise distinct,
`getTagValue tags k` is what `extractTags tags` holds for `k`, the empty string when `k`
is not a key, and the `Name` of a built row is its `Tags["Name"]`. With a repeated key the
two differ: the first value against the last. -/
theorem getTagValue_first_extractTags_last (tags : List Tag) (k : String) :
    getTagValue tags k
      = ((tags.find? (fun t => decide (ToString t.Key = k))).map
          (fun t => ToString t.Value)).getD "" ∧
    (extractTags tags).lookup k
      = (tags.reverse.find? (fun t => decide (ToString t.Key = k))).map
          (fun t => ToString t.Value) ∧
    ((tags.map (fun t => ToString t.Key)).Nodup →
      getTagValue tags k = mapGet (extractTags tags) k ∧
      (k ∉ tags.map (fun t => ToString t.Key) →
        getTagValue tags k = "" ∧ (extractTags tags).lookup k = none) ∧
      ∀ ident region inst row, inst.Tags = tags →
        buildInventory ident region inst = some row → row.Name = mapGet row.Tags "Name") ∧
    (getTagValue [⟨some "Name", some "a"⟩, ⟨some "Name", some "b"⟩] "Name" = "a" ∧
      mapGet (extractTags [⟨some "Name", some "a"⟩, ⟨some "Name", some "b"⟩]) "Name" = "b") := by
  have hlast : ∀ (ts : List Tag) (key : String), (extractTags ts).lookup key
      = (ts.reverse.find? (fun t => decide (ToString t.Key = key))).map
          (fun t => ToString t.Value) := by
    intro ts key
    unfold extractTags
    rw [lookup_foldl_mapSet]
    cases ts.reverse.find? (fun t => decide (ToString t.Key = key)) <;> rfl
  have hagree : ∀ (ts : List Tag) (key : String),
      (ts.map (fun t => ToString t.Key)).Nodup →
        getTagValue ts key = mapGet (extractTags ts) key := by
    intro ts key hnd
    rw [getTagValue_eq_find, mapGet, hlast, find_reverse_of_nodup ts key hnd]
  refine ⟨getTagValue_eq_find tags k, hlast tags k, ?_, by decide, by decide⟩
  intro hnd
  refine ⟨hagree tags k hnd, ?_, ?_⟩
  · intro hk
    have hnone : tags.find? (fun t => decide (ToString t.Key = k)) = none := by
      rw [List.find?_eq_none]
      intro x hx
      simp only [decide_eq_true_eq]
      intro hxk
      exact hk (List.mem_map.2 ⟨x, hx, hxk⟩)
    constructor
    · rw [getTagValue_eq_find, hnone]; rfl
    · rw [hlast, find_reverse_of_nodup tags k hnd, hnone]; rfl
  · intro ident region inst row htags hrow
    unfold buildInventory at hrow
    split at hrow
    · cases hrow
      simp only
      rw [htags]
      exact hagree tags "Name" hnd
    · cases hrow

/-- C23: `extractIAMRoleName` returns the empty string when the instance profile or its
ARN is absent or the ARN contains no slash; for an ARN with a slash it returns what
follows the last slash, so the empty string for an ARN that ends in a slash; and its
result never contains a slash. -/
theorem extractIAMRoleName_spec (inst : Instance) :
    (inst.IamInstanceProfile = none → extractIAMRoleName inst = "") ∧
    (inst.IamInstanceProfile = some none → extractIAMRoleName inst = "") ∧
    (∀ arn, inst.IamInstanceProfile = some (some arn) →
      ('/' ∉ arn.data → extractIAMRoleName inst = "") ∧
      (∀ pre suf, arn.data = pre ++ '/' :: suf → '/' ∉ suf →
        extractIAMRoleName inst = String.mk suf) ∧
      (∀ pre, arn.data = pre ++ ['/'] → extractIAMRoleName inst = "")) ∧
    '/' ∉ (extractIAMRoleName inst).data := by
  have hsuf : ∀ arn : String, inst.IamInstanceProfile = some (some arn) →
      ∀ pre suf, arn.data = pre ++ '/' :: suf → '/' ∉ suf →
        extractIAMRoleName inst = String.mk suf := by
    intro arn harn pre suf hdata hno
    obtain ⟨h1, h2⟩ := splitAt_after_sep '/' suf pre
    unfold extractIAMRoleName
    rw [harn]
    simp only
    rw [hdata, if_neg (by omega), h1, splitAt_no_sep '/' suf hno]
    rfl
  refine ⟨?_, ?_, ?_, ?_⟩
  · intro h; simp [extractIAMRoleName, h]
  · intro h; simp [extractIAMRoleName, h]
  · intro arn harn
    refine ⟨?_, hsuf arn harn, ?_⟩
    · intro hno
      unfold extractIAMRoleName
      rw [harn]
      simp only
      rw [splitAt_no_sep '/' arn.data hno]
      rfl
    · intro pre hdata
      exact hsuf arn harn pre [] hdata (by simp)
  · unfold extractIAMRoleName
    split
    · simp
    · simp
    · rename_i arn _
      simp only
      split
      · simp
      · cases hlast : (splitAt '/' arn.data).getLast? with
        | none => simp
        | some part =>
          simp only [Option.getD_some]
          exact splitAt_parts '/' arn.data part (List.mem_of_getLast?_eq_some hlast)

/-- C24: for every provider and any two options that both pass `Validate` and agree on
`ChunkSize` and `RegionFilter`, `FetchInventoryAcrossRegions` takes the same steps (so the
same schedules lead to the same states), it returns under both, and any two returns, also
under different schedules, carry the same error, dispatch the same regions in the same
order, make the same page requests for every region and hold the same multiset of rows:
`MaxRetries`, `Timeout` and `EnableParallelScan` are read by validation only. -/
theorem options_beyond_validation_have_no_effect (p : Provider) (o1 o2 : Options)
    (hv1 : o1.Validate = none) (hv2 : o2.Validate = none)
    (hc : o1.ChunkSize = o2.ChunkSize) (hf : o1.RegionFilter = o2.RegionFilter) :
    (∀ s a, step p o1 s a = step p o2 s a) ∧
    (∀ sched, run p o1 State.init sched = run p o2 State.init sched) ∧
    (∀ regions, dispatched o1 regions = dispatched o2 regions) ∧
    (∃ sched s result err, run p o1 State.init sched = some s ∧
      run p o2 State.init sched = some s ∧ s.pc = .returned result err) ∧
    (∀ sched1 sched2 s1 s2 r1 e1 r2 e2,
      run p o1 State.init sched1 = some s1 → run p o2 State.init sched2 = some s2 →
      s1.pc = .returned r1 e1 → s2.pc = .returned r2 e2 →
        e1 = e2 ∧ (r1 : Multiset EC2Inventory) = (r2 : Multiset EC2Inventory) ∧
        s1.tasks.map Task.region = s2.tasks.map Task.region ∧
        (∀ r, s1.calls.count (.nextPage r) = s2.calls.count (.nextPage r)) ∧
        (s1.calls : Multiset ProviderCall) = (s2.calls : Multiset ProviderCall)) := by
  refine ⟨step_options p o1 o2 hv1 hv2 hc hf,
    fun sched => run_options p o1 o2 hv1 hv2 hc hf sched State.init,
    dispatched_options o1 o2 hf, ?_, ?_⟩
  · obtain ⟨sched, s, result, err, hrun, hr⟩ :=
      exists_returned p o1 (State.init.cost p) State.init (inv_init p o1) (Nat.le_refl _)
    exact ⟨sched, s, result, err, hrun,
      (run_options p o1 o2 hv1 hv2 hc hf sched State.init) ▸ hrun, hr⟩
  · intro sched1 sched2 s1 s2 r1 e1 r2 e2 h1 h2 hp1 hp2
    obtain ⟨he, hrows, htasks, hcalls, -⟩ :=
      returned_options p o1 o2 hv1 hv2 hf sched1 sched2 s1 s2 h1 h2 r1 r2 e1 e2 hp1 hp2
    exact ⟨he, Multiset.coe_eq_coe.2 hrows, htasks, fun r => hcalls.count_eq _,
      Multiset.coe_eq_coe.2 hcalls⟩

/-- C24, at the concrete scan: the options with `MaxRetries = 7`, `Timeout = 99` and
`EnableParallelScan = true` lead, on the same schedule, to the state of the options with
`0`, `1` and `false`. -/
theorem options_beyond_validation_have_no_effect_witness :
    run demoProvider demoOtherOpts State.init demoSched = some demoEnd ∧
    demoOtherOpts.MaxRetries ≠ demoOpts.MaxRetries ∧
    ((∀ s a, step demoProvider demoOpts s a = step demoProvider demoOtherOpts s a) ∧
    (∀ sched, run demoProvider demoOpts State.init sched
      = run demoProvider demoOtherOpts State.init sched) ∧
    (∀ regions, dispatched demoOpts regions = dispatched demoOtherOpts regions) ∧
    (∃ sched s result err, run demoProvider demoOpts State.init sched = some s ∧
      run demoProvider demoOtherOpts State.init sched = some s ∧
      s.pc = .returned result err) ∧
    (∀ sched1 sched2 s1 s2 r1 e1 r2 e2,
      run demoProvider demoOpts State.init sched1 = some s1 →
      run demoProvider demoOtherOpts State.init sched2 = some s2 →
      s1.pc = .returned r1 e1 → s2.pc = .returned r2 e2 →
        e1 = e2 ∧ (r1 : Multiset EC2Inventory) = (r2 : Multiset EC2Inventory) ∧
        s1.tasks.map Task.region = s2.tasks.map Task.region ∧
        (∀ r, s1.calls.count (.nextPage r) = s2.calls.count (.nextPage r)) ∧
        (s1.calls : Multiset ProviderCall) = (s2.calls : Multiset ProviderCall))) :=
  ⟨by decide, by decide,
    options_beyond_validation_have_no_effect demoProvider demoOpts demoOtherOpts
      (by decide) (by decide) (by decide) (by decide)⟩

end Cloudventory
